import Mathlib

/-!
Verification of the scraped-data aggregation and resilient scoring pipeline
of the stylr-free repository.

Modelling conventions (shallow embedding of the TypeScript sources):
JavaScript strings are lists of characters (`JStr`); JavaScript numbers are
rationals, or integers where the source only ever stores integral values;
functions that can throw are `Except`- or `Option`-valued; `x || 0` is
modelled by `jsOr0`; `Math.round` (round half towards positive infinity) is
`jsRound`.  Each section names the source file it embeds.
-/

namespace Stylr

/-- JavaScript strings, modelled as lists of characters. -/
abbrev JStr := List Char

/-- Model of String.prototype.toLowerCase, character by character. -/
def jsLower (s : JStr) : JStr := s.map Char.toLower

/-- Boolean test that the first character list is a prefix of the second. -/
def isPrefixB : JStr → JStr → Bool
  | [], _ => true
  | _ :: _, [] => false
  | a :: as, b :: bs => a == b && isPrefixB as bs

/-- Model of String.prototype.includes: does w occur contiguously in s? -/
def containsB (w : JStr) : JStr → Bool
  | [] => isPrefixB w []
  | c :: rest => isPrefixB w (c :: rest) || containsB w rest

/-- Model of Math.round: round half towards positive infinity. -/
def jsRound (q : ℚ) : ℤ := ⌊q + 1/2⌋

/-- Model of the JavaScript idiom x || 0 on numbers (no NaN in the
rational model, so only 0 is replaced, by itself). -/
def jsOr0 (x : ℚ) : ℚ := if x = 0 then 0 else x

/-- Model of x || 0 on integer-valued fields. -/
def jsOr0Int (x : ℤ) : ℤ := if x = 0 then 0 else x

/-- Model of String.prototype.trim. -/
def jsTrim (s : JStr) : JStr :=
  ((s.dropWhile Char.isWhitespace).reverse.dropWhile Char.isWhitespace).reverse

/-- Decimal digits of a natural number, with structural fuel so that the
kernel can evaluate it. -/
def natToStrAux : ℕ → ℕ → JStr
  | 0, _ => []
  | fuel + 1, n =>
    if n < 10 then [Char.ofNat (48 + n)]
    else natToStrAux fuel (n / 10) ++ [Char.ofNat (48 + n % 10)]

/-- Decimal representation of a natural number (template-literal model). -/
def natToStr (n : ℕ) : JStr := natToStrAux (n + 1) n

/-- Decimal representation of an integer (template-literal model). -/
def intToStr (n : ℤ) : JStr :=
  if n < 0 then '-' :: natToStr n.natAbs else natToStr n.toNat

/-! ## Data model: src/app/lib/seo-analyzer.ts and src/app/lib/performance.ts -/

/-- SEOCheck of src/app/lib/seo-analyzer.ts.  status is one of
pass/warning/fail and priority one of critical/high/medium/low, kept as
strings exactly as in the source. -/
structure SEOCheck where
  name : JStr
  status : JStr
  message : JStr
  priority : JStr
  score : ℚ
deriving DecidableEq

/-- SEOAnalysis of src/app/lib/seo-analyzer.ts. -/
structure SEOAnalysis where
  score : ℤ
  checks : List SEOCheck
  recommendations : List JStr
deriving DecidableEq

/-- Per-device block of PerformanceMetrics (src/app/lib/performance.ts). -/
structure DeviceMetrics where
  score : ℚ
  fcp : ℚ
  lcp : ℚ
  ttfb : ℚ
  loadTime : ℚ
  speedIndex : ℚ
deriving DecidableEq

/-- ImageOptimizationItem of src/app/lib/performance.ts. -/
structure ImageOptimizationItem where
  url : JStr
  totalBytes : ℚ
  wastedBytes : ℚ
  format : JStr
  width : Option ℚ
  height : Option ℚ
deriving DecidableEq

/-- ImageFormatItem of src/app/lib/performance.ts. -/
structure ImageFormatItem where
  url : JStr
  wastedBytes : ℚ
  format : JStr
  webpSavingsBytes : Option ℚ
  avifSavingsBytes : Option ℚ
deriving DecidableEq

/-- images block of PerformanceMetrics.  The two counts are only ever
assigned integer values in the source (list lengths and literal
constants), so they are modelled as integers. -/
structure ImagesMetrics where
  totalSize : ℚ
  unoptimizedCount : ℤ
  totalCount : ℤ
  optimizationOpportunities : List ImageOptimizationItem
  formatOptimization : List ImageFormatItem
deriving DecidableEq

/-- Nested seo block of PerformanceMetrics. -/
structure SeoBlock where
  score : ℚ
deriving DecidableEq

/-- PerformanceMetrics of src/app/lib/performance.ts. -/
structure PerformanceMetrics where
  desktop : DeviceMetrics
  mobile : DeviceMetrics
  images : ImagesMetrics
  seo : SeoBlock
  overallScore : ℚ
deriving DecidableEq

/-! ## src/app/lib/scoring.ts -/

/-- ContentEnhancement as consumed by scoring.ts (only the quality score). -/
structure ContentEnhancement where
  contentQualityScore : ℚ
deriving DecidableEq

/-- breakdown field of OverallScore. -/
structure OverallBreakdown where
  content : ℚ
  seo : ℚ
  performance : ℚ
  mobile : ℚ
deriving DecidableEq

/-- OverallScore of src/app/lib/scoring.ts. -/
structure OverallScore where
  total : ℤ
  breakdown : OverallBreakdown
  label : JStr
  color : JStr
deriving DecidableEq

/-- calculateOverallScore of src/app/lib/scoring.ts: clamp the four
sub-scores to [0,100], weight them 35/30/20/15, round once, band the
label. -/
def calculateOverallScore (seoAnalysis : SEOAnalysis)
    (performanceMetrics : PerformanceMetrics)
    (contentEnhancement : ContentEnhancement) : OverallScore :=
  let contentScore := max 0 (min 100 (jsOr0 contentEnhancement.contentQualityScore))
  let seoScore := max 0 (min 100 (jsOr0 (seoAnalysis.score : ℚ)))
  let performanceScore := max 0 (min 100 (jsOr0 performanceMetrics.overallScore))
  let mobileScore := max 0 (min 100 (jsOr0 performanceMetrics.mobile.score))
  let weightedSum :=
    contentScore * 0.35 + seoScore * 0.30 + performanceScore * 0.20 + mobileScore * 0.15
  let total := jsRound weightedSum
  let labelColor : JStr × JStr :=
    if total ≥ 90 then ("Excellent".data, "green".data)
    else if total ≥ 75 then ("Good".data, "yellow".data)
    else if total ≥ 50 then ("Fair".data, "orange".data)
    else ("Poor".data, "red".data)
  { total := total
    breakdown :=
      { content := contentScore
        seo := seoScore
        performance := performanceScore
        mobile := mobileScore }
    label := labelColor.1
    color := labelColor.2 }

/-- estimatePotentialScore of src/app/lib/scoring.ts: additive uplift for
unresolved critical/high checks, unoptimized images and low content
quality, added to the current total and clamped. -/
def estimatePotentialScore (currentScore : OverallScore)
    (seoAnalysis : SEOAnalysis)
    (performanceMetrics : PerformanceMetrics) : ℤ :=
  let criticalSEOIssues :=
    (seoAnalysis.checks.filter
      (fun c => c.priority == "critical".data && c.status != "pass".data)).length
  let afterCritical : ℤ := (criticalSEOIssues : ℤ) * 5
  let highSEOIssues :=
    (seoAnalysis.checks.filter
      (fun c => c.priority == "high".data && c.status != "pass".data)).length
  let afterHigh : ℤ := afterCritical + (highSEOIssues : ℤ) * 3
  let unoptimizedCount := jsOr0Int performanceMetrics.images.unoptimizedCount
  let afterImages : ℤ :=
    if unoptimizedCount > 0 then afterHigh + min (unoptimizedCount * 2) 10 else afterHigh
  let potentialImprovement : ℤ :=
    if currentScore.breakdown.content < 85 then afterImages + 12 else afterImages
  let potential : ℚ := (currentScore.total : ℚ) + (potentialImprovement : ℚ)
  min (max 0 (jsRound potential)) 100

/-! ## Error handler (src/unnamed/part_007): retry policy -/

/-- shouldRetry of the error handler: retry only transient-flavoured
messages (timeout/network/connection/rate limit/429/503/502/504) and only
while the attempt count is below the ceiling (the maxAttempts parameter
defaults to 3 in the source).  The argument is the error's message, which
the source lowercases before the substring tests. -/
def shouldRetry (errorMessage : JStr) (attempt maxAttempts : ℕ) : Bool :=
  if attempt ≥ maxAttempts then false
  else
    let errorString := jsLower errorMessage
    containsB "timeout".data errorString ||
    containsB "network".data errorString ||
    containsB "connection".data errorString ||
    containsB "rate limit".data errorString ||
    containsB "429".data errorString ||
    containsB "503".data errorString ||
    containsB "502".data errorString ||
    containsB "504".data errorString

/-- getBackoffDelay of the error handler: exponential backoff capped at
30 seconds (baseDelay defaults to 1000 ms in the source). -/
def getBackoffDelay (attempt baseDelay : ℕ) : ℕ :=
  min (baseDelay * 2 ^ attempt) 30000

/-! ## src/app/lib/utils.ts: URL validation, and the analyze route -/

/-- Component view of a parsed URL, the fields of the WHATWG URL class
that this code base reads (protocol keeps the trailing colon; scheme and
hostname are lower-cased; pathname starts with a slash). -/
structure URLParts where
  protocol : JStr
  hostname : JStr
  pathname : JStr
  search : JStr
deriving DecidableEq

/-- Model of the JavaScript URL constructor for the hierarchical
scheme://host/path?query#fragment shapes this code base feeds it: the
scheme is the run before the first colon (letter-led), a literal // must
follow the colon, the host runs to the next /, ?, or #, the path to the
next ? or # (defaulting to /), the query from ? up to #.  Returns none
where the constructor throws (no colon, bad scheme, or no // separator;
ports and userinfo are not modelled and stay part of the host). -/
def parseURL (s : JStr) : Option URLParts :=
  let scheme := s.takeWhile (fun c => c ≠ ':')
  let rest := s.dropWhile (fun c => c ≠ ':')
  match rest with
  | [] => none
  | _ :: afterColon =>
    if scheme = [] then none
    else if ¬ (scheme.headD ' ').isAlpha then none
    else if ¬ scheme.all (fun c => c.isAlpha ∨ c.isDigit ∨ c = '+' ∨ c = '-' ∨ c = '.') then none
    else if ¬ (isPrefixB "//".data afterColon) then none
    else
      let afterSlashes := afterColon.drop 2
      let host := afterSlashes.takeWhile (fun c => c ≠ '/' ∧ c ≠ '?' ∧ c ≠ '#')
      let afterHost := afterSlashes.dropWhile (fun c => c ≠ '/' ∧ c ≠ '?' ∧ c ≠ '#')
      let path0 := afterHost.takeWhile (fun c => c ≠ '?' ∧ c ≠ '#')
      let afterPath := afterHost.dropWhile (fun c => c ≠ '?' ∧ c ≠ '#')
      let query := afterPath.takeWhile (fun c => c ≠ '#')
      some
        { protocol := jsLower scheme ++ [':']
          hostname := jsLower host
          pathname := if path0 = [] then ['/'] else path0
          search := query }

/-- isValidProductURL of src/app/lib/utils.ts: http/https only, a
non-empty hostname, and no localhost or private-loopback hostname. -/
def isValidProductURL (url : JStr) : Bool :=
  match parseURL url with
  | none => false
  | some parsed =>
    if ¬ (parsed.protocol == "http:".data || parsed.protocol == "https:".data) then false
    else if parsed.hostname == [] then false
    else if containsB "localhost".data parsed.hostname ||
            containsB "127.0.0.1".data parsed.hostname ||
            containsB "0.0.0.0".data parsed.hostname then false
    else true

/-- Pipeline operations the analyze route can invoke downstream of its
validation phase. -/
inductive RouteOp where
  | scrape
  | seo
  | perf
  | enhance
deriving DecidableEq

/-- Control-flow skeleton of the analyze route's POST handler
(src/unnamed/part_008): the url field of the request body (none when the
field is absent or not a string; the empty string is falsy and rejected
like an absent one), validated before anything runs.  The result pairs
the HTTP status chosen by the validation phase with the list of pipeline
operations the handler goes on to invoke. -/
def postValidateAndDispatch (urlField : Option JStr) : ℕ × List RouteOp :=
  match urlField with
  | none => (400, [])
  | some url =>
    if url = [] then (400, [])
    else if isValidProductURL url then
      (200, [RouteOp.scrape, RouteOp.seo, RouteOp.perf, RouteOp.enhance])
    else (400, [])

/-! ## Performance client: src/app/lib/performance.ts -/

/-- Truthy-or on an optional number: the JavaScript idiom v?.field || k. -/
def truthyOr (o : Option ℚ) (k : ℚ) : ℚ :=
  match o with
  | none => k
  | some x => if x = 0 then k else x

/-- Truthy-or on an optional string: the JavaScript idiom v || ''. -/
def jsOrStr (o : Option JStr) : JStr :=
  match o with
  | none => []
  | some s => s

/-- Left-biased choice between two optional values: the JavaScript || on
two possibly-undefined object fields. -/
def orElseOpt {α : Type} (a b : Option α) : Option α :=
  match a with
  | some x => some x
  | none => b

/-- One entry of a lighthouse audit's details.items array, with every
field possibly absent as in the raw API payload. -/
structure AuditDetailsItem where
  url : Option JStr
  totalBytes : Option ℚ
  wastedBytes : Option ℚ
  mimeType : Option JStr
  width : Option ℚ
  height : Option ℚ
  webpSavingsBytes : Option ℚ
  avifSavingsBytes : Option ℚ
deriving DecidableEq

/-- The category scores the code reads from lighthouseResult.categories
(each categories.X?.score may be absent). -/
structure LighthouseCategories where
  performance : Option ℚ
  seo : Option ℚ
deriving DecidableEq

/-- The audit fields the code reads from lighthouseResult.audits: the
numericValue of the named timing audits, and details.items of the two
image audits (none models an absent audit or absent details/items). -/
structure LighthouseAudits where
  firstContentfulPaint : Option ℚ
  largestContentfulPaint : Option ℚ
  serverResponseTime : Option ℚ
  loadTime : Option ℚ
  totalBlockingTime : Option ℚ
  speedIndex : Option ℚ
  usesOptimizedImages : Option (List AuditDetailsItem)
  modernImageFormats : Option (List AuditDetailsItem)
deriving DecidableEq

/-- The slice of a PageSpeed lighthouseResult the code consumes. -/
structure LighthouseResult where
  categories : LighthouseCategories
  audits : LighthouseAudits
deriving DecidableEq

/-- Value returned by one successful fetchPageSpeedMetrics call. -/
structure PageSpeedData where
  score : ℚ
  fcp : ℚ
  lcp : ℚ
  ttfb : ℚ
  loadTime : ℚ
  speedIndex : ℚ
  lighthouseResult : LighthouseResult
deriving DecidableEq

/-- Outcome of one HTTP attempt against the PageSpeed API: a response
with a status code and a body (none models a body without a usable
lighthouseResult), or a thrown fetch failure such as a timeout. -/
inductive AttemptOutcome where
  | response (status : ℕ) (body : Option LighthouseResult)
  | networkFailure (message : JStr)
deriving DecidableEq

/-- getFallbackPerformanceMetrics of src/app/lib/performance.ts: the
neutral constants returned whenever real metrics are unavailable. -/
def getFallbackPerformanceMetrics : PerformanceMetrics :=
  { desktop := { score := 50, fcp := 2000, lcp := 3000, ttfb := 500,
                 loadTime := 4000, speedIndex := 3500 }
    mobile := { score := 50, fcp := 2500, lcp := 4000, ttfb := 600,
                loadTime := 5000, speedIndex := 4500 }
    images := { totalSize := 1000000, unoptimizedCount := 2, totalCount := 5,
                optimizationOpportunities := [], formatOptimization := [] }
    seo := { score := 0 }
    overallScore := 50 }

/-- The hand-written fallback PerformanceMetrics object built inline in
the analyze route (src/unnamed/part_008) when the performance branch of
the parallel analysis is rejected. -/
def routeFallbackPerformanceMetrics : PerformanceMetrics :=
  { desktop := { score := 50, fcp := 2000, lcp := 3000, ttfb := 500,
                 loadTime := 4000, speedIndex := 3500 }
    mobile := { score := 50, fcp := 2500, lcp := 4000, ttfb := 600,
                loadTime := 5000, speedIndex := 4500 }
    images := { totalSize := 1000000, unoptimizedCount := 2, totalCount := 5,
                optimizationOpportunities := [], formatOptimization := [] }
    seo := { score := 0 }
    overallScore := 50 }

/-- fetchPageSpeedMetrics of src/app/lib/performance.ts for one device
profile, as a function of the per-attempt HTTP outcomes: a non-AIza key
throws; a success status with a usable body yields extracted metrics; a
retryable status (500/502/503/504/429) is retried up to 2 more times;
anything else throws. -/
def fetchPageSpeedMetrics (apiKey : JStr) (attempts : ℕ → AttemptOutcome)
    (retryCount : ℕ) : Except JStr PageSpeedData :=
  if ¬ isPrefixB "AIza".data apiKey then
    .error "Invalid PageSpeed API key format. Key should start with AIza".data
  else
    match attempts retryCount with
    | .networkFailure m =>
      .error ("Failed to fetch performance metrics: ".data ++ m)
    | .response status body =>
      if 200 ≤ status ∧ status ≤ 299 then
        match body with
        | none => .error "Invalid performance analysis response: missing data".data
        | some lighthouse =>
          .ok
            { score := ((jsRound (truthyOr lighthouse.categories.performance 0 * 100) : ℤ) : ℚ)
              fcp := truthyOr lighthouse.audits.firstContentfulPaint 0
              lcp := truthyOr lighthouse.audits.largestContentfulPaint 0
              ttfb := truthyOr lighthouse.audits.serverResponseTime 0
              loadTime := truthyOr lighthouse.audits.loadTime
                            (truthyOr lighthouse.audits.totalBlockingTime 0)
              speedIndex := truthyOr lighthouse.audits.speedIndex 0
              lighthouseResult := lighthouse }
      else if h : status ∈ [500, 502, 503, 504, 429] ∧ retryCount < 2 then
        fetchPageSpeedMetrics apiKey attempts (retryCount + 1)
      else
        .error ("PageSpeed API error: ".data ++ natToStr status)
termination_by 2 - retryCount
decreasing_by omega

/-- calculateImageMetrics of src/app/lib/performance.ts: itemized image
opportunities from the two image audits (mobile first), or, when both are
empty, a 3-tier estimate keyed off the average category score. -/
def calculateImageMetrics (mobileLighthouse desktopLighthouse : LighthouseResult) :
    ImagesMetrics :=
  let imageOptimizationAudit :=
    orElseOpt mobileLighthouse.audits.usesOptimizedImages
      desktopLighthouse.audits.usesOptimizedImages
  let optimizationOpportunities : List ImageOptimizationItem :=
    match imageOptimizationAudit with
    | none => []
    | some items =>
      items.map (fun item =>
        { url := jsOrStr item.url
          totalBytes := truthyOr item.totalBytes 0
          wastedBytes := truthyOr item.wastedBytes 0
          format := jsOrStr item.mimeType
          width := item.width
          height := item.height })
  let formatOptimizationAudit :=
    orElseOpt mobileLighthouse.audits.modernImageFormats
      desktopLighthouse.audits.modernImageFormats
  let formatOptimization : List ImageFormatItem :=
    match formatOptimizationAudit with
    | none => []
    | some items =>
      items.map (fun item =>
        { url := jsOrStr item.url
          wastedBytes := truthyOr item.wastedBytes 0
          format := jsOrStr item.mimeType
          webpSavingsBytes := item.webpSavingsBytes
          avifSavingsBytes := item.avifSavingsBytes })
  let totalSize := (optimizationOpportunities.map (·.totalBytes)).sum
  let unoptimizedCount : ℤ := optimizationOpportunities.length
  let totalCount : ℤ :=
    unoptimizedCount + (if optimizationOpportunities.length > 0 then 0 else 3)
  if optimizationOpportunities = [] ∧ formatOptimization = [] then
    let mobileScore := truthyOr mobileLighthouse.categories.performance 0
    let desktopScore := truthyOr desktopLighthouse.categories.performance 0
    let avgScore := (mobileScore + desktopScore) / 2
    if avgScore < 0.5 then
      { totalSize := 3000000, unoptimizedCount := 5, totalCount := 8,
        optimizationOpportunities := [], formatOptimization := [] }
    else if avgScore < 0.7 then
      { totalSize := 1500000, unoptimizedCount := 3, totalCount := 5,
        optimizationOpportunities := [], formatOptimization := [] }
    else
      { totalSize := 500000, unoptimizedCount := 0, totalCount := 3,
        optimizationOpportunities := [], formatOptimization := [] }
  else
    { totalSize := totalSize, unoptimizedCount := unoptimizedCount,
      totalCount := max totalCount unoptimizedCount,
      optimizationOpportunities := optimizationOpportunities,
      formatOptimization := formatOptimization }

/-- Combination step of fetchPerformanceMetrics once at least one device
profile succeeded: SEO sub-score from the mobile categories (desktop as
fallback, else 0), image metrics from the audits, and overall score
round(mobile·0.6 + desktop·0.4). -/
def combineProfiles (mobileData desktopData : PageSpeedData) : PerformanceMetrics :=
  let seoScore : ℚ :=
    match mobileData.lighthouseResult.categories.seo with
    | some s => ((jsRound (s * 100) : ℤ) : ℚ)
    | none =>
      match desktopData.lighthouseResult.categories.seo with
      | some s => ((jsRound (s * 100) : ℤ) : ℚ)
      | none => 0
  let imageMetrics :=
    calculateImageMetrics mobileData.lighthouseResult desktopData.lighthouseResult
  let overallScore : ℚ :=
    ((jsRound (mobileData.score * 0.6 + desktopData.score * 0.4) : ℤ) : ℚ)
  { desktop := { score := desktopData.score, fcp := desktopData.fcp,
                 lcp := desktopData.lcp, ttfb := desktopData.ttfb,
                 loadTime := desktopData.loadTime, speedIndex := desktopData.speedIndex }
    mobile := { score := mobileData.score, fcp := mobileData.fcp,
                lcp := mobileData.lcp, ttfb := mobileData.ttfb,
                loadTime := mobileData.loadTime, speedIndex := mobileData.speedIndex }
    images := imageMetrics
    seo := { score := seoScore }
    overallScore := overallScore }

/-- fetchPerformanceMetrics of src/app/lib/performance.ts as a function
of the credential and the per-attempt outcomes of the two device-profile
call sequences.  The function is total: every upstream outcome maps to a
fully populated PerformanceMetrics, mirroring the source's settle-all
discipline (absent or malformed credential, or both profiles failing,
give the fallback constants; a single surviving profile is duplicated
into the missing slot). -/
def fetchPerformanceMetrics (pagespeedApiKey : Option JStr)
    (mobileAttempts desktopAttempts : ℕ → AttemptOutcome) : PerformanceMetrics :=
  match pagespeedApiKey with
  | none => getFallbackPerformanceMetrics
  | some key =>
    if ¬ isPrefixB "AIza".data key then getFallbackPerformanceMetrics
    else
      match fetchPageSpeedMetrics key mobileAttempts 0,
            fetchPageSpeedMetrics key desktopAttempts 0 with
      | .error _, .error _ => getFallbackPerformanceMetrics
      | .error _, .ok desktopData => combineProfiles desktopData desktopData
      | .ok mobileData, .error _ => combineProfiles mobileData mobileData
      | .ok mobileData, .ok desktopData => combineProfiles mobileData desktopData

/-! ## Rule-based SEO analyzer: src/app/lib/seo-analyzer.ts -/

/-- One scraped image reference. -/
structure ScrapedImage where
  src : JStr
  alt : JStr
deriving DecidableEq

/-- ScrapedProductData of the scraper module (src/unnamed/part_006), the
fields the analyzer and the claims read.  schema is any structured-data
object, used only for truthiness, so it is modelled as an optional unit;
the nested technicalSEO blob is not read by the analyzer and is omitted
from the model. -/
structure ScrapedProductData where
  title : JStr
  description : JStr
  metaTitle : JStr
  metaDescription : JStr
  h1 : JStr
  h1Count : ℕ
  features : List JStr
  images : List ScrapedImage
  price : JStr
  schema : Option Unit
  url : JStr
  productType : JStr
  category : JStr
  ctaText : Option JStr
  brand : Option JStr
  sku : Option JStr
  availability : Option JStr
deriving DecidableEq

/-- Meta Title check (check 1), paired with the amount the source adds to
totalScore in the same branch (nothing is added in the fail branch). -/
def metaTitleCheck (d : ScrapedProductData) : SEOCheck × ℚ :=
  if d.metaTitle = [] ∨ (jsTrim d.metaTitle).length = 0 then
    (⟨"Meta Title".data, "fail".data, "Meta title is missing".data, "critical".data, 0⟩, 0)
  else
    let titleLength := d.metaTitle.length
    if titleLength < 30 then
      (⟨"Meta Title".data, "warning".data,
        "Meta title is too short (".data ++ natToStr titleLength ++
          " chars, aim for 50-60)".data, "high".data, 5⟩, 5)
    else if titleLength > 60 then
      (⟨"Meta Title".data, "warning".data,
        "Meta title is too long (".data ++ natToStr titleLength ++
          " chars, aim for 50-60)".data, "medium".data, 7⟩, 7)
    else
      (⟨"Meta Title".data, "pass".data,
        "Meta title is optimal (".data ++ natToStr titleLength ++ " chars)".data,
        "low".data, 10⟩, 10)

/-- Meta Description check (check 2). -/
def metaDescriptionCheck (d : ScrapedProductData) : SEOCheck × ℚ :=
  if d.metaDescription = [] ∨ (jsTrim d.metaDescription).length = 0 then
    (⟨"Meta Description".data, "fail".data, "Meta description is missing".data,
      "critical".data, 0⟩, 0)
  else
    let descLength := d.metaDescription.length
    if descLength < 120 then
      (⟨"Meta Description".data, "warning".data,
        "Meta description is too short (".data ++ natToStr descLength ++
          " chars, aim for 150-160)".data, "high".data, 5⟩, 5)
    else if descLength > 160 then
      (⟨"Meta Description".data, "warning".data,
        "Meta description may be truncated (".data ++ natToStr descLength ++
          " chars, aim for 150-160)".data, "medium".data, 7⟩, 7)
    else
      (⟨"Meta Description".data, "pass".data,
        "Meta description is optimal (".data ++ natToStr descLength ++ " chars)".data,
        "low".data, 10⟩, 10)

/-- H1 Tag check (check 3). -/
def h1Check (d : ScrapedProductData) : SEOCheck × ℚ :=
  if d.h1 = [] ∨ (jsTrim d.h1).length = 0 then
    (⟨"H1 Tag".data, "fail".data, "H1 tag is missing".data, "critical".data, 0⟩, 0)
  else if d.h1Count > 1 then
    (⟨"H1 Tag".data, "warning".data,
      "Multiple H1 tags found (".data ++ natToStr d.h1Count ++
        "), should have only one".data, "high".data, 5⟩, 5)
  else
    (⟨"H1 Tag".data, "pass".data, "Single, well-structured H1 tag found".data,
      "low".data, 10⟩, 10)

/-- Product Schema check (check 4). -/
def schemaCheck (d : ScrapedProductData) : SEOCheck × ℚ :=
  match d.schema with
  | none =>
    (⟨"Product Schema".data, "fail".data,
      "Product schema markup not detected (High priority fix!)".data,
      "critical".data, 0⟩, 0)
  | some _ =>
    (⟨"Product Schema".data, "pass".data, "Product schema markup detected".data,
      "low".data, 15⟩, 15)

/-- HTTPS check (check 5). -/
def httpsCheck (d : ScrapedProductData) : SEOCheck × ℚ :=
  if ¬ isPrefixB "https://".data d.url then
    (⟨"HTTPS".data, "fail".data, "Page is not using HTTPS".data, "critical".data, 0⟩, 0)
  else
    (⟨"HTTPS".data, "pass".data, "HTTPS enabled and valid".data, "low".data, 10⟩, 10)

/-- Test of the URL-cleanliness regex of the analyzer: a leading slash
followed by one or more letters, digits, hyphens or slashes (the regex
has the case-insensitive flag, so both letter cases match). -/
def cleanPathB (p : JStr) : Bool :=
  match p with
  | '/' :: rest =>
    rest ≠ [] && rest.all (fun c => c.isAlpha || c.isDigit || c = '-' || c = '/')
  | _ => false

/-- URL Structure check (check 6), on the pathname of the parsed URL. -/
def urlStructureCheck (urlPath : JStr) : SEOCheck × ℚ :=
  if ¬ (cleanPathB urlPath && ¬ containsB "?".data urlPath) then
    (⟨"URL Structure".data, "warning".data,
      "URL contains query parameters or special characters".data, "medium".data, 5⟩, 5)
  else
    (⟨"URL Structure".data, "pass".data, "Clean, descriptive URL structure".data,
      "low".data, 10⟩, 10)

/-- Content Length check (check 7). -/
def contentLengthCheck (d : ScrapedProductData) : SEOCheck × ℚ :=
  let descriptionLength := if d.description ≠ [] then (jsTrim d.description).length else 0
  if descriptionLength = 0 then
    (⟨"Content Length".data, "fail".data,
      "Product description is missing or could not be extracted".data,
      "critical".data, 0⟩, 0)
  else if descriptionLength < 200 then
    (⟨"Content Length".data, "warning".data,
      "Product description is too short (".data ++ natToStr descriptionLength ++
        " chars, aim for 300+)".data, "high".data, 5⟩, 5)
  else if descriptionLength < 500 then
    (⟨"Content Length".data, "pass".data,
      "Product description length is adequate (".data ++ natToStr descriptionLength ++
        " chars)".data, "low".data, 10⟩, 10)
  else
    (⟨"Content Length".data, "pass".data,
      "Product description is comprehensive (".data ++ natToStr descriptionLength ++
        " chars)".data, "low".data, 10⟩, 10)

/-- Key Features check (check 8). -/
def featuresCheck (d : ScrapedProductData) : SEOCheck × ℚ :=
  if d.features.length = 0 then
    (⟨"Key Features".data, "warning".data,
      "No key features or bullet points found".data, "high".data, 3⟩, 3)
  else if d.features.length < 3 then
    (⟨"Key Features".data, "warning".data,
      "Only ".data ++ natToStr d.features.length ++
        " feature(s) found, aim for 5-7".data, "medium".data, 6⟩, 6)
  else
    (⟨"Key Features".data, "pass".data,
      natToStr d.features.length ++ " key features found".data, "low".data, 10⟩, 10)

/-- analyzeSEO of src/app/lib/seo-analyzer.ts: the eight checks in source
order, the incremental totalScore, normalization of the raw total against
the fixed 85-point maximum onto a 100-point scale with one rounding and a
clamp, and the recommendations derived from the non-passing critical and
high-priority checks, critical first.  The function throws (models as an
error) only when the URL constructor rejects the snapshot's url inside
check 6. -/
def analyzeSEO (scrapedData : ScrapedProductData) : Except JStr SEOAnalysis :=
  match parseURL scrapedData.url with
  | none => .error "Invalid URL".data
  | some parsed =>
    let p1 := metaTitleCheck scrapedData
    let p2 := metaDescriptionCheck scrapedData
    let p3 := h1Check scrapedData
    let p4 := schemaCheck scrapedData
    let p5 := httpsCheck scrapedData
    let p6 := urlStructureCheck parsed.pathname
    let p7 := contentLengthCheck scrapedData
    let p8 := featuresCheck scrapedData
    let totalScore := p1.2 + p2.2 + p3.2 + p4.2 + p5.2 + p6.2 + p7.2 + p8.2
    let maxPossibleScore : ℚ := 85
    let maxScore : ℚ := 100
    let normalizedScore := totalScore / maxPossibleScore * maxScore
    let finalScore := min (max 0 (jsRound normalizedScore)) 100
    let checks := [p1.1, p2.1, p3.1, p4.1, p5.1, p6.1, p7.1, p8.1]
    let criticalIssues := checks.filter
      (fun c => c.priority == "critical".data && c.status != "pass".data)
    let highPriorityIssues := checks.filter
      (fun c => c.priority == "high".data && c.status != "pass".data)
    let recommendations :=
      (if criticalIssues.length > 0 then
        criticalIssues.map (fun c => "🔴 Critical: ".data ++ c.message)
       else []) ++
      (if highPriorityIssues.length > 0 then
        highPriorityIssues.map (fun c => "🟠 High: ".data ++ c.message)
       else [])
    .ok { score := finalScore, checks := checks, recommendations := recommendations }

/-- Snapshot realizing the spec's all-checks-failing scenario: no meta
title, no meta description, no H1, no schema, a non-HTTPS url whose path
contains a character outside the clean-URL class, an empty description
and zero features. -/
def allFailSnapshot : ScrapedProductData :=
  { title := [], description := [], metaTitle := [], metaDescription := [],
    h1 := [], h1Count := 0, features := [], images := [], price := [],
    schema := none, url := "http://example.com/p_x".data, productType := [],
    category := [], ctaText := none, brand := none, sku := none,
    availability := none }

/-! ## Error sanitizer: src/unnamed/part_007

The sanitization map applies 14 global, case-insensitive regex
replacements in order.  Every pattern used is an alternation of literal
runs optionally separated by `.*` gaps (the only regex operators the file
uses are alternation, an optional hyphen written gpt-?5, which expands to
the two literal alternatives, an escaped dot, and `.*`).  The engine
below implements exactly that fragment with JavaScript semantics:
leftmost match position, alternatives tried in order at each position,
`.*` greedy and not crossing line terminators, and the scan resuming
after the replaced span without rescanning the replacement text. -/

/-- Line terminators that `.` does not match in JavaScript regexes. -/
def isNL (c : Char) : Bool :=
  c = '\n' || c = '\r' || c = Char.ofNat 8232 || c = Char.ofNat 8233

/-- Case-insensitive match of a lowercase pattern literal at the head of
the text. -/
def litAt : JStr → JStr → Bool
  | [], _ => true
  | _ :: _, [] => false
  | a :: as, b :: bs => a == b.toLower && litAt as bs

/-- Length of the maximal non-line-terminator prefix of the text: the
window a `.*` gap may span. -/
def nonNLPrefixLen (s : JStr) : ℕ := (s.takeWhile (fun c => ¬ isNL c)).length

/-- Greedy search for the last position inside the gap window at which
the literal matches. -/
def greedyLast (l : JStr) (t : JStr) : Option ℕ :=
  (List.range (nonNLPrefixLen t + 1)).reverse.find? (fun k => litAt l (t.drop k))

/-- One alternative of a sanitization pattern: a plain literal, or two or
three literals separated by greedy `.*` gaps. -/
inductive RAlt where
  | lit (l : JStr)
  | gap2 (l1 l2 : JStr)
  | gap3 (l1 l2 l3 : JStr)
deriving DecidableEq

/-- First literal of an alternative (every alternative used in the
source starts with a literal). -/
def altFirstLit : RAlt → JStr
  | .lit l => l
  | .gap2 l1 _ => l1
  | .gap3 l1 _ _ => l1

/-- Match one alternative at the head of the text, returning the length
of the (greedy) match. -/
def matchAltAt (a : RAlt) (s : JStr) : Option ℕ :=
  match a with
  | .lit l => if litAt l s then some l.length else none
  | .gap2 l1 l2 =>
    if litAt l1 s then
      let t := s.drop l1.length
      match greedyLast l2 t with
      | some k => some (l1.length + (k + l2.length))
      | none => none
    else none
  | .gap3 l1 l2 l3 =>
    if litAt l1 s then
      let t := s.drop l1.length
      match (List.range (nonNLPrefixLen t + 1)).reverse.findSome?
          (fun k =>
            if litAt l2 (t.drop k) then
              match greedyLast l3 ((t.drop k).drop l2.length) with
              | some j => some (k + (l2.length + (j + l3.length)))
              | none => none
            else none) with
      | some m => some (l1.length + m)
      | none => none
    else none

/-- Match a pattern (ordered alternatives) at the head of the text. -/
def matchPatAt (p : List RAlt) (s : JStr) : Option ℕ :=
  p.findSome? (fun a => matchAltAt a s)

/-- Scan of String.prototype.replace with a global regex: at each
position, replace the (first-alternative, greedy) match and resume after
it, otherwise keep the character.  Structural fuel (at least the text
length) keeps the definition kernel-computable; every pattern in the
sanitization map consumes at least one character per match. -/
def replaceScanAux (p : List RAlt) (repl : JStr) : ℕ → JStr → JStr
  | 0, s => s
  | _ + 1, [] => []
  | fuel + 1, c :: rest =>
    match matchPatAt p (c :: rest) with
    | some n => repl ++ replaceScanAux p repl fuel ((c :: rest).drop n)
    | none => c :: replaceScanAux p repl fuel rest

/-- Global regex replacement over the whole string. -/
def replaceAll (p : List RAlt) (repl : JStr) (s : JStr) : JStr :=
  replaceScanAux p repl s.length s

/-- First entry of the sanitization map:
replicate|gpt-?5|openai|gpt-?4 (the optional hyphen expands into the
hyphenated alternative tried first). -/
def replicatePattern : List RAlt :=
  [.lit "replicate".data, .lit "gpt-5".data, .lit "gpt5".data,
   .lit "openai".data, .lit "gpt-4".data, .lit "gpt4".data]

/-- Sixth entry of the sanitization map:
pagespeed|google.*pagespeed|lighthouse. -/
def pagespeedPattern : List RAlt :=
  [.lit "pagespeed".data, .gap2 "google".data "pagespeed".data,
   .lit "lighthouse".data]

/-- The ordered sanitization map of sanitizeError: 14 patterns with
their replacement strings. -/
def sanitizationMap : List (List RAlt × JStr) :=
  [(replicatePattern, "Stylr AI".data),
   ([.lit "replicate api".data, .lit "replicate.com".data], "Stylr AI service".data),
   ([.lit "prediction failed".data, .lit "prediction error".data,
     .lit "prediction timeout".data], "analysis processing".data),
   ([.lit "model version".data, .lit "model hash".data], "service configuration".data),
   ([.lit "api token".data, .gap2 "replicate".data "token".data],
     "service authentication".data),
   (pagespeedPattern, "performance analysis".data),
   ([.gap2 "pagespeed".data "api".data, .lit "pagespeedonline".data],
     "Stylr AI performance service".data),
   ([.gap2 "api".data "error".data, .gap2 "api".data "failed".data,
     .gap2 "api".data "timeout".data], "service error".data),
   ([.gap2 "failed to".data "api".data, .gap2 "api".data "unavailable".data],
     "service temporarily unavailable".data),
   ([.gap2 "fetch".data "failed".data, .gap2 "network".data "error".data,
     .gap2 "request".data "timeout".data], "connection issue".data),
   ([.lit "timeout".data, .lit "timed out".data], "processing timeout".data),
   ([.gap2 "json".data "parse".data, .lit "invalid json".data,
     .lit "malformed json".data], "data format error".data),
   ([.gap2 "rate".data "limit".data, .gap3 "too".data "many".data "requests".data,
     .lit "429".data], "service temporarily busy".data),
   ([.lit "unauthorized".data, .lit "401".data, .lit "403".data,
     .gap2 "authentication".data "failed".data], "authentication error".data)]

/-- Application of the whole sanitization map in order. -/
def sanitizeMessage (msg : JStr) : JStr :=
  sanitizationMap.foldl (fun m pr => replaceAll pr.1 pr.2 m) msg

/-- SanitizedError of the error handler. -/
structure SanitizedError where
  message : JStr
  code : JStr
  userFriendly : JStr
  shouldLog : Bool
deriving DecidableEq

/-- sanitizeError of src/unnamed/part_007, as a function of the raw
error's message text: the pattern replacements, the user-friendly
categorization (which echoes the sanitized message in the generic
fallback case), and the code classification. -/
def sanitizeError (rawMessage : JStr) : SanitizedError :=
  let errorMessage := if rawMessage = [] then "An unexpected error occurred".data else rawMessage
  let errorString := jsLower errorMessage
  let sanitizedMessage := sanitizeMessage errorMessage
  let userFriendly :=
    if containsB "timeout".data errorString || containsB "timed out".data errorString then
      "The analysis is taking longer than expected. Please try again in a moment.".data
    else if containsB "network".data errorString || containsB "fetch".data errorString ||
        containsB "connection".data errorString then
      "Unable to connect to the analysis service. Please check your internet connection and try again.".data
    else if containsB "rate limit".data errorString || containsB "429".data errorString ||
        containsB "busy".data errorString then
      "The service is currently busy. Please wait a moment and try again.".data
    else if containsB "invalid".data errorString || containsB "malformed".data errorString ||
        containsB "parse".data errorString then
      "Unable to process the page data. Please verify the URL is accessible and try again.".data
    else if containsB "unauthorized".data errorString || containsB "401".data errorString ||
        containsB "403".data errorString then
      "Authentication error. Please refresh the page and try again.".data
    else if containsB "not found".data errorString || containsB "404".data errorString then
      "The requested page could not be found. Please verify the URL is correct.".data
    else if containsB "500".data errorString || containsB "server error".data errorString then
      "An internal error occurred. Our team has been notified. Please try again in a few moments.".data
    else if sanitizedMessage = [] then
      "An unexpected error occurred with Stylr AI analysis. Please try again.".data
    else sanitizedMessage
  let code :=
    if containsB "timeout".data errorString then "TIMEOUT".data
    else if containsB "network".data errorString || containsB "connection".data errorString then
      "NETWORK_ERROR".data
    else if containsB "rate limit".data errorString || containsB "429".data errorString then
      "RATE_LIMIT".data
    else if containsB "unauthorized".data errorString || containsB "401".data errorString then
      "AUTH_ERROR".data
    else if containsB "not found".data errorString || containsB "404".data errorString then
      "NOT_FOUND".data
    else if containsB "500".data errorString || containsB "server".data errorString then
      "SERVER_ERROR".data
    else if containsB "parse".data errorString || containsB "json".data errorString then
      "PARSE_ERROR".data
    else if containsB "validation".data errorString || containsB "invalid url".data errorString then
      "VALIDATION_ERROR".data
    else "UNKNOWN_ERROR".data
  { message := sanitizedMessage
    code := code
    userFriendly := userFriendly
    shouldLog := true }

/-- createErrorResponse of src/unnamed/part_007: the safe pair exposed
to the frontend. -/
def createErrorResponse (rawMessage : JStr) : JStr × JStr :=
  ((sanitizeError rawMessage).userFriendly, (sanitizeError rawMessage).code)

/-- Boolean suffix test via reversal. -/
def isSuffixB (a s : JStr) : Bool := isPrefixB a.reverse s.reverse

/-- No nonempty proper suffix of w is a prefix of r. -/
def noProperSuffixPrefixOf (w r : JStr) : Bool :=
  (List.range w.length).all (fun k => k == 0 || !(isPrefixB (w.drop k) r))

/-- No nonempty proper prefix of w is a suffix of r. -/
def noProperPrefixSuffixOf (w r : JStr) : Bool :=
  (List.range w.length).all (fun k => k == 0 || !(isSuffixB (w.take k) r))

/-! ## JSON repair and robust parsing: src/app/page.tsx

JSON values are modelled with mutually inductive value/array/object
types; numbers are integers (the repository's payloads carry strings and
integral numbers).  JSON.stringify and JSON.parse are platform builtins
modelled by serializeVal and jsonParse below; parsing carries structural
fuel so that the kernel can evaluate it, and jsonParse passes fuel
(input length + 1) that is always sufficient. -/

mutual
inductive JValue where
  | str (s : JStr)
  | num (n : ℤ)
  | bool (b : Bool)
  | null
  | arr (xs : JArray)
  | obj (fs : JObject)
inductive JArray where
  | nil
  | cons (v : JValue) (tl : JArray)
inductive JObject where
  | nil
  | cons (k : JStr) (v : JValue) (tl : JObject)
end

deriving instance DecidableEq for JValue, JArray, JObject

/-- Hexadecimal digit character (lower case), as JSON.stringify emits in
its control-character escapes. -/
def hexDigit (n : ℕ) : Char :=
  if n < 10 then Char.ofNat (48 + n) else Char.ofNat (87 + n)

/-- String escaping of JSON.stringify for one character. -/
def escapeChar (c : Char) : JStr :=
  if c = '"' then ['\\', '"']
  else if c = '\\' then ['\\', '\\']
  else if c = '\n' then ['\\', 'n']
  else if c = '\r' then ['\\', 'r']
  else if c = '\t' then ['\\', 't']
  else if c = Char.ofNat 8 then ['\\', 'b']
  else if c = Char.ofNat 12 then ['\\', 'f']
  else if c.toNat < 32 then ['\\', 'u', '0', '0', hexDigit (c.toNat / 16), hexDigit (c.toNat % 16)]
  else [c]

/-- String escaping of JSON.stringify. -/
def escapeString : JStr → JStr
  | [] => []
  | c :: rest => escapeChar c ++ escapeString rest

mutual
/-- JSON.stringify (compact form, no spacing argument, as the source
calls it). -/
def serializeVal : JValue → JStr
  | .str s => '"' :: escapeString s ++ ['"']
  | .num n => intToStr n
  | .bool true => "true".data
  | .bool false => "false".data
  | .null => "null".data
  | .arr xs => '[' :: serializeArr xs ++ [']']
  | .obj fs => '{' :: serializeObj fs ++ ['}']
/-- Comma-separated array elements. -/
def serializeArr : JArray → JStr
  | .nil => []
  | .cons v .nil => serializeVal v
  | .cons v tl => serializeVal v ++ ',' :: serializeArr tl
/-- Comma-separated key:value fields. -/
def serializeObj : JObject → JStr
  | .nil => []
  | .cons k v .nil => '"' :: escapeString k ++ '"' :: ':' :: serializeVal v
  | .cons k v tl =>
    ('"' :: escapeString k ++ '"' :: ':' :: serializeVal v) ++ ',' :: serializeObj tl
end

/-- JSON whitespace accepted between tokens by JSON.parse. -/
def jsWsB (c : Char) : Bool := c = ' ' || c = '\t' || c = '\n' || c = '\r'

/-- Skip JSON whitespace. -/
def skipWs (s : JStr) : JStr := s.dropWhile jsWsB

/-- Single-character string escapes accepted by JSON.parse. -/
def unescapeChar (e : Char) : Option Char :=
  if e = '"' then some '"'
  else if e = '\\' then some '\\'
  else if e = '/' then some '/'
  else if e = 'n' then some '\n'
  else if e = 't' then some '\t'
  else if e = 'r' then some '\r'
  else if e = 'b' then some (Char.ofNat 8)
  else if e = 'f' then some (Char.ofNat 12)
  else none

/-- Value of a hexadecimal digit character. -/
def hexVal (c : Char) : Option ℕ :=
  if '0' ≤ c ∧ c ≤ '9' then some (c.toNat - 48)
  else if 'a' ≤ c ∧ c ≤ 'f' then some (c.toNat - 87)
  else if 'A' ≤ c ∧ c ≤ 'F' then some (c.toNat - 55)
  else none

/-- Body of a JSON string after the opening quote: plain characters up
to the closing quote, with backslash escapes (including \uXXXX). -/
def parseStringBody : JStr → Option (JStr × JStr)
  | [] => none
  | c :: rest =>
    if c = '"' then some ([], rest)
    else if c = '\\' then
      match rest with
      | [] => none
      | e :: rest2 =>
        if e = 'u' then
          match rest2 with
          | h1 :: h2 :: h3 :: h4 :: rest3 =>
            match hexVal h1, hexVal h2, hexVal h3, hexVal h4 with
            | some a, some b, some c2, some d =>
              match parseStringBody rest3 with
              | some (t, r) => some (Char.ofNat (((a * 16 + b) * 16 + c2) * 16 + d) :: t, r)
              | none => none
            | _, _, _, _ => none
          | _ => none
        else
          match unescapeChar e with
          | some c' =>
            match parseStringBody rest2 with
            | some (t, r) => some (c' :: t, r)
            | none => none
          | none => none
    else
      match parseStringBody rest with
      | some (t, r) => some (c :: t, r)
      | none => none

/-- Numeric value of a run of decimal digit characters. -/
def digitsVal (ds : JStr) : ℕ := ds.foldl (fun acc c => acc * 10 + (c.toNat - 48)) 0

/-- Integer literal: optional minus then one or more digits (fractions
and exponents do not occur in this development's values). -/
def parseNumber : JStr → Option (JValue × JStr)
  | [] => none
  | c :: r =>
    if c = '-' then
      let ds := r.takeWhile Char.isDigit
      let rest := r.dropWhile Char.isDigit
      if ds = [] then none else some (.num (-(digitsVal ds : ℤ)), rest)
    else
      let ds := (c :: r).takeWhile Char.isDigit
      let rest := (c :: r).dropWhile Char.isDigit
      if ds = [] then none else some (.num (digitsVal ds : ℤ), rest)

mutual
/-- JSON.parse value parser (fuel-structural). -/
def parseValue : ℕ → JStr → Option (JValue × JStr)
  | 0, _ => none
  | fuel + 1, s =>
    match skipWs s with
    | [] => none
    | c :: rest =>
      if c = '"' then
        match parseStringBody rest with
        | some (str, rest') => some (.str str, rest')
        | none => none
      else if c = 't' then
        if isPrefixB "rue".data rest then some (.bool true, rest.drop 3) else none
      else if c = 'f' then
        if isPrefixB "alse".data rest then some (.bool false, rest.drop 4) else none
      else if c = 'n' then
        if isPrefixB "ull".data rest then some (.null, rest.drop 3) else none
      else if c = '-' ∨ c.isDigit then parseNumber (c :: rest)
      else if c = '[' then
        match skipWs rest with
        | [] => none
        | d :: rest2 =>
          if d = ']' then some (.arr .nil, rest2)
          else
            match parseElems fuel rest with
            | some (xs, r) => some (.arr xs, r)
            | none => none
      else if c = '{' then
        match skipWs rest with
        | [] => none
        | d :: rest2 =>
          if d = '}' then some (.obj .nil, rest2)
          else
            match parseFields fuel rest with
            | some (fs, r) => some (.obj fs, r)
            | none => none
      else none
/-- One or more comma-separated array elements followed by the closing
bracket (which is consumed). -/
def parseElems : ℕ → JStr → Option (JArray × JStr)
  | 0, _ => none
  | fuel + 1, s =>
    match parseValue fuel s with
    | none => none
    | some (v, r) =>
      match skipWs r with
      | [] => none
      | d :: r2 =>
        if d = ',' then
          match parseElems fuel r2 with
          | some (tl, r3) => some (.cons v tl, r3)
          | none => none
        else if d = ']' then some (.cons v .nil, r2)
        else none
/-- One or more comma-separated key:value fields followed by the closing
brace (which is consumed). -/
def parseFields : ℕ → JStr → Option (JObject × JStr)
  | 0, _ => none
  | fuel + 1, s =>
    match skipWs s with
    | [] => none
    | c :: rest =>
      if c = '"' then
        match parseStringBody rest with
        | none => none
        | some (k, r1) =>
          match skipWs r1 with
          | [] => none
          | d :: r2 =>
            if d = ':' then
              match parseValue fuel r2 with
              | none => none
              | some (v, r3) =>
                match skipWs r3 with
                | [] => none
                | e :: r4 =>
                  if e = ',' then
                    match parseFields fuel r4 with
                    | some (tl, r5) => some (.cons k v tl, r5)
                    | none => none
                  else if e = '}' then some (.cons k v .nil, r4)
                  else none
            else none
      else none
end

instance {α β : Type} [DecidableEq α] [DecidableEq β] : DecidableEq (Except α β) :=
  fun x y =>
    match x, y with
    | .error a, .error b =>
      if h : a = b then isTrue (by rw [h]) else isFalse (by simp [h])
    | .ok a, .ok b =>
      if h : a = b then isTrue (by rw [h]) else isFalse (by simp [h])
    | .error _, .ok _ => isFalse (by simp)
    | .ok _, .error _ => isFalse (by simp)

/-- JSON.parse: a full parse of the text with nothing but whitespace
after the value. -/
def jsonParse (s : JStr) : Option JValue :=
  match parseValue (s.length + 1) s with
  | some (v, rest) => if skipWs rest = [] then some v else none
  | none => none

/-- Brace-depth scan of extractJSON: starting at the first opening
brace, count opening and closing braces (string contents included, as in
the source) and report the index of the brace that first returns the
count to zero. -/
def findClose : JStr → ℕ → ℕ → Option ℕ
  | [], _, _ => none
  | c :: rest, count, i =>
    if c = '{' then findClose rest (count + 1) (i + 1)
    else if c = '}' then
      if count = 1 then some i else findClose rest (count - 1) (i + 1)
    else findClose rest count (i + 1)

/-- extractJSON of src/app/page.tsx: substring from the first opening
brace to its depth-matching closing brace (error messages abbreviated;
the source logs rich diagnostics that no caller inspects). -/
def extractJSON (text : JStr) : Except JStr JStr :=
  let firstBrace := (text.takeWhile (fun c => c ≠ '{')).length
  if firstBrace = text.length then
    .error "No JSON object found in response - no opening brace".data
  else
    let fromBrace := text.drop firstBrace
    match findClose fromBrace 0 0 with
    | some lastRel => .ok (fromBrace.take (lastRel + 1))
    | none => .error "Invalid JSON structure: unmatched braces".data

/-- Replacement model of s.replace over two-colon runs: :: becomes :
(the scan resumes after each replaced pair). -/
def fixDoubleColons : JStr → JStr
  | [] => []
  | [c] => [c]
  | c :: d :: rest =>
    if c = ':' ∧ d = ':' then ':' :: fixDoubleColons rest
    else c :: fixDoubleColons (d :: rest)

/-- Scan of s.replace for the trailing-comma pattern: a comma followed
by optional whitespace and a closing brace or bracket loses the comma;
the whitespace and closer are kept and the scan resumes after them. -/
def removeTrailingCommasAux : ℕ → JStr → JStr
  | 0, s => s
  | _ + 1, [] => []
  | fuel + 1, c :: rest =>
    if c = ',' then
      match rest.dropWhile jsWsB with
      | d :: r2 =>
        if d = '}' ∨ d = ']' then
          rest.takeWhile jsWsB ++ d :: removeTrailingCommasAux fuel r2
        else ',' :: removeTrailingCommasAux fuel rest
      | [] => ',' :: removeTrailingCommasAux fuel rest
    else c :: removeTrailingCommasAux fuel rest

/-- Global replace of the trailing-comma pattern. -/
def removeTrailingCommas (s : JStr) : JStr := removeTrailingCommasAux s.length s

/-- Variant of strategy 4: the comma is dropped only when the
whitespace run before the closer contains a newline. -/
def removeTrailingCommasNLAux : ℕ → JStr → JStr
  | 0, s => s
  | _ + 1, [] => []
  | fuel + 1, c :: rest =>
    if c = ',' then
      match rest.dropWhile jsWsB with
      | d :: r2 =>
        if (d = '}' ∨ d = ']') ∧ '\n' ∈ rest.takeWhile jsWsB then
          rest.takeWhile jsWsB ++ d :: removeTrailingCommasNLAux fuel r2
        else ',' :: removeTrailingCommasNLAux fuel rest
      | [] => ',' :: removeTrailingCommasNLAux fuel rest
    else c :: removeTrailingCommasNLAux fuel rest

/-- Global replace of the newline trailing-comma pattern. -/
def removeTrailingCommasNL (s : JStr) : JStr := removeTrailingCommasNLAux s.length s

/-- Line-comment removal: // up to the end of the line (a dot does not
match line terminators). -/
def removeLineCommentsAux : ℕ → JStr → JStr
  | 0, s => s
  | _ + 1, [] => []
  | _ + 1, [c] => [c]
  | fuel + 1, c :: d :: rest =>
    if c = '/' ∧ d = '/' then
      removeLineCommentsAux fuel (rest.dropWhile (fun c => ¬ isNL c))
    else c :: removeLineCommentsAux fuel (d :: rest)

/-- Global line-comment removal. -/
def removeLineComments (s : JStr) : JStr := removeLineCommentsAux s.length s

/-- Suffix after the first closing star-slash, if any. -/
def afterBlockEnd : JStr → Option JStr
  | [] => none
  | [_] => none
  | c :: d :: r =>
    if c = '*' ∧ d = '/' then some r else afterBlockEnd (d :: r)

/-- Non-greedy block-comment removal: slash-star up to the first
star-slash. -/
def removeBlockCommentsAux : ℕ → JStr → JStr
  | 0, s => s
  | _ + 1, [] => []
  | _ + 1, [c] => [c]
  | fuel + 1, c :: d :: rest =>
    if c = '/' ∧ d = '*' then
      match afterBlockEnd rest with
      | some r3 => removeBlockCommentsAux fuel r3
      | none => '/' :: removeBlockCommentsAux fuel (d :: rest)
    else c :: removeBlockCommentsAux fuel (d :: rest)

/-- Global block-comment removal. -/
def removeBlockComments (s : JStr) : JStr := removeBlockCommentsAux s.length s

/-- Comma-run collapse: one or more commas become a single comma. -/
def collapseCommasAux : ℕ → JStr → JStr
  | 0, s => s
  | _ + 1, [] => []
  | fuel + 1, c :: rest =>
    if c = ',' then ',' :: collapseCommasAux fuel (rest.dropWhile (fun d => d = ','))
    else c :: collapseCommasAux fuel rest

/-- Global comma-run collapse. -/
def collapseCommas (s : JStr) : JStr := collapseCommasAux s.length s

/-- Trailing-comma removal restricted to closing brackets. -/
def removeCommasBeforeBracketAux : ℕ → JStr → JStr
  | 0, s => s
  | _ + 1, [] => []
  | fuel + 1, c :: rest =>
    if c = ',' then
      match rest.dropWhile jsWsB with
      | d :: r2 =>
        if d = ']' then rest.takeWhile jsWsB ++ d :: removeCommasBeforeBracketAux fuel r2
        else ',' :: removeCommasBeforeBracketAux fuel rest
      | [] => ',' :: removeCommasBeforeBracketAux fuel rest
    else c :: removeCommasBeforeBracketAux fuel rest

/-- Global bracket-specific trailing-comma removal. -/
def removeCommasBeforeBracket (s : JStr) : JStr := removeCommasBeforeBracketAux s.length s

/-- Trailing-comma removal restricted to closing braces. -/
def removeCommasBeforeBraceAux : ℕ → JStr → JStr
  | 0, s => s
  | _ + 1, [] => []
  | fuel + 1, c :: rest =>
    if c = ',' then
      match rest.dropWhile jsWsB with
      | d :: r2 =>
        if d = '}' then rest.takeWhile jsWsB ++ d :: removeCommasBeforeBraceAux fuel r2
        else ',' :: removeCommasBeforeBraceAux fuel rest
      | [] => ',' :: removeCommasBeforeBraceAux fuel rest
    else c :: removeCommasBeforeBraceAux fuel rest

/-- Global brace-specific trailing-comma removal. -/
def removeCommasBeforeBrace (s : JStr) : JStr := removeCommasBeforeBraceAux s.length s

/-- repairJSON of src/app/page.tsx: the fixed repair sequence. -/
def repairJSON (jsonString : JStr) : JStr :=
  let r1 := fixDoubleColons jsonString
  let r2 := removeTrailingCommas r1
  let r3 := removeLineComments r2
  let r4 := removeBlockComments r3
  let r5 := collapseCommas r4
  let r6 := removeCommasBeforeBracket r5
  removeCommasBeforeBrace r6

/-- Markdown fence stripping of parseJSONRobust: every occurrence of
three backticks followed by json (case-insensitively) and optional
whitespace is removed. -/
def stripJsonFencesAux : ℕ → JStr → JStr
  | 0, s => s
  | _ + 1, [] => []
  | fuel + 1, c :: rest =>
    if c = '`' ∧ litAt "``json".data rest then
      stripJsonFencesAux fuel ((rest.drop 6).dropWhile jsWsB)
    else c :: stripJsonFencesAux fuel rest

/-- Global json-fence stripping. -/
def stripJsonFences (s : JStr) : JStr := stripJsonFencesAux s.length s

/-- Bare-fence stripping: three backticks and optional whitespace. -/
def stripBareFencesAux : ℕ → JStr → JStr
  | 0, s => s
  | _ + 1, [] => []
  | fuel + 1, c :: rest =>
    if c = '`' ∧ isPrefixB "``".data rest then
      stripBareFencesAux fuel ((rest.drop 2).dropWhile jsWsB)
    else c :: stripBareFencesAux fuel rest

/-- Global bare-fence stripping. -/
def stripBareFences (s : JStr) : JStr := stripBareFencesAux s.length s

/-- Index of the first opening brace, if any. -/
def firstBraceIdx (s : JStr) : Option ℕ :=
  let i := (s.takeWhile (fun c => c ≠ '{')).length
  if i = s.length then none else some i

/-- Greedy regex fallback of parseJSONRobust: first opening brace to the
last closing brace after it. -/
def greedyBraceMatch (s : JStr) : Option JStr :=
  match firstBraceIdx s with
  | none => none
  | some i =>
    let fromB := s.drop i
    let tailRev := (fromB.reverse.takeWhile (fun c => c ≠ '}')).length
    if tailRev = fromB.length then none
    else
      let j := fromB.length - 1 - tailRev
      if j = 0 then none else some (fromB.take (j + 1))

/-- Non-greedy regex fallback: first opening brace to the first closing
brace after it. -/
def nonGreedyBraceMatch (s : JStr) : Option JStr :=
  match firstBraceIdx s with
  | none => none
  | some i =>
    let fromB := s.drop i
    let k := ((fromB.drop 1).takeWhile (fun c => c ≠ '}')).length
    if 1 + k = fromB.length then none else some (fromB.take (1 + k + 1))

/-- Step 2 of parseJSONRobust: extraction with the two regex fallbacks. -/
def extractJSONOrFallback (cleaned : JStr) : Except JStr JStr :=
  match extractJSON cleaned with
  | .ok j => .ok j
  | .error _ =>
    match greedyBraceMatch cleaned with
    | some j => .ok j
    | none =>
      match nonGreedyBraceMatch cleaned with
      | some j => .ok j
      | none => .error "Could not extract JSON from response".data

/-- n-fold application. -/
def iterateN {α : Type} (f : α → α) : ℕ → α → α
  | 0, s => s
  | n + 1, s => iterateN f n (f s)

/-- Strategy 5's bounded fixpoint loop of the two trailing-comma
replacements. -/
def strategy5Loop : ℕ → JStr → JStr
  | 0, s => s
  | n + 1, s =>
    let s' := removeTrailingCommasNL (removeTrailingCommas s)
    if s' = s then s' else strategy5Loop n s'

/-- parseJSONRobust of src/app/page.tsx: fence cleanup, extraction with
fallbacks, then the ordered repair strategies, the first successful
parse winning. -/
def parseJSONRobust (response : JStr) : Except JStr JValue :=
  let cleaned := jsTrim (stripBareFences (stripJsonFences (jsTrim response)))
  match extractJSONOrFallback cleaned with
  | .error e => .error e
  | .ok jsonString =>
    match jsonParse jsonString with
    | some v => .ok v
    | none =>
      match jsonParse (repairJSON jsonString) with
      | some v => .ok v
      | none =>
        match jsonParse (repairJSON (fixDoubleColons jsonString)) with
        | some v => .ok v
        | none =>
          match jsonParse (removeCommasBeforeBrace (removeCommasBeforeBracket
              (iterateN removeTrailingCommas 5 (fixDoubleColons jsonString)))) with
          | some v => .ok v
          | none =>
            match jsonParse (iterateN
                (fun s => removeTrailingCommasNL (removeTrailingCommas s)) 10
                (fixDoubleColons jsonString)) with
            | some v => .ok v
            | none =>
              match jsonParse (strategy5Loop 20 (fixDoubleColons jsonString)) with
              | some v => .ok v
              | none => .error "Failed to parse JSON after repair attempts".data

/-! ### Cleanliness predicates and single-corruption relations for the
round-trip and repair-recovery statements. -/

/-- Characters of a string value or key that keep the whole pipeline
well-behaved: no braces or brackets (the extractor counts braces inside
strings), no quote or backslash (no escaping), no backtick (the fence
stripper), no whitespace or control characters. -/
def cleanChar (c : Char) : Bool :=
  !(c = '{' || c = '}' || c = '[' || c = ']' || c = '"' || c = '\\' || c = '`') &&
  !(jsWsB c) && !(decide (c.toNat < 32))

/-- Adjacent character pairs that none of the repair regexes can match
across: no double colon, no double comma, no comment opener, and no
comma directly before a closing brace or bracket. -/
def okPairB (a b : Char) : Bool :=
  !(a == ':' && b == ':') && !(a == ',' && b == ',') && !(a == '/' && b == '/') &&
  !(a == '/' && b == '*') && !(a == ',' && b == '}') && !(a == ',' && b == ']')

/-- All adjacent pairs of the string satisfy f. -/
def chainPairsB (f : Char → Char → Bool) : JStr → Bool
  | [] => true
  | [_] => true
  | a :: b :: rest => f a b && chainPairsB f (b :: rest)

/-- Clean string: clean characters and no repairable pair. -/
def cleanStr (s : JStr) : Bool := s.all cleanChar && chainPairsB okPairB s

mutual
/-- All string values and keys of the value are clean. -/
def cleanVal : JValue → Bool
  | .str s => cleanStr s
  | .num _ => true
  | .bool _ => true
  | .null => true
  | .arr xs => cleanArr xs
  | .obj fs => cleanObj fs
def cleanArr : JArray → Bool
  | .nil => true
  | .cons v tl => cleanVal v && cleanArr tl
def cleanObj : JObject → Bool
  | .nil => true
  | .cons k v tl => cleanStr k && cleanVal v && cleanObj tl
end

/-- First characters a serialized JSON value can have. -/
def isValueStartB (c : Char) : Bool :=
  c = '"' || c = '-' || c.isDigit || c = 't' || c = 'f' || c = 'n' || c = '[' || c = '{'

/-- Last characters a serialized JSON value can have. -/
def isValueEndB (c : Char) : Bool :=
  c = '"' || c.isDigit || c = 'e' || c = 'l' || c = ']' || c = '}'

/-- Brace-depth bookkeeping: scan the string adjusting the depth at
every brace, failing if the depth ever dips below zero. -/
def okDepth : JStr → ℕ → Option ℕ
  | [], k => some k
  | c :: t, k =>
    if c = '{' then okDepth t (k + 1)
    else if c = '}' then
      if k = 0 then none else okDepth t (k - 1)
    else okDepth t k

mutual
/-- One trailing comma inserted directly before the closing bracket or
brace of one array or object of the value. -/
inductive TCorrVal : JValue → JStr → Prop where
  | arrHere (xs : JArray) :
      TCorrVal (.arr xs) ('[' :: serializeArr xs ++ [',', ']'])
  | objHere (fs : JObject) :
      TCorrVal (.obj fs) ('{' :: serializeObj fs ++ [',', '}'])
  | arrIn (xs : JArray) (s : JStr) :
      TCorrArr xs s → TCorrVal (.arr xs) ('[' :: s ++ [']'])
  | objIn (fs : JObject) (s : JStr) :
      TCorrObj fs s → TCorrVal (.obj fs) ('{' :: s ++ ['}'])
inductive TCorrArr : JArray → JStr → Prop where
  | single (v : JValue) (s : JStr) :
      TCorrVal v s → TCorrArr (.cons v .nil) s
  | headMore (v : JValue) (tl : JArray) (s : JStr) :
      tl ≠ .nil → TCorrVal v s → TCorrArr (.cons v tl) (s ++ ',' :: serializeArr tl)
  | tailMore (v : JValue) (tl : JArray) (s : JStr) :
      tl ≠ .nil → TCorrArr tl s → TCorrArr (.cons v tl) (serializeVal v ++ ',' :: s)
inductive TCorrObj : JObject → JStr → Prop where
  | single (k : JStr) (v : JValue) (s : JStr) :
      TCorrVal v s → TCorrObj (.cons k v .nil) ('"' :: escapeString k ++ '"' :: ':' :: s)
  | headMore (k : JStr) (v : JValue) (tl : JObject) (s : JStr) :
      tl ≠ .nil → TCorrVal v s →
      TCorrObj (.cons k v tl)
        (('"' :: escapeString k ++ '"' :: ':' :: s) ++ ',' :: serializeObj tl)
  | tailMore (k : JStr) (v : JValue) (tl : JObject) (s : JStr) :
      tl ≠ .nil → TCorrObj tl s →
      TCorrObj (.cons k v tl)
        (('"' :: escapeString k ++ '"' :: ':' :: serializeVal v) ++ ',' :: s)
end

mutual
/-- One doubled colon after one key of one object of the value. -/
inductive CCorrVal : JValue → JStr → Prop where
  | arrIn (xs : JArray) (s : JStr) :
      CCorrArr xs s → CCorrVal (.arr xs) ('[' :: s ++ [']'])
  | objIn (fs : JObject) (s : JStr) :
      CCorrObj fs s → CCorrVal (.obj fs) ('{' :: s ++ ['}'])
inductive CCorrArr : JArray → JStr → Prop where
  | single (v : JValue) (s : JStr) :
      CCorrVal v s → CCorrArr (.cons v .nil) s
  | headMore (v : JValue) (tl : JArray) (s : JStr) :
      tl ≠ .nil → CCorrVal v s → CCorrArr (.cons v tl) (s ++ ',' :: serializeArr tl)
  | tailMore (v : JValue) (tl : JArray) (s : JStr) :
      tl ≠ .nil → CCorrArr tl s → CCorrArr (.cons v tl) (serializeVal v ++ ',' :: s)
inductive CCorrObj : JObject → JStr → Prop where
  | colonSingle (k : JStr) (v : JValue) :
      CCorrObj (.cons k v .nil)
        ('"' :: escapeString k ++ '"' :: ':' :: ':' :: serializeVal v)
  | colonMore (k : JStr) (v : JValue) (tl : JObject) :
      tl ≠ .nil →
      CCorrObj (.cons k v tl)
        (('"' :: escapeString k ++ '"' :: ':' :: ':' :: serializeVal v) ++
          ',' :: serializeObj tl)
  | single (k : JStr) (v : JValue) (s : JStr) :
      CCorrVal v s → CCorrObj (.cons k v .nil) ('"' :: escapeString k ++ '"' :: ':' :: s)
  | headMore (k : JStr) (v : JValue) (tl : JObject) (s : JStr) :
      tl ≠ .nil → CCorrVal v s →
      CCorrObj (.cons k v tl)
        (('"' :: escapeString k ++ '"' :: ':' :: s) ++ ',' :: serializeObj tl)
  | tailMore (k : JStr) (v : JValue) (tl : JObject) (s : JStr) :
      tl ≠ .nil → CCorrObj tl s →
      CCorrObj (.cons k v tl)
        (('"' :: escapeString k ++ '"' :: ':' :: serializeVal v) ++ ',' :: s)
end

/-- The continuation after a serialized number must not begin with a
digit, or the number parser would swallow it. -/
def noDigitHead : JStr → Bool
  | [] => true
  | c :: _ => !c.isDigit

/-- Adjacent pair that the double-colon repair can match on. -/
def noColonColon (a b : Char) : Bool := !(a == ':' && b == ':')

mutual
/-- Parser fuel sufficient for a serialized value. -/
def muV : JValue → ℕ
  | .str _ => 1
  | .num _ => 1
  | .bool _ => 1
  | .null => 1
  | .arr xs => muA xs + 1
  | .obj fs => muO fs + 1
/-- Parser fuel sufficient for serialized array elements. -/
def muA : JArray → ℕ
  | .nil => 1
  | .cons v tl => max (muV v) (muA tl) + 1
/-- Parser fuel sufficient for serialized object fields. -/
def muO : JObject → ℕ
  | .nil => 1
  | .cons _ v tl => max (muV v) (muO tl) + 1
end

/-- Well-formedness of a serialized fragment: nonempty, value-start
first character, value-end last character, no repairable adjacent pair,
no backtick or whitespace anywhere, and brace-depth neutral. -/
def serGoodProp (s : JStr) : Prop :=
  s ≠ [] ∧
  (∀ c, s.head? = some c → isValueStartB c = true) ∧
  (∀ c, s.getLast? = some c → isValueEndB c = true) ∧
  chainPairsB okPairB s = true ∧
  (∀ c ∈ s, c ≠ '`' ∧ jsWsB c = false) ∧
  (∀ k, okDepth s k = some k)

end Stylr

namespace Stylr

theorem jsOr0_eq (x : ℚ) : jsOr0 x = x := by
  unfold jsOr0; split <;> simp_all

theorem jsOr0Int_eq (x : ℤ) : jsOr0Int x = x := by
  unfold jsOr0Int; split <;> simp_all

theorem jsRound_intCast (n : ℤ) : jsRound (n : ℚ) = n := by
  unfold jsRound
  rw [Int.floor_eq_iff]
  constructor
  · linarith
  · linarith

theorem jsRound_add_intCast (t u : ℤ) : jsRound ((t : ℚ) + (u : ℚ)) = t + u := by
  rw [show ((t : ℚ) + (u : ℚ)) = (((t + u : ℤ)) : ℚ) by push_cast; ring, jsRound_intCast]

/-- C4: calculateOverallScore clamps each of the four sub-scores to
[0,100], computes the weighted sum content·0.35 + seo·0.30 +
performance·0.20 + mobile·0.15, rounds exactly once, assigns the label
Excellent at total ≥ 90, Good at ≥ 75, Fair at ≥ 50, Poor otherwise, and
returns the clamped sub-scores unchanged in the breakdown. -/
theorem calculateOverallScore_spec (a : SEOAnalysis) (p : PerformanceMetrics)
    (c : ContentEnhancement) :
    (calculateOverallScore a p c).breakdown.content
        = max 0 (min 100 c.contentQualityScore) ∧
    (calculateOverallScore a p c).breakdown.seo
        = max 0 (min 100 (a.score : ℚ)) ∧
    (calculateOverallScore a p c).breakdown.performance
        = max 0 (min 100 p.overallScore) ∧
    (calculateOverallScore a p c).breakdown.mobile
        = max 0 (min 100 p.mobile.score) ∧
    (calculateOverallScore a p c).total
        = jsRound ((calculateOverallScore a p c).breakdown.content * 0.35 +
            (calculateOverallScore a p c).breakdown.seo * 0.30 +
            (calculateOverallScore a p c).breakdown.performance * 0.20 +
            (calculateOverallScore a p c).breakdown.mobile * 0.15) ∧
    (calculateOverallScore a p c).label
        = (if 90 ≤ (calculateOverallScore a p c).total then "Excellent".data
           else if 75 ≤ (calculateOverallScore a p c).total then "Good".data
           else if 50 ≤ (calculateOverallScore a p c).total then "Fair".data
           else "Poor".data) := by
  unfold calculateOverallScore
  simp only [jsOr0_eq, ge_iff_le]
  refine ⟨trivial, trivial, trivial, trivial, trivial, ?_⟩
  split
  · rfl
  · split
    · rfl
    · split
      · rfl
      · rfl

/-- C5: estimatePotentialScore equals clamp(total + uplift, 0, 100) where
the uplift is 5 per non-passing critical check, 3 per non-passing
high-priority check, min(2·unoptimizedImageCount, 10), and 12 when the
content sub-score is below 85; consequently (for an in-range current
total) the result is at least the current total and at most 100. -/
theorem estimatePotentialScore_spec (x : OverallScore) (a : SEOAnalysis)
    (p : PerformanceMetrics)
    (hcount : 0 ≤ p.images.unoptimizedCount) (htotal : x.total ≤ 100) :
    estimatePotentialScore x a p
        = min (max 0 (x.total +
            (5 * ((a.checks.filter (fun c =>
                c.priority == "critical".data && c.status != "pass".data)).length : ℤ) +
             3 * ((a.checks.filter (fun c =>
                c.priority == "high".data && c.status != "pass".data)).length : ℤ) +
             min (2 * p.images.unoptimizedCount) 10 +
             (if x.breakdown.content < 85 then 12 else 0)))) 100 ∧
    x.total ≤ estimatePotentialScore x a p ∧
    estimatePotentialScore x a p ≤ 100 := by
  unfold estimatePotentialScore
  simp only [jsOr0Int_eq]
  rw [jsRound_add_intCast]
  refine ⟨?_, ?_, ?_⟩
  · split_ifs <;> omega
  · split_ifs <;> omega
  · split_ifs <;> omega

/-- Witness for C5 at a concrete input: the fallback-shaped overall score
together with an empty analysis and two unoptimized images. -/
theorem estimatePotentialScore_spec_witness :
    (0 : ℤ) ≤ 2 ∧ (50 : ℤ) ≤ 100 ∧
    (estimatePotentialScore
        ⟨50, ⟨50, 50, 50, 50⟩, "Fair".data, "orange".data⟩
        ⟨0, [], []⟩
        ⟨⟨50, 2000, 3000, 500, 4000, 3500⟩, ⟨50, 2500, 4000, 600, 5000, 4500⟩,
          ⟨1000000, 2, 5, [], []⟩, ⟨0⟩, 50⟩
      = min (max 0 (50 +
          (5 * 0 + 3 * 0 + min (2 * 2) 10 + (if (50 : ℚ) < 85 then 12 else 0)))) 100 ∧
      (50 : ℤ) ≤ estimatePotentialScore
        ⟨50, ⟨50, 50, 50, 50⟩, "Fair".data, "orange".data⟩
        ⟨0, [], []⟩
        ⟨⟨50, 2000, 3000, 500, 4000, 3500⟩, ⟨50, 2500, 4000, 600, 5000, 4500⟩,
          ⟨1000000, 2, 5, [], []⟩, ⟨0⟩, 50⟩ ∧
      estimatePotentialScore
        ⟨50, ⟨50, 50, 50, 50⟩, "Fair".data, "orange".data⟩
        ⟨0, [], []⟩
        ⟨⟨50, 2000, 3000, 500, 4000, 3500⟩, ⟨50, 2500, 4000, 600, 5000, 4500⟩,
          ⟨1000000, 2, 5, [], []⟩, ⟨0⟩, 50⟩ ≤ 100) := by
  refine ⟨by norm_num, by norm_num, ?_⟩
  have h := estimatePotentialScore_spec
    ⟨50, ⟨50, 50, 50, 50⟩, "Fair".data, "orange".data⟩
    ⟨0, [], []⟩
    ⟨⟨50, 2000, 3000, 500, 4000, 3500⟩, ⟨50, 2500, 4000, 600, 5000, 4500⟩,
      ⟨1000000, 2, 5, [], []⟩, ⟨0⟩, 50⟩
    (by norm_num) (by norm_num)
  simpa using h

/-- C8: shouldRetry answers true exactly when the message carries one of
the transient indicators (timeout, network, connection, rate limit, 429,
502, 503, 504) and the attempt count is still below the ceiling, and the
backoff delay for attempt n is min(1000·2^n, 30000) milliseconds. -/
theorem shouldRetry_spec (e : JStr) (attempt maxAttempts : ℕ) :
    (shouldRetry e attempt maxAttempts = true ↔
      (attempt < maxAttempts ∧
        (containsB "timeout".data (jsLower e) = true ∨
         containsB "network".data (jsLower e) = true ∨
         containsB "connection".data (jsLower e) = true ∨
         containsB "rate limit".data (jsLower e) = true ∨
         containsB "429".data (jsLower e) = true ∨
         containsB "502".data (jsLower e) = true ∨
         containsB "503".data (jsLower e) = true ∨
         containsB "504".data (jsLower e) = true))) ∧
    getBackoffDelay attempt 1000 = min (1000 * 2 ^ attempt) 30000 := by
  refine ⟨?_, rfl⟩
  unfold shouldRetry
  split
  · simp only [Bool.false_eq_true, false_iff]
    rintro ⟨h1, -⟩
    omega
  · simp only [Bool.or_eq_true]
    constructor
    · intro hx
      exact ⟨by omega, by tauto⟩
    · rintro ⟨-, hx⟩
      tauto

/-- C10: isValidProductURL holds exactly for parseable http/https URLs
with a non-empty hostname that avoids localhost, 127.0.0.1 and 0.0.0.0;
and a request whose url fails the predicate is answered 400 by the
analyze route with no scrape, SEO, performance or enhancement operation
invoked. -/
theorem isValidProductURL_spec :
    (∀ s : JStr, isValidProductURL s = true ↔
      ∃ u, parseURL s = some u ∧
        (u.protocol = "http:".data ∨ u.protocol = "https:".data) ∧
        u.hostname ≠ [] ∧
        containsB "localhost".data u.hostname = false ∧
        containsB "127.0.0.1".data u.hostname = false ∧
        containsB "0.0.0.0".data u.hostname = false) ∧
    (∀ url : JStr, isValidProductURL url = false →
      postValidateAndDispatch (some url) = (400, [])) := by
  constructor
  · intro s
    unfold isValidProductURL
    cases hp : parseURL s with
    | none => simp
    | some u =>
      simp only [Option.some.injEq]
      constructor
      · intro hv
        refine ⟨u, rfl, ?_⟩
        by_cases h1 : (u.protocol == "http:".data || u.protocol == "https:".data) = true
        · by_cases h2 : u.hostname = []
          · simp [h1, h2] at hv
          · by_cases h3 : (containsB "localhost".data u.hostname ||
                containsB "127.0.0.1".data u.hostname ||
                containsB "0.0.0.0".data u.hostname) = true
            · have h2' : (u.hostname == []) = false := by
                simp [h2]
              simp [h1, h2', h3] at hv
            · simp only [Bool.or_eq_true, not_or, Bool.not_eq_true] at h3
              simp only [Bool.or_eq_true, beq_iff_eq] at h1
              exact ⟨h1, h2, h3.1.1, h3.1.2, h3.2⟩
        · simp [h1] at hv
      · rintro ⟨u', hu', hproto, hhost, hl1, hl2, hl3⟩
        cases hu'
        have h1 : (u.protocol == "http:".data || u.protocol == "https:".data) = true := by
          simp only [Bool.or_eq_true, beq_iff_eq]
          exact hproto
        have h2 : (u.hostname == []) = false := by
          simp [hhost]
        simp [h1, h2, hl1, hl2, hl3]
  · intro url h
    unfold postValidateAndDispatch
    by_cases he : url = []
    · simp [he]
    · simp [he, h]

/-- Witness for C10's conditional part at a concrete invalid URL (bad
scheme). -/
theorem isValidProductURL_spec_witness :
    isValidProductURL "ftp://example.com".data = false ∧
    postValidateAndDispatch (some "ftp://example.com".data) = (400, []) :=
  ⟨by decide, isValidProductURL_spec.2 "ftp://example.com".data (by decide)⟩

theorem fetchPageSpeedMetrics_all503_err (key : JStr) (att : ℕ → AttemptOutcome)
    (hatt : ∀ n, att n = AttemptOutcome.response 503 none) :
    ∃ e, fetchPageSpeedMetrics key att 0 = .error e := by
  by_cases hk : isPrefixB "AIza".data key
  case neg =>
    refine ⟨"Invalid PageSpeed API key format. Key should start with AIza".data, ?_⟩
    unfold fetchPageSpeedMetrics
    rw [if_pos (by simp [hk])]
  case pos =>
    have e2 : fetchPageSpeedMetrics key att 2
        = .error ("PageSpeed API error: ".data ++ natToStr 503) := by
      unfold fetchPageSpeedMetrics
      rw [if_neg (by simp [hk]), hatt 2]
      norm_num
    have e1 : fetchPageSpeedMetrics key att 1
        = .error ("PageSpeed API error: ".data ++ natToStr 503) := by
      unfold fetchPageSpeedMetrics
      rw [if_neg (by simp [hk]), hatt 1]
      norm_num
      exact e2
    refine ⟨"PageSpeed API error: ".data ++ natToStr 503, ?_⟩
    unfold fetchPageSpeedMetrics
    rw [if_neg (by simp [hk]), hatt 0]
    norm_num
    exact e1

/-- C1: fetchPerformanceMetrics is a total function into fully populated
PerformanceMetrics for every combination of credential and upstream
outcome, and in particular returns the fallback constant exactly when the
credential is absent, when it is malformed, and when both device-profile
call sequences answer HTTP 503 on every attempt (each profile exhausting
its 2 retries). -/
theorem fetchPerformanceMetrics_spec
    (ma da ma' da' : ℕ → AttemptOutcome) (key bad : JStr)
    (hbad : isPrefixB "AIza".data bad = false)
    (hma : ∀ n, ma n = AttemptOutcome.response 503 none)
    (hda : ∀ n, da n = AttemptOutcome.response 503 none) :
    fetchPerformanceMetrics none ma' da' = getFallbackPerformanceMetrics ∧
    fetchPerformanceMetrics (some bad) ma' da' = getFallbackPerformanceMetrics ∧
    fetchPerformanceMetrics (some key) ma da = getFallbackPerformanceMetrics := by
  refine ⟨rfl, ?_, ?_⟩
  · unfold fetchPerformanceMetrics
    simp [hbad]
  · obtain ⟨em, hm⟩ := fetchPageSpeedMetrics_all503_err key ma hma
    obtain ⟨ed, hd⟩ := fetchPageSpeedMetrics_all503_err key da hda
    unfold fetchPerformanceMetrics
    by_cases hk : isPrefixB "AIza".data key
    · simp [hk, hm, hd]
    · simp [hk]

/-- Witness for C1 at concrete inputs: a missing key, a key not starting
with AIza, and a valid-looking key with both profiles answering 503 on
every attempt. -/
theorem fetchPerformanceMetrics_spec_witness :
    isPrefixB "AIza".data "badkey".data = false ∧
    fetchPerformanceMetrics none
        (fun _ => AttemptOutcome.networkFailure "timeout".data)
        (fun _ => AttemptOutcome.networkFailure "timeout".data)
      = getFallbackPerformanceMetrics ∧
    fetchPerformanceMetrics (some "badkey".data)
        (fun _ => AttemptOutcome.networkFailure "timeout".data)
        (fun _ => AttemptOutcome.networkFailure "timeout".data)
      = getFallbackPerformanceMetrics ∧
    fetchPerformanceMetrics (some "AIzaTestKey".data)
        (fun _ => AttemptOutcome.response 503 none)
        (fun _ => AttemptOutcome.response 503 none)
      = getFallbackPerformanceMetrics := by
  have h := fetchPerformanceMetrics_spec
    (fun _ => AttemptOutcome.response 503 none)
    (fun _ => AttemptOutcome.response 503 none)
    (fun _ => AttemptOutcome.networkFailure "timeout".data)
    (fun _ => AttemptOutcome.networkFailure "timeout".data)
    "AIzaTestKey".data "badkey".data (by decide) (fun _ => rfl) (fun _ => rfl)
  exact ⟨by decide, h.1, h.2.1, h.2.2⟩

/-- C9: the analyze route's inline performance fallback object is
field-for-field equal to the performance client's fallback constant, so
the two fallback paths cannot drift apart. -/
theorem routeFallback_eq_getFallback :
    routeFallbackPerformanceMetrics = getFallbackPerformanceMetrics := rfl

theorem metaTitleCheck_add (d : ScrapedProductData) :
    (metaTitleCheck d).2 = (metaTitleCheck d).1.score := by
  unfold metaTitleCheck; dsimp only; split_ifs <;> rfl

theorem metaDescriptionCheck_add (d : ScrapedProductData) :
    (metaDescriptionCheck d).2 = (metaDescriptionCheck d).1.score := by
  unfold metaDescriptionCheck; dsimp only; split_ifs <;> rfl

theorem h1Check_add (d : ScrapedProductData) :
    (h1Check d).2 = (h1Check d).1.score := by
  unfold h1Check; dsimp only; split_ifs <;> rfl

theorem schemaCheck_add (d : ScrapedProductData) :
    (schemaCheck d).2 = (schemaCheck d).1.score := by
  unfold schemaCheck; cases d.schema <;> rfl

theorem httpsCheck_add (d : ScrapedProductData) :
    (httpsCheck d).2 = (httpsCheck d).1.score := by
  unfold httpsCheck; dsimp only; split_ifs <;> rfl

theorem urlStructureCheck_add (p : JStr) :
    (urlStructureCheck p).2 = (urlStructureCheck p).1.score := by
  unfold urlStructureCheck; dsimp only; split_ifs <;> rfl

theorem contentLengthCheck_add (d : ScrapedProductData) :
    (contentLengthCheck d).2 = (contentLengthCheck d).1.score := by
  unfold contentLengthCheck; dsimp only; split_ifs <;> rfl

theorem featuresCheck_add (d : ScrapedProductData) :
    (featuresCheck d).2 = (featuresCheck d).1.score := by
  unfold featuresCheck; dsimp only; split_ifs <;> rfl

/-- C2: on every snapshot whose url the URL constructor accepts,
analyzeSEO succeeds with exactly eight checks and a score equal to
round(raw/85·100) clamped to [0,100], where raw is the sum of the eight
checks' point values; the function is pure, so identical snapshots give
identical results by construction. -/
theorem analyzeSEO_spec (d : ScrapedProductData) (u : URLParts)
    (hu : parseURL d.url = some u) :
    ∃ a, analyzeSEO d = Except.ok a ∧
      a.checks.length = 8 ∧
      a.score = min (max 0 (jsRound ((a.checks.map (fun c => c.score)).sum / 85 * 100))) 100 ∧
      0 ≤ a.score ∧ a.score ≤ 100 := by
  simp only [analyzeSEO, hu]
  refine ⟨_, rfl, rfl, ?_, ?_, ?_⟩
  · simp only [List.map_cons, List.map_nil, List.sum_cons, List.sum_nil, add_zero]
    rw [metaTitleCheck_add, metaDescriptionCheck_add, h1Check_add, schemaCheck_add,
      httpsCheck_add, urlStructureCheck_add, contentLengthCheck_add, featuresCheck_add]
    congr 3
    ring
  · simp only []
    omega
  · simp only []
    omega

/-- Witness for C2 at a concrete snapshot with a parseable https URL. -/
theorem analyzeSEO_spec_witness :
    parseURL "https://example.com/p".data
        = some ⟨"https:".data, "example.com".data, "/p".data, []⟩ ∧
    (∃ a, analyzeSEO
        ⟨[], [], [], [], [], 0, [], [], [], none, "https://example.com/p".data,
          [], [], none, none, none, none⟩ = Except.ok a ∧
      a.checks.length = 8 ∧
      a.score = min (max 0 (jsRound ((a.checks.map (fun c => c.score)).sum / 85 * 100))) 100 ∧
      0 ≤ a.score ∧ a.score ≤ 100) :=
  ⟨by decide, analyzeSEO_spec _ ⟨"https:".data, "example.com".data, "/p".data, []⟩ (by decide)⟩

theorem analyzeSEO_allFail_eval :
    analyzeSEO allFailSnapshot = Except.ok
      { score := 9
        checks :=
          [⟨"Meta Title".data, "fail".data, "Meta title is missing".data, "critical".data, 0⟩,
           ⟨"Meta Description".data, "fail".data, "Meta description is missing".data,
             "critical".data, 0⟩,
           ⟨"H1 Tag".data, "fail".data, "H1 tag is missing".data, "critical".data, 0⟩,
           ⟨"Product Schema".data, "fail".data,
             "Product schema markup not detected (High priority fix!)".data, "critical".data, 0⟩,
           ⟨"HTTPS".data, "fail".data, "Page is not using HTTPS".data, "critical".data, 0⟩,
           ⟨"URL Structure".data, "warning".data,
             "URL contains query parameters or special characters".data, "medium".data, 5⟩,
           ⟨"Content Length".data, "fail".data,
             "Product description is missing or could not be extracted".data, "critical".data, 0⟩,
           ⟨"Key Features".data, "warning".data,
             "No key features or bullet points found".data, "high".data, 3⟩]
        recommendations :=
          ["🔴 Critical: Meta title is missing".data,
           "🔴 Critical: Meta description is missing".data,
           "🔴 Critical: H1 tag is missing".data,
           "🔴 Critical: Product schema markup not detected (High priority fix!)".data,
           "🔴 Critical: Page is not using HTTPS".data,
           "🔴 Critical: Product description is missing or could not be extracted".data,
           "🟠 High: No key features or bullet points found".data] } := by
  have hp : parseURL allFailSnapshot.url
      = some ⟨"http:".data, "example.com".data, "/p_x".data, []⟩ := by decide
  have h1 : metaTitleCheck allFailSnapshot =
      (⟨"Meta Title".data, "fail".data, "Meta title is missing".data, "critical".data, 0⟩, 0) := by
    decide
  have h2 : metaDescriptionCheck allFailSnapshot =
      (⟨"Meta Description".data, "fail".data, "Meta description is missing".data,
        "critical".data, 0⟩, 0) := by decide
  have h3 : h1Check allFailSnapshot =
      (⟨"H1 Tag".data, "fail".data, "H1 tag is missing".data, "critical".data, 0⟩, 0) := by
    decide
  have h4 : schemaCheck allFailSnapshot =
      (⟨"Product Schema".data, "fail".data,
        "Product schema markup not detected (High priority fix!)".data,
        "critical".data, 0⟩, 0) := by decide
  have h5 : httpsCheck allFailSnapshot =
      (⟨"HTTPS".data, "fail".data, "Page is not using HTTPS".data, "critical".data, 0⟩, 0) := by
    decide
  have h6 : urlStructureCheck "/p_x".data =
      (⟨"URL Structure".data, "warning".data,
        "URL contains query parameters or special characters".data, "medium".data, 5⟩, 5) := by
    decide
  have h7 : contentLengthCheck allFailSnapshot =
      (⟨"Content Length".data, "fail".data,
        "Product description is missing or could not be extracted".data,
        "critical".data, 0⟩, 0) := by decide
  have h8 : featuresCheck allFailSnapshot =
      (⟨"Key Features".data, "warning".data,
        "No key features or bullet points found".data, "high".data, 3⟩, 3) := by decide
  simp only [analyzeSEO, hp, h1, h2, h3, h4, h5, h6, h7, h8]
  simp only [Except.ok.injEq, SEOAnalysis.mk.injEq]
  refine ⟨?_, ?_, ?_⟩
  · norm_num [jsRound]
  · decide
  · decide

/-- C3 counterexample: on the spec's all-checks-failing snapshot the raw
point total is 8 and the score is 9, not 0 as the claim states, because
the dirty-URL and zero-features branches still award 5 and 3 warning
points. -/
theorem analyzeSEO_allFail_counterexample :
    ∃ a, analyzeSEO allFailSnapshot = Except.ok a ∧
      (a.checks.map (fun c => c.score)).sum = 8 ∧ a.score = 9 ∧ ¬ a.score = 0 := by
  refine ⟨_, analyzeSEO_allFail_eval, ?_, rfl, by norm_num⟩
  norm_num

theorem isPrefixB_iff (w s : JStr) : isPrefixB w s = true ↔ ∃ t, s = w ++ t := by
  induction w generalizing s with
  | nil => simp [isPrefixB]
  | cons a as ih =>
    cases s with
    | nil => simp [isPrefixB]
    | cons b bs =>
      simp only [isPrefixB, Bool.and_eq_true, beq_iff_eq, ih, List.cons_append,
        List.cons.injEq]
      constructor
      · rintro ⟨rfl, t, rfl⟩
        exact ⟨t, rfl, rfl⟩
      · rintro ⟨t, rfl, rfl⟩
        exact ⟨rfl, t, rfl⟩

theorem containsB_iff (w s : JStr) : containsB w s = true ↔ ∃ u v, s = u ++ w ++ v := by
  induction s with
  | nil =>
    simp only [containsB, isPrefixB_iff]
    constructor
    · rintro ⟨t, ht⟩
      rcases List.append_eq_nil.mp ht.symm with ⟨hw, htn⟩
      exact ⟨[], [], by simp [hw]⟩
    · rintro ⟨u, v, huv⟩
      have h := huv.symm
      simp only [List.append_assoc, List.append_eq_nil] at h
      exact ⟨[], by simp [h.2.1]⟩
  | cons c cs ih =>
    simp only [containsB, Bool.or_eq_true, ih, isPrefixB_iff]
    constructor
    · rintro (⟨t, ht⟩ | ⟨u, v, rfl⟩)
      · exact ⟨[], t, by simpa using ht⟩
      · exact ⟨c :: u, v, by simp⟩
    · rintro ⟨u, v, huv⟩
      cases u with
      | nil =>
        left
        exact ⟨v, by simpa using huv⟩
      | cons x xs =>
        right
        simp only [List.cons_append, List.cons.injEq, List.append_assoc] at huv
        exact ⟨xs, v, by simpa using huv.2⟩

theorem isSuffixB_iff (a s : JStr) : isSuffixB a s = true ↔ ∃ u, s = u ++ a := by
  rw [isSuffixB, isPrefixB_iff]
  constructor
  · rintro ⟨t, ht⟩
    refine ⟨t.reverse, ?_⟩
    have h := congrArg List.reverse ht
    simpa using h
  · rintro ⟨u, rfl⟩
    exact ⟨u.reverse, by simp⟩

theorem litAt_eq (l s : JStr) : litAt l s = isPrefixB l (jsLower s) := by
  induction l generalizing s with
  | nil => cases s <;> rfl
  | cons a as ih =>
    cases s with
    | nil => rfl
    | cons b bs => simp [litAt, isPrefixB, jsLower, ih bs]

theorem isPrefixB_of_append_left (b x y : JStr) (hle : b.length ≤ x.length)
    (h : isPrefixB b (x ++ y) = true) : isPrefixB b x = true := by
  rw [isPrefixB_iff] at h ⊢
  obtain ⟨t, ht⟩ := h
  refine ⟨x.drop b.length, ?_⟩
  have htake := congrArg (List.take b.length) ht
  rw [List.take_append_of_le_length hle, List.take_left] at htake
  conv_lhs => rw [← List.take_append_drop b.length x]
  rw [htake]

theorem contains_append_cases (w x y : JStr) (h : containsB w (x ++ y) = true) :
    containsB w x = true ∨ containsB w y = true ∨
    ∃ a b, w = a ++ b ∧ a ≠ [] ∧ b ≠ [] ∧ isSuffixB a x = true ∧ isPrefixB b y = true := by
  rw [containsB_iff] at h
  obtain ⟨u, v, huv⟩ := h
  rw [List.append_assoc] at huv
  rcases List.append_eq_append_iff.mp huv with ⟨a', ha1, ha2⟩ | ⟨c', hc1, hc2⟩
  · right; left
    rw [containsB_iff]
    exact ⟨a', v, by rw [ha2, List.append_assoc]⟩
  · rcases List.append_eq_append_iff.mp hc2.symm with ⟨a2, hA1, hA2⟩ | ⟨w2, hW1, hW2⟩
    · cases hcn : c' with
      | nil =>
        right; left
        rw [containsB_iff]
        refine ⟨[], v, ?_⟩
        rw [hA2, hA1, hcn]
        simp
      | cons z zs =>
        cases han : a2 with
        | nil =>
          left
          rw [containsB_iff]
          refine ⟨u, [], ?_⟩
          rw [hc1, hA1, han]
          simp
        | cons q qs =>
          right; right
          refine ⟨c', a2, hA1, by simp [hcn], by simp [han], ?_, ?_⟩
          · rw [isSuffixB_iff]
            exact ⟨u, hc1⟩
          · rw [isPrefixB_iff]
            exact ⟨v, hA2⟩
    · left
      rw [containsB_iff]
      exact ⟨u, w2, by rw [hc1, hW1, List.append_assoc]⟩

theorem matchAltAt_pos (a : RAlt) (s : JStr) (n : ℕ) (hfl : altFirstLit a ≠ [])
    (h : matchAltAt a s = some n) : 1 ≤ n := by
  have hlen : 1 ≤ (altFirstLit a).length := List.length_pos.mpr hfl
  cases a with
  | lit l =>
    simp only [matchAltAt] at h
    split_ifs at h
    injection h with h
    simp only [altFirstLit] at hlen
    omega
  | gap2 l1 l2 =>
    simp only [matchAltAt] at h
    split_ifs at h
    cases hg : greedyLast l2 (s.drop l1.length) with
    | none => rw [hg] at h; cases h
    | some k =>
      rw [hg] at h
      injection h with h
      simp only [altFirstLit] at hlen
      omega
  | gap3 l1 l2 l3 =>
    simp only [matchAltAt] at h
    split_ifs at h
    cases hg : (List.range (nonNLPrefixLen (s.drop l1.length) + 1)).reverse.findSome?
        (fun k =>
          if litAt l2 ((s.drop l1.length).drop k) then
            match greedyLast l3 (((s.drop l1.length).drop k).drop l2.length) with
            | some j => some (k + (l2.length + (j + l3.length)))
            | none => none
          else none) with
    | none => rw [hg] at h; cases h
    | some m =>
      rw [hg] at h
      injection h with h
      simp only [altFirstLit] at hlen
      omega

theorem matchPatAt_pos (p : List RAlt) (hfl : ∀ a ∈ p, altFirstLit a ≠ []) :
    ∀ s n, matchPatAt p s = some n → 1 ≤ n := by
  intro s n h
  obtain ⟨a, ha, hma⟩ := List.exists_of_findSome?_eq_some h
  exact matchAltAt_pos a s n (hfl a ha) hma

theorem matchPatAt_fires (p : List RAlt) (w : JStr) (hmem : RAlt.lit w ∈ p)
    (s : JStr) (hpre : isPrefixB w (jsLower s) = true) : matchPatAt p s ≠ none := by
  intro hnone
  rw [matchPatAt, List.findSome?_eq_none_iff] at hnone
  have h := hnone (RAlt.lit w) hmem
  simp only [matchAltAt] at h
  rw [litAt_eq, hpre] at h
  simp at h

/-- Core redaction property of one global replacement pass: when every
target word fires the pattern wherever it starts, no target word occurs
in the replacement, no proper prefix of a target word is a suffix of the
replacement, no proper suffix of a target word is a prefix of the
replacement, and target words are at most one character longer than the
replacement, the output of the scan contains no target word at all, and
any proper suffix of a target word that prefixes the output already
prefixed the input. -/
theorem jsLower_append (x y : JStr) : jsLower (x ++ y) = jsLower x ++ jsLower y := by
  simp [jsLower]

theorem jsLower_cons (c : Char) (t : JStr) : jsLower (c :: t) = c.toLower :: jsLower t := by
  simp [jsLower]

theorem jsLower_length (s : JStr) : (jsLower s).length = s.length := by
  simp [jsLower]

/-- Core redaction property of one global replacement pass: when every
target word fires the pattern wherever it starts, no target word occurs
in the replacement, no proper prefix of a target word is a suffix of the
replacement, no proper suffix of a target word is a prefix of the
replacement, and target words are at most one character longer than the
replacement, then the output of the scan contains no target word, and
any proper suffix of a target word that prefixes the output already
prefixed the input. -/
theorem replaceScanAux_no_occur (p : List RAlt) (r : JStr) (W : List JStr)
    (hfire : ∀ w ∈ W, ∀ s, isPrefixB w (jsLower s) = true → matchPatAt p s ≠ none)
    (hpos : ∀ s n, matchPatAt p s = some n → 1 ≤ n)
    (ha : ∀ w ∈ W, containsB w (jsLower r) = false)
    (hc : ∀ w ∈ W, noProperPrefixSuffixOf w (jsLower r) = true)
    (hd : ∀ w ∈ W, noProperSuffixPrefixOf w (jsLower r) = true)
    (hW : ∀ w ∈ W, w ≠ [])
    (hsize : ∀ w ∈ W, w.length ≤ (jsLower r).length + 1) :
    ∀ fuel s, s.length ≤ fuel →
      (∀ w ∈ W, containsB w (jsLower (replaceScanAux p r fuel s)) = false) ∧
      (∀ w ∈ W, ∀ a b, w = a ++ b → a ≠ [] →
        isPrefixB b (jsLower (replaceScanAux p r fuel s)) = true →
        isPrefixB b (jsLower s) = true) := by
  intro fuel
  induction fuel with
  | zero =>
    intro s hs
    have hnil : s = [] := List.length_eq_zero.mp (Nat.le_zero.mp hs)
    subst hnil
    constructor
    · intro w hw
      have hwne := hW w hw
      cases w with
      | nil => exact absurd rfl hwne
      | cons _ _ => rfl
    · intro w hw a b hab hane hpre
      exact hpre
  | succ fuel ih =>
    intro s hs
    cases s with
    | nil =>
      constructor
      · intro w hw
        have hwne := hW w hw
        cases w with
        | nil => exact absurd rfl hwne
        | cons _ _ => rfl
      · intro w hw a b hab hane hpre
        exact hpre
    | cons c rest =>
      cases hm : matchPatAt p (c :: rest) with
      | some n =>
        have hn : 1 ≤ n := hpos _ _ hm
        have hlen : ((c :: rest).drop n).length ≤ fuel := by
          simp only [List.length_drop, List.length_cons]
          simp only [List.length_cons] at hs
          omega
        have ihd := ih ((c :: rest).drop n) hlen
        have hout : replaceScanAux p r (fuel + 1) (c :: rest)
            = r ++ replaceScanAux p r fuel ((c :: rest).drop n) := by
          simp [replaceScanAux, hm]
        constructor
        · intro w hw
          rw [hout]
          by_contra hcon
          rw [Bool.not_eq_false, jsLower_append] at hcon
          rcases contains_append_cases _ _ _ hcon with
            h1 | h2 | ⟨a, b, hab, hane, hbne, hsuf, hpre⟩
          · rw [ha w hw] at h1
            cases h1
          · rw [ihd.1 w hw] at h2
            cases h2
          · have hk := hc w hw
            rw [noProperPrefixSuffixOf, List.all_eq_true] at hk
            have hmem : a.length ∈ List.range w.length := by
              rw [List.mem_range, hab, List.length_append]
              have := List.length_pos.mpr hbne
              omega
            have hk2 := hk a.length hmem
            simp only [Bool.or_eq_true, beq_iff_eq, Bool.not_eq_true'] at hk2
            rcases hk2 with h0 | hfalse
            · exact absurd (List.length_eq_zero.mp h0) hane
            · rw [hab, List.take_left] at hfalse
              rw [hfalse] at hsuf
              cases hsuf
        · intro w hw a b hab hane hpre
          cases b with
          | nil => rfl
          | cons b0 bs =>
            rw [hout, jsLower_append] at hpre
            have hble : (b0 :: bs).length ≤ (jsLower r).length := by
              have h1 := hsize w hw
              have h2 : w.length = a.length + (b0 :: bs).length := by
                rw [hab, List.length_append]
              have h3 := List.length_pos.mpr hane
              omega
            have hpb : isPrefixB (b0 :: bs) (jsLower r) = true :=
              isPrefixB_of_append_left _ _ _ hble hpre
            have hk := hd w hw
            rw [noProperSuffixPrefixOf, List.all_eq_true] at hk
            have hmem : a.length ∈ List.range w.length := by
              rw [List.mem_range, hab, List.length_append]
              simp only [List.length_cons]
              omega
            have hk2 := hk a.length hmem
            simp only [Bool.or_eq_true, beq_iff_eq, Bool.not_eq_true'] at hk2
            rcases hk2 with h0 | hfalse
            · exact absurd (List.length_eq_zero.mp h0) hane
            · rw [hab, List.drop_left] at hfalse
              rw [hfalse] at hpb
              cases hpb
      | none =>
        have hout : replaceScanAux p r (fuel + 1) (c :: rest)
            = c :: replaceScanAux p r fuel rest := by
          simp [replaceScanAux, hm]
        have hlen : rest.length ≤ fuel := by
          simp only [List.length_cons] at hs
          omega
        have ihd := ih rest hlen
        constructor
        · intro w hw
          have hwne := hW w hw
          rw [hout, jsLower_cons]
          cases w with
          | nil => exact absurd rfl hwne
          | cons w0 ws =>
            simp only [containsB]
            rw [Bool.or_eq_false_iff]
            refine ⟨?_, ihd.1 (w0 :: ws) hw⟩
            by_contra hp
            rw [Bool.not_eq_false] at hp
            simp only [isPrefixB, Bool.and_eq_true, beq_iff_eq] at hp
            obtain ⟨hw0c, hwtail⟩ := hp
            have htail' : isPrefixB ws (jsLower rest) = true :=
              ihd.2 (w0 :: ws) hw [w0] ws rfl (by simp) hwtail
            have hps : isPrefixB (w0 :: ws) (jsLower (c :: rest)) = true := by
              rw [jsLower_cons]
              simp only [isPrefixB, Bool.and_eq_true, beq_iff_eq]
              exact ⟨hw0c, htail'⟩
            exact absurd hm (hfire (w0 :: ws) hw (c :: rest) hps)
        · intro w hw a b hab hane hpre
          cases b with
          | nil => rfl
          | cons b0 bs =>
            rw [hout, jsLower_cons] at hpre
            rw [jsLower_cons]
            simp only [isPrefixB, Bool.and_eq_true, beq_iff_eq] at hpre ⊢
            refine ⟨hpre.1, ?_⟩
            exact ihd.2 w hw (a ++ [b0]) bs (by rw [hab]; simp) (by simp) hpre.2


theorem replaceAll_no_occur (p : List RAlt) (r : JStr) (W : List JStr)
    (hmem : ∀ w ∈ W, RAlt.lit w ∈ p)
    (hfl : ∀ a ∈ p, altFirstLit a ≠ [])
    (ha : ∀ w ∈ W, containsB w (jsLower r) = false)
    (hc : ∀ w ∈ W, noProperPrefixSuffixOf w (jsLower r) = true)
    (hd : ∀ w ∈ W, noProperSuffixPrefixOf w (jsLower r) = true)
    (hW : ∀ w ∈ W, w ≠ [])
    (hsize : ∀ w ∈ W, w.length ≤ (jsLower r).length + 1) :
    ∀ s, ∀ w ∈ W, containsB w (jsLower (replaceAll p r s)) = false := by
  intro s w hw
  have h := replaceScanAux_no_occur p r W
    (fun w hw s hpre => matchPatAt_fires p w (hmem w hw) s hpre)
    (matchPatAt_pos p hfl) ha hc hd hW hsize s.length s (le_refl _)
  exact h.1 w hw

/-- C7 counterexample: the raw error message "google gpt-3 unavailable"
passes through sanitizeError untouched, so both the sanitized message
and the user-facing message still contain the vendor terms google and
gpt — the map only redacts gpt-5/gpt-4 and google-before-pagespeed. -/
theorem sanitizeError_leak_counterexample :
    containsB "google".data
        (jsLower (sanitizeError "google gpt-3 unavailable".data).message) = true ∧
    containsB "gpt".data
        (jsLower (sanitizeError "google gpt-3 unavailable".data).message) = true ∧
    containsB "google".data
        (jsLower (createErrorResponse "google gpt-3 unavailable".data).1) = true ∧
    containsB "gpt".data
        (jsLower (createErrorResponse "google gpt-3 unavailable".data).1) = true := by
  decide

/-- C7 amended: each hard-coded vendor pattern is redacted by its own
rewrite rule: the output of the first sanitization rule never contains
replicate, openai, gpt-5, gpt5, gpt-4 or gpt4, and the output of the
sixth rule never contains pagespeed or lighthouse, case-insensitively
and for every input; bare gpt and bare google are not in the pattern
list and may survive, and a later generic rewrite can in principle
splice a vendor term back together out of its replacement text and the
surrounding message. -/
theorem sanitizeError_redaction_amended (s : JStr) :
    (containsB "replicate".data
        (jsLower (replaceAll replicatePattern "Stylr AI".data s)) = false ∧
     containsB "openai".data
        (jsLower (replaceAll replicatePattern "Stylr AI".data s)) = false ∧
     containsB "gpt-5".data
        (jsLower (replaceAll replicatePattern "Stylr AI".data s)) = false ∧
     containsB "gpt5".data
        (jsLower (replaceAll replicatePattern "Stylr AI".data s)) = false ∧
     containsB "gpt-4".data
        (jsLower (replaceAll replicatePattern "Stylr AI".data s)) = false ∧
     containsB "gpt4".data
        (jsLower (replaceAll replicatePattern "Stylr AI".data s)) = false) ∧
    (containsB "pagespeed".data
        (jsLower (replaceAll pagespeedPattern "performance analysis".data s)) = false ∧
     containsB "lighthouse".data
        (jsLower (replaceAll pagespeedPattern "performance analysis".data s)) = false) := by
  have h1 := replaceAll_no_occur replicatePattern "Stylr AI".data
    ["replicate".data, "openai".data, "gpt-5".data, "gpt5".data, "gpt-4".data, "gpt4".data]
    (by decide) (by decide) (by decide) (by decide) (by decide) (by decide) (by decide) s
  have h6 := replaceAll_no_occur pagespeedPattern "performance analysis".data
    ["pagespeed".data, "lighthouse".data]
    (by decide) (by decide) (by decide) (by decide) (by decide) (by decide) (by decide) s
  refine ⟨⟨h1 _ ?_, h1 _ ?_, h1 _ ?_, h1 _ ?_, h1 _ ?_, h1 _ ?_⟩, h6 _ ?_, h6 _ ?_⟩ <;> decide

/-- C3 amended: on the all-checks-failing snapshot analyzeSEO returns raw
points 8 (the URL-structure warning contributes 5 and the zero-features
warning 3) and score 9, and the recommendations are exactly the critical
messages first, then the high-priority message. -/
theorem analyzeSEO_allFail_amended :
    ∃ a, analyzeSEO allFailSnapshot = Except.ok a ∧
      (a.checks.map (fun c => c.score)).sum = 8 ∧
      a.score = 9 ∧
      a.recommendations =
        ["🔴 Critical: Meta title is missing".data,
         "🔴 Critical: Meta description is missing".data,
         "🔴 Critical: H1 tag is missing".data,
         "🔴 Critical: Product schema markup not detected (High priority fix!)".data,
         "🔴 Critical: Page is not using HTTPS".data,
         "🔴 Critical: Product description is missing or could not be extracted".data,
         "🟠 High: No key features or bullet points found".data] := by
  refine ⟨_, analyzeSEO_allFail_eval, ?_, rfl, rfl⟩
  norm_num

end Stylr

/-! ## C6: helper lemmas on lists, characters and pair chains -/

namespace Stylr

theorem headAppendNe {x : JStr} (y : JStr) (h : x ≠ []) :
    (x ++ y).head? = x.head? := by
  cases x with
  | nil => exact absurd rfl h
  | cons c t => rfl

theorem getLastCons {t : JStr} (c : Char) (h : t ≠ []) :
    (c :: t).getLast? = t.getLast? := by
  cases t with
  | nil => exact absurd rfl h
  | cons d t' => exact List.getLast?_cons_cons

theorem getLastAppendNe (x : JStr) {y : JStr} (h : y ≠ []) :
    (x ++ y).getLast? = y.getLast? := by
  induction x with
  | nil => rfl
  | cons c t ih =>
    have hne : t ++ y ≠ [] := by
      intro hh
      rcases List.append_eq_nil.mp hh with ⟨-, h2⟩
      exact h h2
    rw [List.cons_append, getLastCons c hne, ih]

theorem getLastConcat (x : JStr) (c : Char) : (x ++ [c]).getLast? = some c := by
  rw [getLastAppendNe x (by simp)]; rfl

theorem memOfGetLast {l : JStr} {a : Char} (h : l.getLast? = some a) : a ∈ l := by
  induction l with
  | nil => simp at h
  | cons c t ih =>
    cases t with
    | nil => simp at h; simp [h]
    | cons d t' =>
      rw [List.getLast?_cons_cons] at h
      exact List.mem_cons_of_mem _ (ih h)

theorem dropWhileAllFalse {p : Char → Bool} {s : JStr}
    (h : ∀ c ∈ s, p c = false) : s.dropWhile p = s := by
  cases s with
  | nil => rfl
  | cons c t => simp [List.dropWhile_cons, h c (by simp)]

theorem skipWsCons {c : Char} (t : JStr) (h : jsWsB c = false) :
    skipWs (c :: t) = c :: t := by
  simp [skipWs, List.dropWhile_cons, h]

theorem wsEq (c : Char) : c.isWhitespace = jsWsB c := by
  unfold Char.isWhitespace jsWsB
  by_cases h1 : c = ' ' <;> by_cases h2 : c = '\t' <;>
    by_cases h3 : c = '\r' <;> by_cases h4 : c = '\n' <;>
    simp [h1, h2, h3, h4]

theorem jsTrimNoop {s : JStr} (h : ∀ c ∈ s, jsWsB c = false) : jsTrim s = s := by
  have h1 : ∀ c ∈ s, c.isWhitespace = false := fun c hc => (wsEq c).trans (h c hc)
  unfold jsTrim
  rw [dropWhileAllFalse h1, dropWhileAllFalse (fun c hc => h1 c (List.mem_reverse.mp hc)),
    List.reverse_reverse]

theorem chainConsIff (f : Char → Char → Bool) (c : Char) (t : JStr) :
    chainPairsB f (c :: t) = true ↔
      chainPairsB f t = true ∧ (∀ b, t.head? = some b → f c b = true) := by
  cases t with
  | nil => simp [chainPairsB]
  | cons d t' =>
    have he : chainPairsB f (c :: d :: t') = (f c d && chainPairsB f (d :: t')) := rfl
    rw [he, Bool.and_eq_true]
    constructor
    · rintro ⟨h1, h2⟩
      refine ⟨h2, fun b hb => ?_⟩
      injection hb with hb
      exact hb ▸ h1
    · rintro ⟨h1, h2⟩
      exact ⟨h2 d rfl, h1⟩

theorem chainAppendIff (f : Char → Char → Bool) (x y : JStr) :
    chainPairsB f (x ++ y) = true ↔
      chainPairsB f x = true ∧ chainPairsB f y = true ∧
      (∀ a b, x.getLast? = some a → y.head? = some b → f a b = true) := by
  induction x with
  | nil => simp [chainPairsB]
  | cons c t ih =>
    cases t with
    | nil =>
      constructor
      · intro h
        rw [show (([c] : JStr) ++ y) = c :: y from rfl, chainConsIff] at h
        refine ⟨rfl, h.1, ?_⟩
        intro a b ha hb
        have hac : a = c := by simpa using ha.symm
        exact hac ▸ h.2 b hb
      · rintro ⟨-, h1, h2⟩
        show chainPairsB f (c :: y) = true
        rw [chainConsIff]
        exact ⟨h1, fun b hb => h2 c b rfl hb⟩
    | cons d t' =>
      rw [show ((c :: d :: t') ++ y) = c :: ((d :: t') ++ y) from rfl,
        chainConsIff f c ((d :: t') ++ y), ih, chainConsIff f c (d :: t'),
        List.getLast?_cons_cons]
      constructor
      · rintro ⟨⟨h1, h2, h3⟩, h4⟩
        exact ⟨⟨h1, fun b hb => h4 b (by rw [headAppendNe y (by simp)]; exact hb)⟩, h2, h3⟩
      · rintro ⟨⟨h1, h2⟩, h3, h4⟩
        refine ⟨⟨h1, h3, h4⟩, fun b hb => h2 b ?_⟩
        rw [headAppendNe y (by simp)] at hb
        exact hb

theorem chainWeaken {f g : Char → Char → Bool}
    (hfg : ∀ a b, f a b = true → g a b = true) :
    ∀ {x : JStr}, chainPairsB f x = true → chainPairsB g x = true := by
  intro x
  induction x with
  | nil => intro; rfl
  | cons c t ih =>
    intro h
    rw [chainConsIff] at h ⊢
    exact ⟨ih h.1, fun b hb => hfg c b (h.2 b hb)⟩

theorem okPairElim {a b : Char} (h : okPairB a b = true) :
    ¬(a = ':' ∧ b = ':') ∧ ¬(a = ',' ∧ b = ',') ∧ ¬(a = '/' ∧ b = '/') ∧
    ¬(a = '/' ∧ b = '*') ∧ ¬(a = ',' ∧ b = '}') ∧ ¬(a = ',' ∧ b = ']') := by
  simp only [okPairB, Bool.and_eq_true, Bool.not_eq_true', Bool.and_eq_false_iff,
    beq_eq_false_iff_ne, ne_eq] at h
  tauto

theorem okPairOfLeft {a : Char} (b : Char)
    (h1 : a ≠ ':') (h2 : a ≠ ',') (h3 : a ≠ '/') : okPairB a b = true := by
  simp [okPairB, h1, h2, h3]

theorem okPairOfRight (a : Char) {b : Char} (h1 : b ≠ ':') (h2 : b ≠ ',')
    (h3 : b ≠ '/') (h4 : b ≠ '*') (h5 : b ≠ '}') (h6 : b ≠ ']') :
    okPairB a b = true := by
  simp [okPairB, h1, h2, h3, h4, h5, h6]

theorem okPairToNoCC (a b : Char) (h : okPairB a b = true) : noColonColon a b = true := by
  rcases okPairElim h with ⟨h1, -⟩
  simp only [noColonColon, Bool.not_eq_true', Bool.and_eq_false_iff, beq_eq_false_iff_ne, ne_eq]
  tauto

theorem chainOfAllLeftSafe {x : JStr}
    (h : ∀ c ∈ x, c ≠ ':' ∧ c ≠ ',' ∧ c ≠ '/') :
    chainPairsB okPairB x = true := by
  induction x with
  | nil => rfl
  | cons c t ih =>
    rw [chainConsIff]
    rcases h c (by simp) with ⟨h1, h2, h3⟩
    exact ⟨ih (fun d hd => h d (by simp [hd])), fun b _ => okPairOfLeft b h1 h2 h3⟩

end Stylr

namespace Stylr

theorem cleanCharElim {c : Char} (h : cleanChar c = true) :
    c ≠ '{' ∧ c ≠ '}' ∧ c ≠ '[' ∧ c ≠ ']' ∧ c ≠ '"' ∧ c ≠ '\\' ∧ c ≠ '`' ∧
    jsWsB c = false ∧ ¬(c.toNat < 32) := by
  simp only [cleanChar, Bool.and_eq_true, Bool.not_eq_true', Bool.or_eq_false_iff,
    decide_eq_false_iff_not] at h
  tauto

theorem cleanStrElim {s : JStr} (h : cleanStr s = true) :
    (∀ c ∈ s, cleanChar c = true) ∧ chainPairsB okPairB s = true := by
  simp only [cleanStr, Bool.and_eq_true, List.all_eq_true] at h
  exact h

theorem escapeCharId {c : Char} (h : cleanChar c = true) : escapeChar c = [c] := by
  rcases cleanCharElim h with ⟨-, -, -, -, h5, h6, -, h8, h9⟩
  have hn : c ≠ '\n' := fun he => by rw [he] at h8; exact absurd h8 (by decide)
  have hr : c ≠ '\r' := fun he => by rw [he] at h8; exact absurd h8 (by decide)
  have ht : c ≠ '\t' := fun he => by rw [he] at h8; exact absurd h8 (by decide)
  have hb : c ≠ Char.ofNat 8 := fun he => by rw [he] at h9; exact absurd (by decide) h9
  have hf : c ≠ Char.ofNat 12 := fun he => by rw [he] at h9; exact absurd (by decide) h9
  unfold escapeChar
  rw [if_neg h5, if_neg h6, if_neg hn, if_neg hr, if_neg ht, if_neg hb, if_neg hf, if_neg h9]

theorem escapeStringId {s : JStr} (h : ∀ c ∈ s, cleanChar c = true) :
    escapeString s = s := by
  induction s with
  | nil => rfl
  | cons c t ih =>
    show escapeChar c ++ escapeString t = c :: t
    rw [escapeCharId (h c (by simp)), ih (fun d hd => h d (by simp [hd]))]
    rfl

theorem digitFacts {c : Char} (h : c.isDigit = true) :
    c ≠ '"' ∧ c ≠ 't' ∧ c ≠ 'f' ∧ c ≠ 'n' ∧ c ≠ '[' ∧ c ≠ '{' ∧ c ≠ ']' ∧
    c ≠ '}' ∧ c ≠ ',' ∧ c ≠ ':' ∧ c ≠ '-' ∧ c ≠ '`' ∧ c ≠ '*' ∧ c ≠ '/' ∧
    jsWsB c = false := by
  have hws : jsWsB c = false := by
    cases hw : jsWsB c
    · rfl
    · exfalso
      simp only [jsWsB, Bool.or_eq_true, decide_eq_true_eq] at hw
      rcases hw with ((h' | h') | h') | h' <;> rw [h'] at h <;> exact absurd h (by decide)
  refine ⟨?_, ?_, ?_, ?_, ?_, ?_, ?_, ?_, ?_, ?_, ?_, ?_, ?_, ?_, hws⟩ <;>
    (intro he; rw [he] at h; exact absurd h (by decide))

theorem valueStartElim {c : Char} (h : isValueStartB c = true) :
    jsWsB c = false ∧ c ≠ ']' ∧ c ≠ '}' ∧ c ≠ ',' ∧ c ≠ ':' ∧ c ≠ '`' ∧
    c ≠ '*' ∧ c ≠ '/' := by
  simp only [isValueStartB, Bool.or_eq_true, decide_eq_true_eq] at h
  rcases h with ((((((h | h) | h) | h) | h) | h) | h) | h
  case inl.inl.inl.inl.inl.inr =>
    rcases digitFacts h with ⟨-, -, -, -, -, -, h7, h8, h9, h10, -, h12, h13, h14, h15⟩
    exact ⟨h15, h7, h8, h9, h10, h12, h13, h14⟩
  all_goals rw [h]
  all_goals refine ⟨by decide, by decide, by decide, by decide, by decide, by decide,
    by decide, by decide⟩

theorem valueEndElim {c : Char} (h : isValueEndB c = true) :
    c ≠ ':' ∧ c ≠ ',' ∧ c ≠ '/' := by
  simp only [isValueEndB, Bool.or_eq_true, decide_eq_true_eq] at h
  rcases h with ((((h | h) | h) | h) | h) | h
  case inl.inl.inl.inl.inr =>
    rcases digitFacts h with ⟨-, -, -, -, -, -, -, -, h9, h10, -, -, -, h14, -⟩
    exact ⟨h10, h9, h14⟩
  all_goals rw [h]
  all_goals exact ⟨by decide, by decide, by decide⟩

theorem natToStrAuxDigits :
    ∀ fuel n c, c ∈ natToStrAux fuel n → c.isDigit = true := by
  intro fuel
  induction fuel with
  | zero => intro n c hc; simp [natToStrAux] at hc
  | succ f ih =>
    intro n c hc
    unfold natToStrAux at hc
    split at hc
    · rename_i hn
      simp only [List.mem_singleton] at hc
      subst hc
      interval_cases n <;> decide
    · rcases List.mem_append.mp hc with h | h
      · exact ih _ _ h
      · simp only [List.mem_singleton] at h
        subst h
        have hm : n % 10 < 10 := Nat.mod_lt _ (by norm_num)
        set m := n % 10 with hm2
        interval_cases m <;> decide

theorem natToStrAuxNe (fuel n : ℕ) (h : 0 < fuel) : natToStrAux fuel n ≠ [] := by
  cases fuel with
  | zero => omega
  | succ f =>
    unfold natToStrAux
    split
    · simp
    · simp

theorem digitsValConcat (xs : JStr) (c : Char) :
    digitsVal (xs ++ [c]) = digitsVal xs * 10 + (c.toNat - 48) := by
  simp [digitsVal, List.foldl_append]

theorem natToStrAuxVal :
    ∀ fuel n, n < fuel → digitsVal (natToStrAux fuel n) = n := by
  intro fuel
  induction fuel with
  | zero => intro n h; omega
  | succ f ih =>
    intro n h
    unfold natToStrAux
    split
    · rename_i hn
      interval_cases n <;> decide
    · rename_i hn
      push_neg at hn
      rw [digitsValConcat, ih (n / 10) (by omega)]
      have hm : n % 10 < 10 := Nat.mod_lt _ (by norm_num)
      have hv : (Char.ofNat (48 + n % 10)).toNat = 48 + n % 10 := by
        set m := n % 10 with hm2
        interval_cases m <;> decide
      rw [hv]
      omega

theorem natToStrDigits {n : ℕ} {c : Char} (h : c ∈ natToStr n) : c.isDigit = true :=
  natToStrAuxDigits _ _ _ h

theorem natToStrNe (n : ℕ) : natToStr n ≠ [] := natToStrAuxNe _ _ (by omega)

theorem natToStrVal (n : ℕ) : digitsVal (natToStr n) = n :=
  natToStrAuxVal _ _ (by omega)

theorem digitsSplit :
    ∀ (x y : JStr), (∀ c ∈ x, c.isDigit = true) → noDigitHead y = true →
      (x ++ y).takeWhile Char.isDigit = x ∧ (x ++ y).dropWhile Char.isDigit = y := by
  intro x
  induction x with
  | nil =>
    intro y hx hy
    cases y with
    | nil => exact ⟨rfl, rfl⟩
    | cons c t =>
      simp only [noDigitHead, Bool.not_eq_true'] at hy
      simp [List.takeWhile_cons, List.dropWhile_cons, hy]
  | cons c t ih =>
    intro y hx hy
    have hc : c.isDigit = true := hx c (by simp)
    rcases ih y (fun d hd => hx d (by simp [hd])) hy with ⟨h1, h2⟩
    constructor
    · show List.takeWhile Char.isDigit (c :: (t ++ y)) = c :: t
      rw [List.takeWhile_cons, hc]
      simp [h1]
    · show List.dropWhile Char.isDigit (c :: (t ++ y)) = y
      rw [List.dropWhile_cons, hc]
      simpa using h2

end Stylr

namespace Stylr

theorem okDepthConsEq (c : Char) (t : JStr) (k : ℕ) :
    okDepth (c :: t) k =
      (if c = '{' then okDepth t (k + 1)
       else if c = '}' then (if k = 0 then none else okDepth t (k - 1))
       else okDepth t k) := rfl

theorem okDepthAppend :
    ∀ (x : JStr) (y : JStr) (k k' : ℕ), okDepth x k = some k' →
      okDepth (x ++ y) k = okDepth y k' := by
  intro x
  induction x with
  | nil =>
    intro y k k' h
    simp only [okDepth, Option.some.injEq] at h
    rw [h]
    rfl
  | cons c t ih =>
    intro y k k' h
    rw [okDepthConsEq] at h
    rw [List.cons_append, okDepthConsEq]
    by_cases h1 : c = '{'
    · rw [if_pos h1] at h ⊢
      exact ih y _ _ h
    · rw [if_neg h1] at h ⊢
      by_cases h2 : c = '}'
      · rw [if_pos h2] at h ⊢
        by_cases h3 : k = 0
        · rw [if_pos h3] at h
          exact absurd h (by simp)
        · rw [if_neg h3] at h ⊢
          exact ih y _ _ h
      · rw [if_neg h2] at h ⊢
        exact ih y _ _ h

theorem okDepthNoBraces :
    ∀ (x : JStr) (k : ℕ), (∀ c ∈ x, c ≠ '{' ∧ c ≠ '}') → okDepth x k = some k := by
  intro x
  induction x with
  | nil => intro k h; rfl
  | cons c t ih =>
    intro k h
    rcases h c (by simp) with ⟨h1, h2⟩
    rw [okDepthConsEq, if_neg h1, if_neg h2]
    exact ih k (fun d hd => h d (by simp [hd]))

theorem okDepthInsert :
    ∀ (x y : JStr) (c : Char) (k : ℕ), c ≠ '{' → c ≠ '}' →
      okDepth (x ++ c :: y) k = okDepth (x ++ y) k := by
  intro x
  induction x with
  | nil =>
    intro y c k h1 h2
    show okDepth (c :: y) k = okDepth y k
    rw [okDepthConsEq, if_neg h1, if_neg h2]
  | cons d t ih =>
    intro y c k h1 h2
    show okDepth (d :: (t ++ c :: y)) k = okDepth (d :: (t ++ y)) k
    rw [okDepthConsEq, okDepthConsEq]
    split_ifs
    · exact ih y c _ h1 h2
    · rfl
    · exact ih y c _ h1 h2
    · exact ih y c _ h1 h2

theorem findCloseCons (c : Char) (rest : JStr) (count i : ℕ) :
    findClose (c :: rest) count i =
      (if c = '{' then findClose rest (count + 1) (i + 1)
       else if c = '}' then
         (if count = 1 then some i else findClose rest (count - 1) (i + 1))
       else findClose rest count (i + 1)) := rfl

theorem findCloseOfDepth :
    ∀ (x u : JStr) (k k' i : ℕ), okDepth x k = some k' →
      findClose (x ++ u) (k + 1) i = findClose u (k' + 1) (i + x.length) := by
  intro x
  induction x with
  | nil =>
    intro u k k' i h
    simp only [okDepth, Option.some.injEq] at h
    rw [h]
    rfl
  | cons c t ih =>
    intro u k k' i h
    rw [okDepthConsEq] at h
    rw [List.cons_append, findCloseCons]
    have harith : i + 1 + t.length = i + (c :: t).length := by
      simp only [List.length_cons]
      omega
    by_cases h1 : c = '{'
    · rw [if_pos h1] at h ⊢
      rw [ih u (k + 1) k' (i + 1) h, harith]
    · rw [if_neg h1] at h ⊢
      by_cases h2 : c = '}'
      · rw [if_pos h2] at h ⊢
        by_cases h3 : k = 0
        · rw [if_pos h3] at h
          exact absurd h (by simp)
        · rw [if_neg h3] at h
          rw [if_neg (by omega : ¬(k + 1 = 1))]
          have he : k + 1 - 1 = (k - 1) + 1 := by omega
          rw [he, ih u (k - 1) k' (i + 1) h, harith]
      · rw [if_neg h2] at h ⊢
        rw [ih u k k' (i + 1) h, harith]

theorem prefixBSelfAppend : ∀ (x y : JStr), isPrefixB x (x ++ y) = true := by
  intro x
  induction x with
  | nil => intro y; rfl
  | cons c t ih =>
    intro y
    show (c == c && isPrefixB t (t ++ y)) = true
    simp [ih]

theorem parseStringBodyRT :
    ∀ (s r : JStr), (∀ c ∈ s, c ≠ '"' ∧ c ≠ '\\') →
      parseStringBody (s ++ '"' :: r) = some (s, r) := by
  intro s
  induction s with
  | nil =>
    intro r h
    show parseStringBody ('"' :: r) = some ([], r)
    unfold parseStringBody
    rw [if_pos rfl]
  | cons c t ih =>
    intro r h
    rcases h c (by simp) with ⟨h1, h2⟩
    show parseStringBody (c :: (t ++ '"' :: r)) = some (c :: t, r)
    unfold parseStringBody
    rw [if_neg h1, if_neg h2, ih r (fun d hd => h d (by simp [hd]))]

theorem parseNumberConsNeg (r : JStr) :
    parseNumber ('-' :: r) =
      (if r.takeWhile Char.isDigit = [] then none
       else some (.num (-(digitsVal (r.takeWhile Char.isDigit) : ℤ)),
         r.dropWhile Char.isDigit)) := rfl

theorem parseNumberConsPos {c : Char} (r : JStr) (h : c ≠ '-') :
    parseNumber (c :: r) =
      (if (c :: r).takeWhile Char.isDigit = [] then none
       else some (.num (digitsVal ((c :: r).takeWhile Char.isDigit) : ℤ),
         (c :: r).dropWhile Char.isDigit)) := by
  show (if c = '-' then _ else _) = _
  rw [if_neg h]

theorem parseNumberIntToStr (n : ℤ) (rest : JStr) (h : noDigitHead rest = true) :
    parseNumber (intToStr n ++ rest) = some (.num n, rest) := by
  by_cases hn : n < 0
  · rw [intToStr, if_pos hn]
    show parseNumber ('-' :: (natToStr n.natAbs ++ rest)) = some (.num n, rest)
    rw [parseNumberConsNeg]
    rcases digitsSplit (natToStr n.natAbs) rest (fun c hc => natToStrDigits hc) h with ⟨h1, h2⟩
    rw [h1, h2, if_neg (natToStrNe _), natToStrVal]
    have hna : -((n.natAbs : ℤ)) = n := by omega
    rw [hna]
  · rw [intToStr, if_neg hn]
    have hne := natToStrNe n.toNat
    rcases List.exists_cons_of_ne_nil hne with ⟨c, t, hct⟩
    have hcd : c.isDigit = true := natToStrDigits (by rw [hct]; simp)
    have hcm : c ≠ '-' := (digitFacts hcd).2.2.2.2.2.2.2.2.2.2.1
    rw [hct]
    show parseNumber (c :: (t ++ rest)) = some (.num n, rest)
    rw [show (c :: (t ++ rest)) = ((c :: t) ++ rest) from rfl]
    have hall : ∀ d ∈ natToStr n.toNat, d.isDigit = true := fun d hd => natToStrDigits hd
    rw [hct] at hall
    rcases digitsSplit (c :: t) rest hall h with ⟨h1, h2⟩
    rw [show ((c :: t) ++ rest) = c :: (t ++ rest) from rfl, parseNumberConsPos _ hcm]
    rw [show (c :: (t ++ rest)) = ((c :: t) ++ rest) from rfl, h1, h2, if_neg (by simp)]
    have hv : digitsVal (c :: t) = n.toNat := by rw [← hct, natToStrVal]
    rw [hv]
    have hn2 : ((n.toNat : ℤ)) = n := by omega
    rw [hn2]

end Stylr

namespace Stylr

theorem okPairColonRight {b : Char} (a : Char) (h : b ≠ ':') : okPairB ':' b = true := by
  simp [okPairB, h]

theorem okPairCommaRight {b : Char} (h1 : b ≠ ',') (h2 : b ≠ '}') (h3 : b ≠ ']') :
    okPairB ',' b = true := by
  simp [okPairB, h1, h2, h3]

theorem okPairRightComma {a : Char} (h : a ≠ ',') : okPairB a ',' = true := by
  simp [okPairB, h]

theorem okPairRightBrace {a : Char} (h : a ≠ ',') : okPairB a '}' = true := by
  simp [okPairB, h]

theorem okPairRightBracket {a : Char} (h : a ≠ ',') : okPairB a ']' = true := by
  simp [okPairB, h]

theorem serVNe : ∀ v : JValue, serializeVal v ≠ [] := by
  intro v
  cases v with
  | str s => simp [serializeVal]
  | num n =>
    show intToStr n ≠ []
    unfold intToStr
    split_ifs
    · simp
    · exact natToStrNe _
  | bool b => cases b <;> simp [serializeVal]
  | null => simp [serializeVal]
  | arr xs => simp [serializeVal]
  | obj fs => simp [serializeVal]

theorem chainSingleton (f : Char → Char → Bool) (c : Char) :
    chainPairsB f [c] = true := rfl

theorem serGoodStr {s : JStr} (h : cleanStr s = true) :
    serGoodProp ('"' :: escapeString s ++ ['"']) := by
  rcases cleanStrElim h with ⟨hmem, hchain⟩
  rw [escapeStringId hmem]
  refine ⟨by simp, ?_, ?_, ?_, ?_, ?_⟩
  · intro c hc
    rw [headAppendNe ['"'] (by simp)] at hc
    injection hc with hc
    rw [← hc]
    decide
  · intro c hc
    rw [getLastConcat] at hc
    injection hc with hc
    rw [← hc]
    decide
  · rw [chainAppendIff]
    refine ⟨?_, chainSingleton _ _, ?_⟩
    · rw [chainConsIff]
      refine ⟨hchain, ?_⟩
      intro b hb
      exact okPairOfLeft b (by decide) (by decide) (by decide)
    · intro a b ha hb
      injection hb with hb
      rw [← hb]
      exact okPairOfRight a (by decide) (by decide) (by decide) (by decide) (by decide)
        (by decide)
  · intro c hc
    rcases List.mem_append.mp hc with hc | hc
    · rcases List.mem_cons.mp hc with hc | hc
      · rw [hc]; exact ⟨by decide, by decide⟩
      · rcases cleanCharElim (hmem c hc) with ⟨-, -, -, -, -, -, h7, h8, -⟩
        exact ⟨h7, h8⟩
    · simp only [List.mem_singleton] at hc
      rw [hc]
      exact ⟨by decide, by decide⟩
  · intro k
    have hnb : ∀ c ∈ s, c ≠ '{' ∧ c ≠ '}' := by
      intro c hc
      rcases cleanCharElim (hmem c hc) with ⟨h1, h2, -⟩
      exact ⟨h1, h2⟩
    have hds : okDepth ('"' :: s) k = some k := by
      rw [okDepthConsEq, if_neg (by decide), if_neg (by decide)]
      exact okDepthNoBraces s k hnb
    rw [okDepthAppend ('"' :: s) ['"'] k k hds]
    rfl

theorem serGoodNum (n : ℤ) : serGoodProp (intToStr n) := by
  unfold intToStr
  split_ifs with hn
  · have hne := natToStrNe n.natAbs
    refine ⟨by simp, ?_, ?_, ?_, ?_, ?_⟩
    · intro c hc
      injection hc with hc
      rw [← hc]
      decide
    · intro c hc
      rw [getLastCons '-' hne] at hc
      have hcd := natToStrDigits (memOfGetLast hc)
      simp [isValueEndB, hcd]
    · apply chainOfAllLeftSafe
      intro c hc
      rcases List.mem_cons.mp hc with hc | hc
      · rw [hc]; exact ⟨by decide, by decide, by decide⟩
      · rcases digitFacts (natToStrDigits hc) with
          ⟨-, -, -, -, -, -, -, -, h9, h10, -, -, -, h14, -⟩
        exact ⟨h10, h9, h14⟩
    · intro c hc
      rcases List.mem_cons.mp hc with hc | hc
      · rw [hc]; exact ⟨by decide, by decide⟩
      · rcases digitFacts (natToStrDigits hc) with
          ⟨-, -, -, -, -, -, -, -, -, -, -, h12, -, -, h15⟩
        exact ⟨h12, h15⟩
    · intro k
      apply okDepthNoBraces
      intro c hc
      rcases List.mem_cons.mp hc with hc | hc
      · rw [hc]; exact ⟨by decide, by decide⟩
      · rcases digitFacts (natToStrDigits hc) with ⟨-, -, -, -, -, h6, -, h8, -⟩
        exact ⟨h6, h8⟩
  · have hne := natToStrNe n.toNat
    refine ⟨hne, ?_, ?_, ?_, ?_, ?_⟩
    · intro c hc
      have hcm : c ∈ natToStr n.toNat := by
        rcases List.exists_cons_of_ne_nil hne with ⟨d, t, hdt⟩
        rw [hdt] at hc ⊢
        injection hc with hc
        rw [← hc]
        simp
      have hcd := natToStrDigits hcm
      simp [isValueStartB, hcd]
    · intro c hc
      have hcd := natToStrDigits (memOfGetLast hc)
      simp [isValueEndB, hcd]
    · apply chainOfAllLeftSafe
      intro c hc
      rcases digitFacts (natToStrDigits hc) with
        ⟨-, -, -, -, -, -, -, -, h9, h10, -, -, -, h14, -⟩
      exact ⟨h10, h9, h14⟩
    · intro c hc
      rcases digitFacts (natToStrDigits hc) with
        ⟨-, -, -, -, -, -, -, -, -, -, -, h12, -, -, h15⟩
      exact ⟨h12, h15⟩
    · intro k
      apply okDepthNoBraces
      intro c hc
      rcases digitFacts (natToStrDigits hc) with ⟨-, -, -, -, -, h6, -, h8, -⟩
      exact ⟨h6, h8⟩

theorem serGoodTrue : serGoodProp "true".data := by
  refine ⟨by decide, ?_, ?_, by decide, by decide, fun k => rfl⟩
  · intro c hc
    injection hc with hc
    rw [← hc]
    decide
  · intro c hc
    have he : ("true".data).getLast? = some 'e' := by decide
    rw [he] at hc
    injection hc with hc
    rw [← hc]
    decide

theorem serGoodFalse : serGoodProp "false".data := by
  refine ⟨by decide, ?_, ?_, by decide, by decide, fun k => rfl⟩
  · intro c hc
    injection hc with hc
    rw [← hc]
    decide
  · intro c hc
    have he : ("false".data).getLast? = some 'e' := by decide
    rw [he] at hc
    injection hc with hc
    rw [← hc]
    decide

theorem serGoodNull : serGoodProp "null".data := by
  refine ⟨by decide, ?_, ?_, by decide, by decide, fun k => rfl⟩
  · intro c hc
    injection hc with hc
    rw [← hc]
    decide
  · intro c hc
    have he : ("null".data).getLast? = some 'l' := by decide
    rw [he] at hc
    injection hc with hc
    rw [← hc]
    decide

theorem serGoodArrNil : serGoodProp ('[' :: serializeArr .nil ++ [']']) := by
  refine ⟨by decide, ?_, ?_, by decide, by decide, fun k => rfl⟩
  · intro c hc
    injection hc with hc
    rw [← hc]
    decide
  · intro c hc
    have he : (('[' :: serializeArr .nil ++ [']'])).getLast? = some ']' := by decide
    rw [he] at hc
    injection hc with hc
    rw [← hc]
    decide

theorem serGoodObjNil : serGoodProp ('{' :: serializeObj .nil ++ ['}']) := by
  refine ⟨by decide, ?_, ?_, by decide, by decide, fun k => ?_⟩
  · intro c hc
    injection hc with hc
    rw [← hc]
    decide
  · intro c hc
    have he : (('{' :: serializeObj .nil ++ ['}'])).getLast? = some '}' := by decide
    rw [he] at hc
    injection hc with hc
    rw [← hc]
    decide
  · show okDepth ['{', '}'] k = some k
    rw [okDepthConsEq, if_pos rfl, okDepthConsEq, if_neg (by decide), if_pos rfl,
      if_neg (by omega)]
    show some (k + 1 - 1) = some k
    rw [Nat.add_sub_cancel]

theorem serGoodAppendComma {x y : JStr} (hx : serGoodProp x) (hy : serGoodProp y) :
    serGoodProp (x ++ ',' :: y) := by
  rcases hx with ⟨hx1, hx2, hx3, hx4, hx5, hx6⟩
  rcases hy with ⟨hy1, hy2, hy3, hy4, hy5, hy6⟩
  refine ⟨by simp, ?_, ?_, ?_, ?_, ?_⟩
  · intro c hc
    rw [headAppendNe _ hx1] at hc
    exact hx2 c hc
  · intro c hc
    rw [getLastAppendNe x (by simp), getLastCons ',' hy1] at hc
    exact hy3 c hc
  · rw [chainAppendIff]
    refine ⟨hx4, ?_, ?_⟩
    · rw [chainConsIff]
      refine ⟨hy4, ?_⟩
      intro b hb
      rcases valueStartElim (hy2 b hb) with ⟨-, hb2, hb3, hb4, -⟩
      exact okPairCommaRight hb4 hb3 hb2
    · intro a b ha hb
      injection hb with hb
      rw [← hb]
      rcases valueEndElim (hx3 a ha) with ⟨-, ha2, -⟩
      exact okPairRightComma ha2
  · intro c hc
    rcases List.mem_append.mp hc with hc | hc
    · exact hx5 c hc
    · rcases List.mem_cons.mp hc with hc | hc
      · rw [hc]; exact ⟨by decide, by decide⟩
      · exact hy5 c hc
  · intro k
    rw [okDepthAppend x (',' :: y) k k (hx6 k), okDepthConsEq, if_neg (by decide),
      if_neg (by decide)]
    exact hy6 k

theorem fieldSegGood {k : JStr} {v : JValue} (hk : cleanStr k = true)
    (hv : serGoodProp (serializeVal v)) :
    serGoodProp ('"' :: escapeString k ++ '"' :: ':' :: serializeVal v) := by
  rcases cleanStrElim hk with ⟨hmem, hchain⟩
  rw [escapeStringId hmem]
  rcases hv with ⟨hv1, hv2, hv3, hv4, hv5, hv6⟩
  have hyne : ('"' :: ':' :: serializeVal v : JStr) ≠ [] := by simp
  refine ⟨by simp, ?_, ?_, ?_, ?_, ?_⟩
  · intro c hc
    rw [headAppendNe _ (by simp)] at hc
    injection hc with hc
    rw [← hc]
    decide
  · intro c hc
    rw [getLastAppendNe _ hyne, getLastCons '"' (by simp), getLastCons ':' hv1] at hc
    exact hv3 c hc
  · rw [chainAppendIff]
    refine ⟨?_, ?_, ?_⟩
    · rw [chainConsIff]
      refine ⟨hchain, ?_⟩
      intro b hb
      exact okPairOfLeft b (by decide) (by decide) (by decide)
    · rw [chainConsIff]
      constructor
      · rw [chainConsIff]
        refine ⟨hv4, ?_⟩
        intro b hb
        rcases valueStartElim (hv2 b hb) with ⟨-, -, -, -, hb5, -⟩
        exact okPairColonRight ':' hb5
      · intro b hb
        injection hb with hb
        rw [← hb]
        exact okPairOfLeft ':' (by decide) (by decide) (by decide)
    · intro a b ha hb
      injection hb with hb
      rw [← hb]
      exact okPairOfRight a (by decide) (by decide) (by decide) (by decide) (by decide)
        (by decide)
  · intro c hc
    rcases List.mem_append.mp hc with hc | hc
    · rcases List.mem_cons.mp hc with hc | hc
      · rw [hc]; exact ⟨by decide, by decide⟩
      · rcases cleanCharElim (hmem c hc) with ⟨-, -, -, -, -, -, h7, h8, -⟩
        exact ⟨h7, h8⟩
    · rcases List.mem_cons.mp hc with hc | hc
      · rw [hc]; exact ⟨by decide, by decide⟩
      · rcases List.mem_cons.mp hc with hc | hc
        · rw [hc]; exact ⟨by decide, by decide⟩
        · exact hv5 c hc
  · intro k0
    have hnb : ∀ c ∈ k, c ≠ '{' ∧ c ≠ '}' := by
      intro c hc
      rcases cleanCharElim (hmem c hc) with ⟨h1, h2, -⟩
      exact ⟨h1, h2⟩
    have hds : okDepth ('"' :: k) k0 = some k0 := by
      rw [okDepthConsEq, if_neg (by decide), if_neg (by decide)]
      exact okDepthNoBraces k k0 hnb
    rw [okDepthAppend ('"' :: k) _ k0 k0 hds, okDepthConsEq, if_neg (by decide),
      if_neg (by decide), okDepthConsEq, if_neg (by decide), if_neg (by decide)]
    exact hv6 k0

theorem serGoodWrapArr {A : JStr} (hA : serGoodProp A) :
    serGoodProp ('[' :: A ++ [']']) := by
  rcases hA with ⟨h1, h2, h3, h4, h5, h6⟩
  refine ⟨by simp, ?_, ?_, ?_, ?_, ?_⟩
  · intro c hc
    rw [headAppendNe [']'] (by simp)] at hc
    injection hc with hc
    rw [← hc]
    decide
  · intro c hc
    rw [getLastConcat] at hc
    injection hc with hc
    rw [← hc]
    decide
  · rw [chainAppendIff]
    refine ⟨?_, chainSingleton _ _, ?_⟩
    · rw [chainConsIff]
      refine ⟨h4, ?_⟩
      intro b hb
      exact okPairOfLeft b (by decide) (by decide) (by decide)
    · intro a b ha hb
      injection hb with hb
      rw [← hb]
      rw [getLastCons '[' h1] at ha
      rcases valueEndElim (h3 a ha) with ⟨-, ha2, -⟩
      exact okPairRightBracket ha2
  · intro c hc
    rcases List.mem_append.mp hc with hc | hc
    · rcases List.mem_cons.mp hc with hc | hc
      · rw [hc]; exact ⟨by decide, by decide⟩
      · exact h5 c hc
    · simp only [List.mem_singleton] at hc
      rw [hc]
      exact ⟨by decide, by decide⟩
  · intro k
    have hds : okDepth ('[' :: A) k = some k := by
      rw [okDepthConsEq, if_neg (by decide), if_neg (by decide)]
      exact h6 k
    rw [okDepthAppend ('[' :: A) [']'] k k hds]
    rfl

theorem serGoodWrapObj {O : JStr} (hO : serGoodProp O) :
    serGoodProp ('{' :: O ++ ['}']) := by
  rcases hO with ⟨h1, h2, h3, h4, h5, h6⟩
  refine ⟨by simp, ?_, ?_, ?_, ?_, ?_⟩
  · intro c hc
    rw [headAppendNe ['}'] (by simp)] at hc
    injection hc with hc
    rw [← hc]
    decide
  · intro c hc
    rw [getLastConcat] at hc
    injection hc with hc
    rw [← hc]
    decide
  · rw [chainAppendIff]
    refine ⟨?_, chainSingleton _ _, ?_⟩
    · rw [chainConsIff]
      refine ⟨h4, ?_⟩
      intro b hb
      exact okPairOfLeft b (by decide) (by decide) (by decide)
    · intro a b ha hb
      injection hb with hb
      rw [← hb]
      rw [getLastCons '{' h1] at ha
      rcases valueEndElim (h3 a ha) with ⟨-, ha2, -⟩
      exact okPairRightBrace ha2
  · intro c hc
    rcases List.mem_append.mp hc with hc | hc
    · rcases List.mem_cons.mp hc with hc | hc
      · rw [hc]; exact ⟨by decide, by decide⟩
      · exact h5 c hc
    · simp only [List.mem_singleton] at hc
      rw [hc]
      exact ⟨by decide, by decide⟩
  · intro k
    have hds2 : okDepth ('{' :: O) k = some (k + 1) := by
      rw [okDepthConsEq, if_pos rfl]
      exact h6 (k + 1)
    rw [okDepthAppend ('{' :: O) ['}'] k (k + 1) hds2, okDepthConsEq,
      if_neg (by decide), if_pos rfl, if_neg (by omega)]
    show some (k + 1 - 1) = some k
    rw [Nat.add_sub_cancel]

mutual

theorem serGoodV : ∀ (v : JValue), cleanVal v = true → serGoodProp (serializeVal v)
  | .str s, h => by
    rw [show serializeVal (.str s) = '"' :: escapeString s ++ ['"'] from by
      simp [serializeVal]]
    exact serGoodStr (by simpa [cleanVal] using h)
  | .num n, _ => serGoodNum n
  | .bool true, _ => serGoodTrue
  | .bool false, _ => serGoodFalse
  | .null, _ => serGoodNull
  | .arr .nil, _ => by
    rw [show serializeVal (.arr .nil) = '[' :: serializeArr .nil ++ [']'] from by
      simp [serializeVal]]
    exact serGoodArrNil
  | .arr (.cons v tl), h => by
    rw [show serializeVal (.arr (.cons v tl)) = '[' :: serializeArr (.cons v tl) ++ [']']
      from by simp [serializeVal]]
    exact serGoodWrapArr (serGoodA (.cons v tl) (by simpa [cleanVal] using h)
      (by intro hx; exact JArray.noConfusion hx))
  | .obj .nil, _ => by
    rw [show serializeVal (.obj .nil) = '{' :: serializeObj .nil ++ ['}'] from by
      simp [serializeVal]]
    exact serGoodObjNil
  | .obj (.cons k v tl), h => by
    rw [show serializeVal (.obj (.cons k v tl)) = '{' :: serializeObj (.cons k v tl) ++ ['}']
      from by simp [serializeVal]]
    exact serGoodWrapObj (serGoodO (.cons k v tl) (by simpa [cleanVal] using h)
      (by intro hx; exact JObject.noConfusion hx))

theorem serGoodA : ∀ (xs : JArray), cleanArr xs = true → xs ≠ .nil →
    serGoodProp (serializeArr xs)
  | .cons v .nil, h, _ => by
    simp only [cleanArr, cleanVal, Bool.and_eq_true, Bool.and_true, and_true] at h
    rw [show serializeArr (.cons v .nil) = serializeVal v from by simp [serializeArr]]
    exact serGoodV v h
  | .cons v (.cons w tl), h, _ => by
    simp only [cleanArr, Bool.and_eq_true] at h
    obtain ⟨hv, ht⟩ := h
    rw [show serializeArr (.cons v (.cons w tl)) =
      serializeVal v ++ ',' :: serializeArr (.cons w tl) from by simp [serializeArr]]
    refine serGoodAppendComma (serGoodV v hv) ?_
    apply serGoodA (.cons w tl)
    · simp only [cleanArr, Bool.and_eq_true]
      exact ht
    · intro hx
      exact JArray.noConfusion hx

theorem serGoodO : ∀ (fs : JObject), cleanObj fs = true → fs ≠ .nil →
    serGoodProp (serializeObj fs)
  | .cons k v .nil, h, _ => by
    simp only [cleanObj, Bool.and_eq_true, Bool.and_true, and_true] at h
    obtain ⟨hk, hv⟩ := h
    rw [show serializeObj (.cons k v .nil) =
      '"' :: escapeString k ++ '"' :: ':' :: serializeVal v from by simp [serializeObj]]
    exact fieldSegGood hk (serGoodV v hv)
  | .cons k v (.cons k2 v2 tl), h, _ => by
    simp only [cleanObj, Bool.and_eq_true] at h
    obtain ⟨⟨hk, hv⟩, ht⟩ := h
    rw [show serializeObj (.cons k v (.cons k2 v2 tl)) =
      ('"' :: escapeString k ++ '"' :: ':' :: serializeVal v) ++
        ',' :: serializeObj (.cons k2 v2 tl) from by simp [serializeObj]]
    refine serGoodAppendComma (fieldSegGood hk (serGoodV v hv)) ?_
    apply serGoodO (.cons k2 v2 tl)
    · simp only [cleanObj, Bool.and_eq_true]
      exact ht
    · intro hx
      exact JObject.noConfusion hx

end

end Stylr

namespace Stylr

theorem noDigitHeadCons (c : Char) (r : JStr) : noDigitHead (c :: r) = !c.isDigit := rfl

theorem intToStrNe (n : ℤ) : intToStr n ≠ [] := by
  unfold intToStr
  split_ifs
  · simp
  · exact natToStrNe _

theorem intToStrHead {n : ℤ} {c : Char} {t : JStr} (h : intToStr n = c :: t) :
    c = '-' ∨ c.isDigit = true := by
  unfold intToStr at h
  split_ifs at h
  · injection h with h1 h2
    exact Or.inl h1.symm
  · right
    apply natToStrDigits (n := n.toNat)
    rw [h]
    simp

theorem muVPos (v : JValue) : 1 ≤ muV v := by
  cases v <;> simp [muV]

theorem muAPos (xs : JArray) : 1 ≤ muA xs := by
  cases xs <;> simp [muA]

theorem muOPos (fs : JObject) : 1 ≤ muO fs := by
  cases fs <;> simp [muO]

mutual

theorem rtV : ∀ (v : JValue), cleanVal v = true → ∀ (fuel : ℕ) (rest : JStr),
    muV v ≤ fuel → noDigitHead rest = true →
    parseValue fuel (serializeVal v ++ rest) = some (v, rest)
  | .str s, h, fuel, rest, hf, _ => by
    cases fuel with
    | zero => have := muVPos (.str s); omega
    | succ f =>
      have hmem := (cleanStrElim (show cleanStr s = true by simpa [cleanVal] using h)).1
      rw [show serializeVal (.str s) ++ rest = '"' :: (s ++ ('"' :: rest)) from by
        rw [show serializeVal (.str s) = '"' :: escapeString s ++ ['"'] from by
          simp [serializeVal], escapeStringId hmem]
        simp]
      simp only [parseValue]
      rw [skipWsCons _ (by decide)]
      dsimp only
      rw [if_pos rfl, parseStringBodyRT s rest (fun c hc => by
        rcases cleanCharElim (hmem c hc) with ⟨-, -, -, -, h5, h6, -⟩
        exact ⟨h5, h6⟩)]
  | .num n, _, fuel, rest, hf, hr => by
    cases fuel with
    | zero => have := muVPos (.num n); omega
    | succ f =>
      rcases List.exists_cons_of_ne_nil (intToStrNe n) with ⟨c, t, hct⟩
      have hcf := intToStrHead hct
      have hnws : jsWsB c = false := by
        rcases hcf with hc | hc
        · rw [hc]; decide
        · exact (digitFacts hc).2.2.2.2.2.2.2.2.2.2.2.2.2.2
      have hd1 : c ≠ '"' := by
        rcases hcf with hc | hc
        · rw [hc]; decide
        · exact (digitFacts hc).1
      have hd2 : c ≠ 't' := by
        rcases hcf with hc | hc
        · rw [hc]; decide
        · exact (digitFacts hc).2.1
      have hd3 : c ≠ 'f' := by
        rcases hcf with hc | hc
        · rw [hc]; decide
        · exact (digitFacts hc).2.2.1
      have hd4 : c ≠ 'n' := by
        rcases hcf with hc | hc
        · rw [hc]; decide
        · exact (digitFacts hc).2.2.2.1
      rw [show serializeVal (.num n) ++ rest = c :: (t ++ rest) from by
        rw [show serializeVal (.num n) = intToStr n from by simp [serializeVal], hct]
        rfl]
      simp only [parseValue]
      rw [skipWsCons _ hnws]
      dsimp only
      rw [if_neg hd1, if_neg hd2, if_neg hd3, if_neg hd4, if_pos (by
        rcases hcf with hc | hc
        · exact Or.inl hc
        · exact Or.inr hc)]
      rw [show c :: (t ++ rest) = (c :: t) ++ rest from rfl, ← hct,
        parseNumberIntToStr n rest hr]
  | .bool true, _, fuel, rest, hf, _ => by
    cases fuel with
    | zero => have := muVPos (.bool true); omega
    | succ f =>
      rw [show serializeVal (.bool true) ++ rest = 't' :: ("rue".data ++ rest) from by
        simp [serializeVal]]
      simp only [parseValue]
      rw [skipWsCons _ (by decide)]
      dsimp only
      rw [if_neg (by decide), if_pos rfl, if_pos (prefixBSelfAppend _ _),
        show (3 : ℕ) = ("rue".data).length from rfl, List.drop_left]
  | .bool false, _, fuel, rest, hf, _ => by
    cases fuel with
    | zero => have := muVPos (.bool false); omega
    | succ f =>
      rw [show serializeVal (.bool false) ++ rest = 'f' :: ("alse".data ++ rest) from by
        simp [serializeVal]]
      simp only [parseValue]
      rw [skipWsCons _ (by decide)]
      dsimp only
      rw [if_neg (by decide), if_neg (by decide), if_pos rfl,
        if_pos (prefixBSelfAppend _ _),
        show (4 : ℕ) = ("alse".data).length from rfl, List.drop_left]
  | .null, _, fuel, rest, hf, _ => by
    cases fuel with
    | zero => have := muVPos .null; omega
    | succ f =>
      rw [show serializeVal .null ++ rest = 'n' :: ("ull".data ++ rest) from by
        simp [serializeVal]]
      simp only [parseValue]
      rw [skipWsCons _ (by decide)]
      dsimp only
      rw [if_neg (by decide), if_neg (by decide), if_neg (by decide), if_pos rfl,
        if_pos (prefixBSelfAppend _ _),
        show (3 : ℕ) = ("ull".data).length from rfl, List.drop_left]
  | .arr .nil, _, fuel, rest, hf, _ => by
    cases fuel with
    | zero => have := muVPos (.arr .nil); omega
    | succ f =>
      rw [show serializeVal (.arr .nil) ++ rest = '[' :: (']' :: rest) from by
        simp [serializeVal, serializeArr]]
      simp only [parseValue]
      rw [skipWsCons _ (by decide)]
      dsimp only
      rw [if_neg (by decide), if_neg (by decide), if_neg (by decide), if_neg (by decide),
        if_neg (by decide), if_pos rfl]
      rw [skipWsCons _ (by decide)]
      dsimp only
      rw [if_pos rfl]
  | .arr (.cons v tl), h, fuel, rest, hf, _ => by
    cases fuel with
    | zero => have := muVPos (.arr (.cons v tl)); omega
    | succ f =>
      have hcl : cleanArr (.cons v tl) = true := by simpa [cleanVal] using h
      have hmu : muA (.cons v tl) ≤ f := by simp [muV] at hf; omega
      have hg := serGoodA (.cons v tl) hcl (by intro hx; exact JArray.noConfusion hx)
      rcases List.exists_cons_of_ne_nil hg.1 with ⟨c0, t0, hct⟩
      have hc0 : isValueStartB c0 = true := hg.2.1 c0 (by rw [hct]; rfl)
      rcases valueStartElim hc0 with ⟨hws0, hne0, -⟩
      rw [show serializeVal (.arr (.cons v tl)) ++ rest =
        '[' :: (serializeArr (.cons v tl) ++ (']' :: rest)) from by
          rw [show serializeVal (.arr (.cons v tl)) =
            '[' :: serializeArr (.cons v tl) ++ [']'] from by simp [serializeVal]]
          simp]
      simp only [parseValue]
      rw [skipWsCons _ (by decide)]
      dsimp only
      rw [if_neg (by decide), if_neg (by decide), if_neg (by decide), if_neg (by decide),
        if_neg (by decide), if_pos rfl]
      rw [show serializeArr (.cons v tl) ++ (']' :: rest) = c0 :: (t0 ++ (']' :: rest))
        from by rw [hct]; rfl]
      rw [skipWsCons _ hws0]
      dsimp only
      rw [if_neg hne0]
      rw [show c0 :: (t0 ++ (']' :: rest)) = (c0 :: t0) ++ (']' :: rest) from rfl, ← hct,
        rtA (.cons v tl) hcl (by intro hx; exact JArray.noConfusion hx) f rest hmu]
  | .obj .nil, _, fuel, rest, hf, _ => by
    cases fuel with
    | zero => have := muVPos (.obj .nil); omega
    | succ f =>
      rw [show serializeVal (.obj .nil) ++ rest = '{' :: ('}' :: rest) from by
        simp [serializeVal, serializeObj]]
      simp only [parseValue]
      rw [skipWsCons _ (by decide)]
      dsimp only
      rw [if_neg (by decide), if_neg (by decide), if_neg (by decide), if_neg (by decide),
        if_neg (by decide), if_neg (by decide), if_pos rfl]
      rw [skipWsCons _ (by decide)]
      dsimp only
      rw [if_pos rfl]
  | .obj (.cons k v tl), h, fuel, rest, hf, _ => by
    cases fuel with
    | zero => have := muVPos (.obj (.cons k v tl)); omega
    | succ f =>
      have hcl : cleanObj (.cons k v tl) = true := by simpa [cleanVal] using h
      have hmu : muO (.cons k v tl) ≤ f := by simp [muV] at hf; omega
      have hg := serGoodO (.cons k v tl) hcl (by intro hx; exact JObject.noConfusion hx)
      rcases List.exists_cons_of_ne_nil hg.1 with ⟨c0, t0, hct⟩
      have hc0 : isValueStartB c0 = true := hg.2.1 c0 (by rw [hct]; rfl)
      rcases valueStartElim hc0 with ⟨hws0, -, hne0, -⟩
      rw [show serializeVal (.obj (.cons k v tl)) ++ rest =
        '{' :: (serializeObj (.cons k v tl) ++ ('}' :: rest)) from by
          rw [show serializeVal (.obj (.cons k v tl)) =
            '{' :: serializeObj (.cons k v tl) ++ ['}'] from by simp [serializeVal]]
          simp]
      simp only [parseValue]
      rw [skipWsCons _ (by decide)]
      dsimp only
      rw [if_neg (by decide), if_neg (by decide), if_neg (by decide), if_neg (by decide),
        if_neg (by decide), if_neg (by decide), if_pos rfl]
      rw [show serializeObj (.cons k v tl) ++ ('}' :: rest) = c0 :: (t0 ++ ('}' :: rest))
        from by rw [hct]; rfl]
      rw [skipWsCons _ hws0]
      dsimp only
      rw [if_neg hne0]
      rw [show c0 :: (t0 ++ ('}' :: rest)) = (c0 :: t0) ++ ('}' :: rest) from rfl, ← hct,
        rtO (.cons k v tl) hcl (by intro hx; exact JObject.noConfusion hx) f rest hmu]

theorem rtA : ∀ (xs : JArray), cleanArr xs = true → xs ≠ .nil → ∀ (fuel : ℕ) (rest : JStr),
    muA xs ≤ fuel →
    parseElems fuel (serializeArr xs ++ (']' :: rest)) = some (xs, rest)
  | .cons v .nil, h, _, fuel, rest, hf => by
    cases fuel with
    | zero => have := muAPos (.cons v .nil); omega
    | succ f =>
      have hv : cleanVal v = true := by
        simpa [cleanArr, Bool.and_eq_true, Bool.and_true, and_true] using h
      have hmv : muV v ≤ f := by simp [muA] at hf; omega
      rw [show serializeArr (.cons v .nil) = serializeVal v from by simp [serializeArr]]
      simp only [parseElems]
      rw [rtV v hv f (']' :: rest) hmv (by rw [noDigitHeadCons]; decide)]
      dsimp only
      rw [skipWsCons _ (by decide)]
      dsimp only
      rw [if_neg (by decide), if_pos rfl]
  | .cons v (.cons w tl), h, _, fuel, rest, hf => by
    cases fuel with
    | zero => have := muAPos (.cons v (.cons w tl)); omega
    | succ f =>
      simp only [cleanArr, Bool.and_eq_true] at h
      obtain ⟨hv, ht⟩ := h
      have hmv : muV v ≤ f := by simp [muA] at hf; omega
      have hmt : muA (.cons w tl) ≤ f := by
        simp [muA] at hf ⊢
        omega
      rw [show serializeArr (.cons v (.cons w tl)) =
        serializeVal v ++ ',' :: serializeArr (.cons w tl) from by simp [serializeArr]]
      rw [show (serializeVal v ++ ',' :: serializeArr (.cons w tl)) ++ (']' :: rest) =
        serializeVal v ++ (',' :: (serializeArr (.cons w tl) ++ (']' :: rest))) from by
          simp]
      simp only [parseElems]
      rw [rtV v hv f _ hmv (by rw [noDigitHeadCons]; decide)]
      dsimp only
      rw [skipWsCons _ (by decide)]
      dsimp only
      rw [if_pos rfl]
      rw [rtA (.cons w tl) (by simp only [cleanArr, Bool.and_eq_true]; exact ht)
        (by intro hx; exact JArray.noConfusion hx) f rest hmt]
  | .nil, _, hne, _, _, _ => absurd rfl hne

theorem rtO : ∀ (fs : JObject), cleanObj fs = true → fs ≠ .nil → ∀ (fuel : ℕ) (rest : JStr),
    muO fs ≤ fuel →
    parseFields fuel (serializeObj fs ++ ('}' :: rest)) = some (fs, rest)
  | .cons k v .nil, h, _, fuel, rest, hf => by
    cases fuel with
    | zero => have := muOPos (.cons k v .nil); omega
    | succ f =>
      simp only [cleanObj, Bool.and_eq_true, Bool.and_true, and_true] at h
      obtain ⟨hk, hv⟩ := h
      have hkmem := (cleanStrElim hk).1
      have hmv : muV v ≤ f := by simp [muO] at hf; omega
      rw [show serializeObj (.cons k v .nil) =
        '"' :: escapeString k ++ '"' :: ':' :: serializeVal v from by simp [serializeObj],
        escapeStringId hkmem]
      rw [show ('"' :: k ++ '"' :: ':' :: serializeVal v) ++ ('}' :: rest) =
        '"' :: (k ++ ('"' :: (':' :: (serializeVal v ++ ('}' :: rest))))) from by simp]
      simp only [parseFields]
      rw [skipWsCons _ (by decide)]
      dsimp only
      rw [if_pos rfl]
      rw [parseStringBodyRT k _ (fun c hc => by
        rcases cleanCharElim (hkmem c hc) with ⟨-, -, -, -, h5, h6, -⟩
        exact ⟨h5, h6⟩)]
      dsimp only
      rw [skipWsCons _ (by decide)]
      dsimp only
      rw [if_pos rfl]
      rw [rtV v hv f ('}' :: rest) hmv (by rw [noDigitHeadCons]; decide)]
      dsimp only
      rw [skipWsCons _ (by decide)]
      dsimp only
      rw [if_neg (by decide), if_pos rfl]
  | .cons k v (.cons k2 v2 tl), h, _, fuel, rest, hf => by
    cases fuel with
    | zero => have := muOPos (.cons k v (.cons k2 v2 tl)); omega
    | succ f =>
      simp only [cleanObj, Bool.and_eq_true] at h
      obtain ⟨⟨hk, hv⟩, ht⟩ := h
      have hkmem := (cleanStrElim hk).1
      have hmv : muV v ≤ f := by simp [muO] at hf; omega
      have hmt : muO (.cons k2 v2 tl) ≤ f := by
        simp [muO] at hf ⊢
        omega
      rw [show serializeObj (.cons k v (.cons k2 v2 tl)) =
        ('"' :: escapeString k ++ '"' :: ':' :: serializeVal v) ++
          ',' :: serializeObj (.cons k2 v2 tl) from by simp [serializeObj],
        escapeStringId hkmem]
      rw [show (('"' :: k ++ '"' :: ':' :: serializeVal v) ++
          ',' :: serializeObj (.cons k2 v2 tl)) ++ ('}' :: rest) =
        '"' :: (k ++ ('"' :: (':' :: (serializeVal v ++
          (',' :: (serializeObj (.cons k2 v2 tl) ++ ('}' :: rest))))))) from by simp]
      simp only [parseFields]
      rw [skipWsCons _ (by decide)]
      dsimp only
      rw [if_pos rfl]
      rw [parseStringBodyRT k _ (fun c hc => by
        rcases cleanCharElim (hkmem c hc) with ⟨-, -, -, -, h5, h6, -⟩
        exact ⟨h5, h6⟩)]
      dsimp only
      rw [skipWsCons _ (by decide)]
      dsimp only
      rw [if_pos rfl]
      rw [rtV v hv f _ hmv (by rw [noDigitHeadCons]; decide)]
      dsimp only
      rw [skipWsCons _ (by decide)]
      dsimp only
      rw [if_pos rfl]
      rw [rtO (.cons k2 v2 tl) (by simp only [cleanObj, Bool.and_eq_true]; exact ht)
        (by intro hx; exact JObject.noConfusion hx) f rest hmt]
  | .nil, _, hne, _, _, _ => absurd rfl hne

end

end Stylr

namespace Stylr

theorem parseMonoStep : ∀ fuel : ℕ,
    (∀ s r, parseValue fuel s = some r → parseValue (fuel + 1) s = some r) ∧
    (∀ s r, parseElems fuel s = some r → parseElems (fuel + 1) s = some r) ∧
    (∀ s r, parseFields fuel s = some r → parseFields (fuel + 1) s = some r) := by
  intro fuel
  induction fuel with
  | zero =>
    refine ⟨?_, ?_, ?_⟩ <;> intro s r h
    · simp only [parseValue] at h
      exact Option.noConfusion h
    · simp only [parseElems] at h
      exact Option.noConfusion h
    · simp only [parseFields] at h
      exact Option.noConfusion h
  | succ f ih =>
    obtain ⟨ihV, ihE, ihF⟩ := ih
    refine ⟨?_, ?_, ?_⟩
    · intro s r h
      simp only [parseValue] at h ⊢
      cases hsw : skipWs s with
      | nil =>
        rw [hsw] at h
        exact Option.noConfusion h
      | cons c rest =>
        rw [hsw] at h
        dsimp only at h ⊢
        by_cases h1 : c = '"'
        · rw [if_pos h1] at h ⊢; exact h
        · rw [if_neg h1] at h ⊢
          by_cases h2 : c = 't'
          · rw [if_pos h2] at h ⊢; exact h
          · rw [if_neg h2] at h ⊢
            by_cases h3 : c = 'f'
            · rw [if_pos h3] at h ⊢; exact h
            · rw [if_neg h3] at h ⊢
              by_cases h4 : c = 'n'
              · rw [if_pos h4] at h ⊢; exact h
              · rw [if_neg h4] at h ⊢
                by_cases h5 : c = '-' ∨ c.isDigit = true
                · rw [if_pos h5] at h ⊢; exact h
                · rw [if_neg h5] at h ⊢
                  by_cases h6 : c = '['
                  · rw [if_pos h6] at h ⊢
                    cases hsw2 : skipWs rest with
                    | nil =>
                      rw [hsw2] at h
                      exact Option.noConfusion h
                    | cons d r2 =>
                      rw [hsw2] at h
                      dsimp only at h ⊢
                      by_cases h7 : d = ']'
                      · rw [if_pos h7] at h ⊢; exact h
                      · rw [if_neg h7] at h ⊢
                        cases hpe : parseElems f rest with
                        | none =>
                          rw [hpe] at h
                          exact Option.noConfusion h
                        | some pr =>
                          obtain ⟨xs, r3⟩ := pr
                          rw [hpe] at h
                          rw [ihE rest (xs, r3) hpe]
                          exact h
                  · rw [if_neg h6] at h ⊢
                    by_cases h7 : c = '{'
                    · rw [if_pos h7] at h ⊢
                      cases hsw2 : skipWs rest with
                      | nil =>
                        rw [hsw2] at h
                        exact Option.noConfusion h
                      | cons d r2 =>
                        rw [hsw2] at h
                        dsimp only at h ⊢
                        by_cases h8 : d = '}'
                        · rw [if_pos h8] at h ⊢; exact h
                        · rw [if_neg h8] at h ⊢
                          cases hpf : parseFields f rest with
                          | none =>
                            rw [hpf] at h
                            exact Option.noConfusion h
                          | some pr =>
                            obtain ⟨fs, r3⟩ := pr
                            rw [hpf] at h
                            rw [ihF rest (fs, r3) hpf]
                            exact h
                    · rw [if_neg h7] at h ⊢
                      exact h
    · intro s r h
      rw [parseElems] at h
      rw [parseElems]
      cases hpv : parseValue f s with
      | none =>
        rw [hpv] at h
        exact Option.noConfusion h
      | some pr =>
        obtain ⟨v, r1⟩ := pr
        rw [hpv] at h
        rw [ihV s (v, r1) hpv]
        dsimp only at h ⊢
        cases hsw : skipWs r1 with
        | nil =>
          rw [hsw] at h
          exact Option.noConfusion h
        | cons d r2 =>
          rw [hsw] at h
          dsimp only at h ⊢
          by_cases h1 : d = ','
          · rw [if_pos h1] at h ⊢
            cases hpe : parseElems f r2 with
            | none =>
              rw [hpe] at h
              exact Option.noConfusion h
            | some pr2 =>
              obtain ⟨tl, r3⟩ := pr2
              rw [hpe] at h
              rw [ihE r2 (tl, r3) hpe]
              exact h
          · rw [if_neg h1] at h ⊢
            by_cases h2 : d = ']'
            · rw [if_pos h2] at h ⊢; exact h
            · rw [if_neg h2] at h ⊢; exact h
    · intro s r h
      rw [parseFields] at h
      rw [parseFields]
      cases hsw : skipWs s with
      | nil =>
        rw [hsw] at h
        exact Option.noConfusion h
      | cons c rest =>
        rw [hsw] at h
        dsimp only at h ⊢
        by_cases h1 : c = '"'
        · rw [if_pos h1] at h ⊢
          cases hps : parseStringBody rest with
          | none =>
            rw [hps] at h
            exact Option.noConfusion h
          | some pr =>
            obtain ⟨k, r1⟩ := pr
            rw [hps] at h
            dsimp only at h ⊢
            cases hsw2 : skipWs r1 with
            | nil =>
              rw [hsw2] at h
              exact Option.noConfusion h
            | cons d r2 =>
              rw [hsw2] at h
              dsimp only at h ⊢
              by_cases h2 : d = ':'
              · rw [if_pos h2] at h ⊢
                cases hpv : parseValue f r2 with
                | none =>
                  rw [hpv] at h
                  exact Option.noConfusion h
                | some pr2 =>
                  obtain ⟨v, r3⟩ := pr2
                  rw [hpv] at h
                  rw [ihV r2 (v, r3) hpv]
                  dsimp only at h ⊢
                  cases hsw3 : skipWs r3 with
                  | nil =>
                    rw [hsw3] at h
                    exact Option.noConfusion h
                  | cons e r4 =>
                    rw [hsw3] at h
                    dsimp only at h ⊢
                    by_cases h3 : e = ','
                    · rw [if_pos h3] at h ⊢
                      cases hpf : parseFields f r4 with
                      | none =>
                        rw [hpf] at h
                        exact Option.noConfusion h
                      | some pr3 =>
                        obtain ⟨tl, r5⟩ := pr3
                        rw [hpf] at h
                        rw [ihF r4 (tl, r5) hpf]
                        exact h
                    · rw [if_neg h3] at h ⊢
                      by_cases h4 : e = '}'
                      · rw [if_pos h4] at h ⊢; exact h
                      · rw [if_neg h4] at h ⊢; exact h
              · rw [if_neg h2] at h ⊢
                exact h
        · rw [if_neg h1] at h ⊢
          exact h

theorem parseValueMono : ∀ (d f : ℕ) (s : JStr) (r : JValue × JStr),
    parseValue f s = some r → parseValue (f + d) s = some r := by
  intro d
  induction d with
  | zero => intro f s r h; exact h
  | succ dd ih =>
    intro f s r h
    rw [show f + (dd + 1) = (f + dd) + 1 from rfl]
    exact (parseMonoStep _).1 _ _ (ih f s r h)

theorem parseValSerInv {v : JValue} (hv : cleanVal v = true) {X : JStr}
    (hX : noDigitHead X = true) {f : ℕ} {w : JValue} {r : JStr}
    (h : parseValue f (serializeVal v ++ X) = some (w, r)) : w = v ∧ r = X := by
  have h2 : parseValue (f + muV v) (serializeVal v ++ X) = some (w, r) :=
    parseValueMono (muV v) f _ _ h
  have h3 : parseValue (f + muV v) (serializeVal v ++ X) = some (v, X) :=
    rtV v hv _ X (by omega) hX
  rw [h2] at h3
  injection h3 with h3
  injection h3 with h4 h5
  exact ⟨h4, h5⟩

theorem parseValueBadHead {c : Char} (t : JStr) (f : ℕ)
    (hws : jsWsB c = false) (h1 : c ≠ '"') (h2 : c ≠ 't') (h3 : c ≠ 'f') (h4 : c ≠ 'n')
    (h5 : ¬(c = '-' ∨ c.isDigit = true)) (h6 : c ≠ '[') (h7 : c ≠ '{') :
    parseValue f (c :: t) = none := by
  cases f with
  | zero => rfl
  | succ f =>
    simp only [parseValue]
    rw [skipWsCons _ hws]
    dsimp only
    rw [if_neg h1, if_neg h2, if_neg h3, if_neg h4, if_neg h5, if_neg h6, if_neg h7]

theorem parseElemsBadHead {c : Char} (t : JStr) (f : ℕ)
    (hws : jsWsB c = false) (h1 : c ≠ '"') (h2 : c ≠ 't') (h3 : c ≠ 'f') (h4 : c ≠ 'n')
    (h5 : ¬(c = '-' ∨ c.isDigit = true)) (h6 : c ≠ '[') (h7 : c ≠ '{') :
    parseElems f (c :: t) = none := by
  cases f with
  | zero => rfl
  | succ f =>
    simp only [parseElems]
    rw [parseValueBadHead t f hws h1 h2 h3 h4 h5 h6 h7]

theorem parseFieldsNotQuote {c : Char} (t : JStr) (f : ℕ)
    (hws : jsWsB c = false) (h : c ≠ '"') :
    parseFields f (c :: t) = none := by
  cases f with
  | zero => rfl
  | succ f =>
    simp only [parseFields]
    rw [skipWsCons _ hws]
    dsimp only
    rw [if_neg h]

end Stylr

namespace Stylr

theorem stripJsonFencesAuxNoop :
    ∀ (fuel : ℕ) (s : JStr), (∀ c ∈ s, c ≠ '`') → stripJsonFencesAux fuel s = s := by
  intro fuel
  induction fuel with
  | zero => intro s h; rfl
  | succ f ih =>
    intro s h
    cases s with
    | nil => rfl
    | cons c rest =>
      show (if c = '`' ∧ litAt "``json".data rest then _ else c :: stripJsonFencesAux f rest) = _
      rw [if_neg (fun hx => h c (by simp) hx.1), ih rest (fun d hd => h d (by simp [hd]))]

theorem stripJsonFencesNoop {s : JStr} (h : ∀ c ∈ s, c ≠ '`') : stripJsonFences s = s :=
  stripJsonFencesAuxNoop _ s h

theorem stripBareFencesAuxNoop :
    ∀ (fuel : ℕ) (s : JStr), (∀ c ∈ s, c ≠ '`') → stripBareFencesAux fuel s = s := by
  intro fuel
  induction fuel with
  | zero => intro s h; rfl
  | succ f ih =>
    intro s h
    cases s with
    | nil => rfl
    | cons c rest =>
      show (if c = '`' ∧ isPrefixB "``".data rest = true then _
        else c :: stripBareFencesAux f rest) = _
      rw [if_neg (fun hx => h c (by simp) hx.1), ih rest (fun d hd => h d (by simp [hd]))]

theorem stripBareFencesNoop {s : JStr} (h : ∀ c ∈ s, c ≠ '`') : stripBareFences s = s :=
  stripBareFencesAuxNoop _ s h

theorem noCCOfNeLeft {a : Char} (b : Char) (h : a ≠ ':') : noColonColon a b = true := by
  simp [noColonColon, h]

theorem noCCOfNeRight (a : Char) {b : Char} (h : b ≠ ':') : noColonColon a b = true := by
  simp [noColonColon, h]

theorem noCCElim {a b : Char} (h : noColonColon a b = true) : ¬(a = ':' ∧ b = ':') := by
  simp only [noColonColon, Bool.not_eq_true', Bool.and_eq_false_iff,
    beq_eq_false_iff_ne, ne_eq] at h
  tauto

theorem fixDCCons2 (c d : Char) (rest : JStr) :
    fixDoubleColons (c :: d :: rest) =
      (if c = ':' ∧ d = ':' then ':' :: fixDoubleColons rest
       else c :: fixDoubleColons (d :: rest)) := rfl

theorem fixDCNoop :
    ∀ {s : JStr}, chainPairsB noColonColon s = true → fixDoubleColons s = s := by
  intro s
  induction s with
  | nil => intro h; rfl
  | cons c t ih =>
    intro h
    cases t with
    | nil => rfl
    | cons d t' =>
      rw [fixDCCons2]
      rw [chainConsIff] at h
      rw [if_neg (noCCElim (h.2 d rfl)), ih h.1]

theorem chainNoCCInsert {x y : JStr} {c : Char} (hc : c ≠ ':')
    (h : chainPairsB noColonColon (x ++ y) = true) :
    chainPairsB noColonColon (x ++ c :: y) = true := by
  rw [chainAppendIff] at h ⊢
  obtain ⟨h1, h2, h3⟩ := h
  refine ⟨h1, ?_, ?_⟩
  · rw [chainConsIff]
    exact ⟨h2, fun b hb => noCCOfNeLeft b hc⟩
  · intro a b ha hb
    injection hb with hb
    rw [← hb]
    exact noCCOfNeRight a hc

theorem fixDCTransparent :
    ∀ (s1 : JStr), chainPairsB noColonColon s1 = true →
      (∀ a, s1.getLast? = some a → a ≠ ':') →
      ∀ rest, fixDoubleColons (s1 ++ rest) = s1 ++ fixDoubleColons rest := by
  intro s1
  induction s1 with
  | nil => intro h hg rest; rfl
  | cons c t ih =>
    intro h hg rest
    cases t with
    | nil =>
      cases rest with
      | nil => rfl
      | cons b r' =>
        show fixDoubleColons (c :: b :: r') = c :: fixDoubleColons (b :: r')
        rw [fixDCCons2, if_neg (fun hx => hg c (by simp) hx.1)]
    | cons d t' =>
      show fixDoubleColons (c :: d :: (t' ++ rest)) = (c :: d :: t') ++ fixDoubleColons rest
      rw [chainConsIff] at h
      rw [fixDCCons2, if_neg (noCCElim (h.2 d rfl))]
      have hg' : ∀ a, (d :: t').getLast? = some a → a ≠ ':' := by
        intro a ha
        exact hg a (by rw [getLastCons c (by simp)]; exact ha)
      rw [show (d :: (t' ++ rest)) = ((d :: t') ++ rest) from rfl, ih h.1 hg' rest]
      rfl

theorem rtcAuxNil : ∀ fuel, removeTrailingCommasAux fuel [] = [] := by
  intro f
  cases f <;> rfl

theorem rtcConsEq (fuel : ℕ) (c : Char) (rest : JStr) :
    removeTrailingCommasAux (fuel + 1) (c :: rest) =
      (if c = ',' then
        match rest.dropWhile jsWsB with
        | d :: r2 =>
          if d = '}' ∨ d = ']' then
            rest.takeWhile jsWsB ++ d :: removeTrailingCommasAux fuel r2
          else ',' :: removeTrailingCommasAux fuel rest
        | [] => ',' :: removeTrailingCommasAux fuel rest
      else c :: removeTrailingCommasAux fuel rest) := rfl

theorem rtcAuxNoop :
    ∀ (fuel : ℕ) (s : JStr), (∀ c ∈ s, jsWsB c = false) →
      chainPairsB okPairB s = true → removeTrailingCommasAux fuel s = s := by
  intro fuel
  induction fuel with
  | zero => intro s _ _; rfl
  | succ f ih =>
    intro s hmem hch
    cases s with
    | nil => rfl
    | cons c rest =>
      rw [rtcConsEq]
      rw [chainConsIff] at hch
      by_cases hc : c = ','
      · rw [if_pos hc]
        cases rest with
        | nil =>
          show (',' : Char) :: removeTrailingCommasAux f [] = c :: []
          rw [rtcAuxNil, hc]
        | cons d r2 =>
          have hd : jsWsB d = false := hmem d (by simp)
          rw [show List.dropWhile jsWsB (d :: r2) = d :: r2 from by
            rw [List.dropWhile_cons, hd]; rfl]
          dsimp only
          rcases okPairElim (hch.2 d rfl) with ⟨-, -, -, -, h5, h6⟩
          rw [if_neg (by
            rintro (hx | hx)
            · exact h5 ⟨hc, hx⟩
            · exact h6 ⟨hc, hx⟩)]
          rw [ih (d :: r2) (fun e he => hmem e (by simp [he])) hch.1, hc]
      · rw [if_neg hc, ih rest (fun e he => hmem e (by simp [he])) hch.1]

theorem rtcAuxTransparent :
    ∀ (s1 : JStr), (∀ c ∈ s1, jsWsB c = false) → chainPairsB okPairB s1 = true →
      (∀ a, s1.getLast? = some a → a ≠ ',') →
      ∀ (fuel : ℕ) (rest : JStr),
        removeTrailingCommasAux (s1.length + fuel) (s1 ++ rest) =
          s1 ++ removeTrailingCommasAux fuel rest := by
  intro s1
  induction s1 with
  | nil =>
    intro _ _ _ fuel rest
    rw [List.length_nil, Nat.zero_add]
    rfl
  | cons c t ih =>
    intro hmem hch hg fuel rest
    rw [chainConsIff] at hch
    have hlen : (c :: t).length + fuel = (t.length + fuel) + 1 := by
      simp [List.length_cons]
      omega
    rw [hlen]
    show removeTrailingCommasAux ((t.length + fuel) + 1) (c :: (t ++ rest)) = _
    rw [rtcConsEq]
    by_cases hc : c = ','
    · cases t with
      | nil => exact absurd hc (hg c rfl)
      | cons d t' =>
        rw [if_pos hc]
        have hd : jsWsB d = false := hmem d (by simp)
        rw [show ((d :: t') ++ rest : JStr) = d :: (t' ++ rest) from rfl]
        rw [show List.dropWhile jsWsB (d :: (t' ++ rest)) = d :: (t' ++ rest) from by
          rw [List.dropWhile_cons, hd]; rfl]
        dsimp only
        rcases okPairElim (hch.2 d rfl) with ⟨-, -, -, -, h5, h6⟩
        rw [if_neg (by
          rintro (hx | hx)
          · exact h5 ⟨hc, hx⟩
          · exact h6 ⟨hc, hx⟩)]
        have hg' : ∀ a, (d :: t').getLast? = some a → a ≠ ',' := by
          intro a ha
          exact hg a (by rw [getLastCons c (by simp)]; exact ha)
        rw [show (d :: (t' ++ rest)) = ((d :: t') ++ rest) from rfl,
          ih (fun e he => hmem e (by simp [he])) hch.1 hg' fuel rest, hc]
        rfl
    · rw [if_neg hc]
      have hg' : ∀ a, t.getLast? = some a → a ≠ ',' := by
        cases t with
        | nil => intro a ha; simp at ha
        | cons d t' =>
          intro a ha
          exact hg a (by rw [getLastCons c (by simp)]; exact ha)
      rw [ih (fun e he => hmem e (by simp [he])) hch.1 hg' fuel rest]
      rfl

theorem rtcNoop {s : JStr} (hmem : ∀ c ∈ s, jsWsB c = false)
    (hch : chainPairsB okPairB s = true) : removeTrailingCommas s = s :=
  rtcAuxNoop _ s hmem hch

theorem rlcAuxNil : ∀ fuel, removeLineCommentsAux fuel [] = [] := by
  intro f
  cases f <;> rfl

theorem rlcCons2Eq (fuel : ℕ) (c d : Char) (rest : JStr) :
    removeLineCommentsAux (fuel + 1) (c :: d :: rest) =
      (if c = '/' ∧ d = '/' then
        removeLineCommentsAux fuel (rest.dropWhile (fun c => ¬ isNL c))
      else c :: removeLineCommentsAux fuel (d :: rest)) := rfl

theorem rlcAuxNoop :
    ∀ (fuel : ℕ) (s : JStr), chainPairsB okPairB s = true →
      removeLineCommentsAux fuel s = s := by
  intro fuel
  induction fuel with
  | zero => intro s _; rfl
  | succ f ih =>
    intro s hch
    cases s with
    | nil => rfl
    | cons c rest =>
      cases rest with
      | nil => rfl
      | cons d r2 =>
        rw [chainConsIff] at hch
        rcases okPairElim (hch.2 d rfl) with ⟨-, -, h3, -⟩
        rw [rlcCons2Eq, if_neg h3, ih (d :: r2) hch.1]

theorem rbcCons2Eq (fuel : ℕ) (c d : Char) (rest : JStr) :
    removeBlockCommentsAux (fuel + 1) (c :: d :: rest) =
      (if c = '/' ∧ d = '*' then
        match afterBlockEnd rest with
        | some r3 => removeBlockCommentsAux fuel r3
        | none => '/' :: removeBlockCommentsAux fuel (d :: rest)
      else c :: removeBlockCommentsAux fuel (d :: rest)) := rfl

theorem rbcAuxNoop :
    ∀ (fuel : ℕ) (s : JStr), chainPairsB okPairB s = true →
      removeBlockCommentsAux fuel s = s := by
  intro fuel
  induction fuel with
  | zero => intro s _; rfl
  | succ f ih =>
    intro s hch
    cases s with
    | nil => rfl
    | cons c rest =>
      cases rest with
      | nil => rfl
      | cons d r2 =>
        rw [chainConsIff] at hch
        rcases okPairElim (hch.2 d rfl) with ⟨-, -, -, h4, -⟩
        rw [rbcCons2Eq, if_neg h4, ih (d :: r2) hch.1]

theorem ccAuxNil : ∀ fuel, collapseCommasAux fuel [] = [] := by
  intro f
  cases f <;> rfl

theorem ccConsEq (fuel : ℕ) (c : Char) (rest : JStr) :
    collapseCommasAux (fuel + 1) (c :: rest) =
      (if c = ',' then ',' :: collapseCommasAux fuel (rest.dropWhile (fun d => d = ','))
       else c :: collapseCommasAux fuel rest) := rfl

theorem ccAuxNoop :
    ∀ (fuel : ℕ) (s : JStr), chainPairsB okPairB s = true →
      collapseCommasAux fuel s = s := by
  intro fuel
  induction fuel with
  | zero => intro s _; rfl
  | succ f ih =>
    intro s hch
    cases s with
    | nil => rfl
    | cons c rest =>
      rw [ccConsEq]
      rw [chainConsIff] at hch
      by_cases hc : c = ','
      · rw [if_pos hc]
        cases rest with
        | nil =>
          show (',' : Char) :: collapseCommasAux f [] = c :: []
          rw [ccAuxNil, hc]
        | cons d r2 =>
          rcases okPairElim (hch.2 d rfl) with ⟨-, h2, -⟩
          have hd : d ≠ ',' := fun hx => h2 ⟨hc, hx⟩
          rw [show List.dropWhile (fun d => decide (d = ',')) (d :: r2) = d :: r2 from by
            rw [List.dropWhile_cons]
            simp [hd]]
          rw [ih (d :: r2) hch.1, hc]
      · rw [if_neg hc, ih rest hch.1]

theorem rcbBracketAuxNil : ∀ fuel, removeCommasBeforeBracketAux fuel [] = [] := by
  intro f
  cases f <;> rfl

theorem rcbBracketConsEq (fuel : ℕ) (c : Char) (rest : JStr) :
    removeCommasBeforeBracketAux (fuel + 1) (c :: rest) =
      (if c = ',' then
        match rest.dropWhile jsWsB with
        | d :: r2 =>
          if d = ']' then
            rest.takeWhile jsWsB ++ d :: removeCommasBeforeBracketAux fuel r2
          else ',' :: removeCommasBeforeBracketAux fuel rest
        | [] => ',' :: removeCommasBeforeBracketAux fuel rest
      else c :: removeCommasBeforeBracketAux fuel rest) := rfl

theorem rcbBracketAuxNoop :
    ∀ (fuel : ℕ) (s : JStr), (∀ c ∈ s, jsWsB c = false) →
      chainPairsB okPairB s = true → removeCommasBeforeBracketAux fuel s = s := by
  intro fuel
  induction fuel with
  | zero => intro s _ _; rfl
  | succ f ih =>
    intro s hmem hch
    cases s with
    | nil => rfl
    | cons c rest =>
      rw [rcbBracketConsEq]
      rw [chainConsIff] at hch
      by_cases hc : c = ','
      · rw [if_pos hc]
        cases rest with
        | nil =>
          show (',' : Char) :: removeCommasBeforeBracketAux f [] = c :: []
          rw [rcbBracketAuxNil, hc]
        | cons d r2 =>
          have hd : jsWsB d = false := hmem d (by simp)
          rw [show List.dropWhile jsWsB (d :: r2) = d :: r2 from by
            rw [List.dropWhile_cons, hd]; rfl]
          dsimp only
          rcases okPairElim (hch.2 d rfl) with ⟨-, -, -, -, -, h6⟩
          rw [if_neg (fun hx => h6 ⟨hc, hx⟩)]
          rw [ih (d :: r2) (fun e he => hmem e (by simp [he])) hch.1, hc]
      · rw [if_neg hc, ih rest (fun e he => hmem e (by simp [he])) hch.1]

theorem rcbBraceAuxNil : ∀ fuel, removeCommasBeforeBraceAux fuel [] = [] := by
  intro f
  cases f <;> rfl

theorem rcbBraceConsEq (fuel : ℕ) (c : Char) (rest : JStr) :
    removeCommasBeforeBraceAux (fuel + 1) (c :: rest) =
      (if c = ',' then
        match rest.dropWhile jsWsB with
        | d :: r2 =>
          if d = '}' then
            rest.takeWhile jsWsB ++ d :: removeCommasBeforeBraceAux fuel r2
          else ',' :: removeCommasBeforeBraceAux fuel rest
        | [] => ',' :: removeCommasBeforeBraceAux fuel rest
      else c :: removeCommasBeforeBraceAux fuel rest) := rfl

theorem rcbBraceAuxNoop :
    ∀ (fuel : ℕ) (s : JStr), (∀ c ∈ s, jsWsB c = false) →
      chainPairsB okPairB s = true → removeCommasBeforeBraceAux fuel s = s := by
  intro fuel
  induction fuel with
  | zero => intro s _ _; rfl
  | succ f ih =>
    intro s hmem hch
    cases s with
    | nil => rfl
    | cons c rest =>
      rw [rcbBraceConsEq]
      rw [chainConsIff] at hch
      by_cases hc : c = ','
      · rw [if_pos hc]
        cases rest with
        | nil =>
          show (',' : Char) :: removeCommasBeforeBraceAux f [] = c :: []
          rw [rcbBraceAuxNil, hc]
        | cons d r2 =>
          have hd : jsWsB d = false := hmem d (by simp)
          rw [show List.dropWhile jsWsB (d :: r2) = d :: r2 from by
            rw [List.dropWhile_cons, hd]; rfl]
          dsimp only
          rcases okPairElim (hch.2 d rfl) with ⟨-, -, -, -, h5, -⟩
          rw [if_neg (fun hx => h5 ⟨hc, hx⟩)]
          rw [ih (d :: r2) (fun e he => hmem e (by simp [he])) hch.1, hc]
      · rw [if_neg hc, ih rest (fun e he => hmem e (by simp [he])) hch.1]

theorem repairNoop {w : JStr} (hmem : ∀ c ∈ w, jsWsB c = false)
    (hch : chainPairsB okPairB w = true) : repairJSON w = w := by
  unfold repairJSON
  dsimp only
  rw [fixDCNoop (chainWeaken okPairToNoCC hch), rtcNoop hmem hch,
    show removeLineComments w = w from rlcAuxNoop _ w hch,
    show removeBlockComments w = w from rbcAuxNoop _ w hch,
    show collapseCommas w = w from ccAuxNoop _ w hch,
    show removeCommasBeforeBracket w = w from rcbBracketAuxNoop _ w hmem hch,
    show removeCommasBeforeBrace w = w from rcbBraceAuxNoop _ w hmem hch]

end Stylr

namespace Stylr

mutual

theorem muVLe : ∀ v : JValue, muV v ≤ (serializeVal v).length
  | .str s => by
    rw [show serializeVal (.str s) = '"' :: escapeString s ++ ['"'] from by
      simp [serializeVal]]
    simp only [muV, List.length_append, List.length_cons, List.length_nil]
    omega
  | .num n => by
    rw [show serializeVal (.num n) = intToStr n from by simp [serializeVal]]
    have h := List.length_pos.mpr (intToStrNe n)
    simp only [muV]
    omega
  | .bool true => by
    rw [show serializeVal (.bool true) = "true".data from by simp [serializeVal]]
    simp [muV]
  | .bool false => by
    rw [show serializeVal (.bool false) = "false".data from by simp [serializeVal]]
    simp [muV]
  | .null => by
    rw [show serializeVal .null = "null".data from by simp [serializeVal]]
    simp [muV]
  | .arr xs => by
    have h := muALe xs
    rw [show serializeVal (.arr xs) = '[' :: serializeArr xs ++ [']'] from by
      simp [serializeVal]]
    simp only [muV, List.length_append, List.length_cons, List.length_nil]
    omega
  | .obj fs => by
    have h := muOLe fs
    rw [show serializeVal (.obj fs) = '{' :: serializeObj fs ++ ['}'] from by
      simp [serializeVal]]
    simp only [muV, List.length_append, List.length_cons, List.length_nil]
    omega

theorem muALe : ∀ xs : JArray, muA xs ≤ (serializeArr xs).length + 1
  | .nil => by
    rw [show serializeArr .nil = [] from by simp [serializeArr]]
    simp [muA]
  | .cons v .nil => by
    have h := muVLe v
    rw [show serializeArr (.cons v .nil) = serializeVal v from by simp [serializeArr]]
    simp only [muA]
    have h3 := List.length_pos.mpr (serVNe v)
    omega
  | .cons v (.cons w tl) => by
    have h1 := muVLe v
    have h2 := muALe (.cons w tl)
    rw [show serializeArr (.cons v (.cons w tl)) =
      serializeVal v ++ ',' :: serializeArr (.cons w tl) from by simp [serializeArr]]
    simp only [muA, List.length_append, List.length_cons]
    simp only [muA] at h2
    omega

theorem muOLe : ∀ fs : JObject, muO fs ≤ (serializeObj fs).length + 1
  | .nil => by
    rw [show serializeObj .nil = [] from by simp [serializeObj]]
    simp [muO]
  | .cons k v .nil => by
    have h := muVLe v
    rw [show serializeObj (.cons k v .nil) =
      '"' :: escapeString k ++ '"' :: ':' :: serializeVal v from by simp [serializeObj]]
    simp only [muO, List.length_append, List.length_cons]
    omega
  | .cons k v (.cons k2 v2 tl) => by
    have h1 := muVLe v
    have h2 := muOLe (.cons k2 v2 tl)
    rw [show serializeObj (.cons k v (.cons k2 v2 tl)) =
      ('"' :: escapeString k ++ '"' :: ':' :: serializeVal v) ++
        ',' :: serializeObj (.cons k2 v2 tl) from by simp [serializeObj]]
    simp only [muO, List.length_append, List.length_cons]
    simp only [muO] at h2
    omega

end

theorem tcorrVHead : ∀ {v : JValue} {s : JStr}, TCorrVal v s →
    ∃ t, s = '[' :: t ∨ s = '{' :: t := by
  intro v s h
  cases h with
  | arrHere xs => exact ⟨_, Or.inl rfl⟩
  | objHere fs => exact ⟨_, Or.inr rfl⟩
  | arrIn xs s' _ => exact ⟨_, Or.inl rfl⟩
  | objIn fs s' _ => exact ⟨_, Or.inr rfl⟩

theorem tcorrOHead : ∀ {fs : JObject} {s : JStr}, TCorrObj fs s → ∃ t, s = '"' :: t := by
  intro fs s h
  cases h with
  | single k v s' _ => exact ⟨_, rfl⟩
  | headMore k v tl s' _ _ => exact ⟨_, rfl⟩
  | tailMore k v tl s' _ _ => exact ⟨_, rfl⟩

theorem tcorrAHead : ∀ {xs : JArray} {s : JStr}, TCorrArr xs s → cleanArr xs = true →
    ∃ c t, s = c :: t ∧ isValueStartB c = true := by
  intro xs s h hcl
  cases h with
  | single v s' hd =>
    rcases tcorrVHead hd with ⟨t, ht | ht⟩
    · exact ⟨'[', t, ht, by decide⟩
    · exact ⟨'{', t, ht, by decide⟩
  | headMore v tl s' htl hd =>
    rcases tcorrVHead hd with ⟨t, ht | ht⟩
    · exact ⟨'[', t ++ ',' :: serializeArr tl, by rw [ht]; rfl, by decide⟩
    · exact ⟨'{', t ++ ',' :: serializeArr tl, by rw [ht]; rfl, by decide⟩
  | tailMore v tl s' htl hd =>
    have hv : cleanVal v = true := by
      cases htl2 : tl
      · exact absurd htl2 htl
      · rw [htl2] at hcl
        simp only [cleanArr, Bool.and_eq_true] at hcl
        exact hcl.1
    have hg := serGoodV v hv
    rcases List.exists_cons_of_ne_nil hg.1 with ⟨c, t, hct⟩
    refine ⟨c, t ++ ',' :: s', by rw [hct]; rfl, hg.2.1 c (by rw [hct]; rfl)⟩

theorem ccorrVHead : ∀ {v : JValue} {s : JStr}, CCorrVal v s →
    ∃ t, s = '[' :: t ∨ s = '{' :: t := by
  intro v s h
  cases h with
  | arrIn xs s' _ => exact ⟨_, Or.inl rfl⟩
  | objIn fs s' _ => exact ⟨_, Or.inr rfl⟩

theorem ccorrOHead : ∀ {fs : JObject} {s : JStr}, CCorrObj fs s → ∃ t, s = '"' :: t := by
  intro fs s h
  cases h with
  | colonSingle k v => exact ⟨_, rfl⟩
  | colonMore k v tl _ => exact ⟨_, rfl⟩
  | single k v s' _ => exact ⟨_, rfl⟩
  | headMore k v tl s' _ _ => exact ⟨_, rfl⟩
  | tailMore k v tl s' _ _ => exact ⟨_, rfl⟩

theorem ccorrAHead : ∀ {xs : JArray} {s : JStr}, CCorrArr xs s → cleanArr xs = true →
    ∃ c t, s = c :: t ∧ isValueStartB c = true := by
  intro xs s h hcl
  cases h with
  | single v s' hd =>
    rcases ccorrVHead hd with ⟨t, ht | ht⟩
    · exact ⟨'[', t, ht, by decide⟩
    · exact ⟨'{', t, ht, by decide⟩
  | headMore v tl s' htl hd =>
    rcases ccorrVHead hd with ⟨t, ht | ht⟩
    · exact ⟨'[', t ++ ',' :: serializeArr tl, by rw [ht]; rfl, by decide⟩
    · exact ⟨'{', t ++ ',' :: serializeArr tl, by rw [ht]; rfl, by decide⟩
  | tailMore v tl s' htl hd =>
    have hv : cleanVal v = true := by
      cases htl2 : tl
      · exact absurd htl2 htl
      · rw [htl2] at hcl
        simp only [cleanArr, Bool.and_eq_true] at hcl
        exact hcl.1
    have hg := serGoodV v hv
    rcases List.exists_cons_of_ne_nil hg.1 with ⟨c, t, hct⟩
    refine ⟨c, t ++ ',' :: s', by rw [hct]; rfl, hg.2.1 c (by rw [hct]; rfl)⟩

end Stylr

namespace Stylr

mutual

theorem tcorrVDecomp : ∀ {v : JValue} {s : JStr}, TCorrVal v s →
    ∃ x cl y, s = x ++ ',' :: cl :: y ∧ serializeVal v = x ++ cl :: y ∧
      (cl = '}' ∨ cl = ']')
  | _, _, .arrHere xs =>
    ⟨'[' :: serializeArr xs, ']', [], by simp, by simp [serializeVal], Or.inr rfl⟩
  | _, _, .objHere fs =>
    ⟨'{' :: serializeObj fs, '}', [], by simp, by simp [serializeVal], Or.inl rfl⟩
  | _, _, .arrIn xs s' hd => by
    rcases tcorrADecomp hd with ⟨x, cl, y, h1, h2, h3⟩
    refine ⟨'[' :: x, cl, y ++ [']'], ?_, ?_, h3⟩
    · rw [show ('[' :: s' ++ [']'] : JStr) = '[' :: (s' ++ [']']) from rfl, h1]
      simp
    · rw [show serializeVal (.arr xs) = '[' :: serializeArr xs ++ [']'] from by
        simp [serializeVal], show ('[' :: serializeArr xs ++ [']'] : JStr) =
          '[' :: (serializeArr xs ++ [']']) from rfl, h2]
      simp
  | _, _, .objIn fs s' hd => by
    rcases tcorrODecomp hd with ⟨x, cl, y, h1, h2, h3⟩
    refine ⟨'{' :: x, cl, y ++ ['}'], ?_, ?_, h3⟩
    · rw [show ('{' :: s' ++ ['}'] : JStr) = '{' :: (s' ++ ['}']) from rfl, h1]
      simp
    · rw [show serializeVal (.obj fs) = '{' :: serializeObj fs ++ ['}'] from by
        simp [serializeVal], show ('{' :: serializeObj fs ++ ['}'] : JStr) =
          '{' :: (serializeObj fs ++ ['}']) from rfl, h2]
      simp

theorem tcorrADecomp : ∀ {xs : JArray} {s : JStr}, TCorrArr xs s →
    ∃ x cl y, s = x ++ ',' :: cl :: y ∧ serializeArr xs = x ++ cl :: y ∧
      (cl = '}' ∨ cl = ']')
  | _, _, .single v s' hd => by
    rcases tcorrVDecomp hd with ⟨x, cl, y, h1, h2, h3⟩
    exact ⟨x, cl, y, h1, by
      rw [show serializeArr (.cons v .nil) = serializeVal v from by simp [serializeArr], h2],
      h3⟩
  | _, _, .headMore v tl s' htl hd => by
    rcases tcorrVDecomp hd with ⟨x, cl, y, h1, h2, h3⟩
    refine ⟨x, cl, y ++ ',' :: serializeArr tl, ?_, ?_, h3⟩
    · rw [h1]
      simp
    · cases tl with
      | nil => exact absurd rfl htl
      | cons w tl' =>
        rw [show serializeArr (.cons v (.cons w tl')) =
          serializeVal v ++ ',' :: serializeArr (.cons w tl') from by simp [serializeArr],
          h2]
        simp
  | _, _, .tailMore v tl s' htl hd => by
    rcases tcorrADecomp hd with ⟨x, cl, y, h1, h2, h3⟩
    refine ⟨serializeVal v ++ ',' :: x, cl, y, ?_, ?_, h3⟩
    · rw [h1]
      simp
    · cases tl with
      | nil => exact absurd rfl htl
      | cons w tl' =>
        rw [show serializeArr (.cons v (.cons w tl')) =
          serializeVal v ++ ',' :: serializeArr (.cons w tl') from by simp [serializeArr],
          h2]
        simp

theorem tcorrODecomp : ∀ {fs : JObject} {s : JStr}, TCorrObj fs s →
    ∃ x cl y, s = x ++ ',' :: cl :: y ∧ serializeObj fs = x ++ cl :: y ∧
      (cl = '}' ∨ cl = ']')
  | _, _, .single k v s' hd => by
    rcases tcorrVDecomp hd with ⟨x, cl, y, h1, h2, h3⟩
    refine ⟨'"' :: escapeString k ++ '"' :: ':' :: x, cl, y, ?_, ?_, h3⟩
    · rw [show ('"' :: escapeString k ++ '"' :: ':' :: s' : JStr) =
        ('"' :: escapeString k) ++ ('"' :: ':' :: s') from rfl, h1]
      simp
    · rw [show serializeObj (.cons k v .nil) =
        '"' :: escapeString k ++ '"' :: ':' :: serializeVal v from by simp [serializeObj],
        show ('"' :: escapeString k ++ '"' :: ':' :: serializeVal v : JStr) =
          ('"' :: escapeString k) ++ ('"' :: ':' :: serializeVal v) from rfl, h2]
      simp
  | _, _, .headMore k v tl s' htl hd => by
    rcases tcorrVDecomp hd with ⟨x, cl, y, h1, h2, h3⟩
    refine ⟨'"' :: escapeString k ++ '"' :: ':' :: x, cl,
      y ++ ',' :: serializeObj tl, ?_, ?_, h3⟩
    · rw [show (('"' :: escapeString k ++ '"' :: ':' :: s') ++
        ',' :: serializeObj tl : JStr) =
          ('"' :: escapeString k) ++ ('"' :: ':' :: (s' ++ ',' :: serializeObj tl))
        from by simp, h1]
      simp
    · cases tl with
      | nil => exact absurd rfl htl
      | cons k2 v2 tl' =>
        rw [show serializeObj (.cons k v (.cons k2 v2 tl')) =
          ('"' :: escapeString k ++ '"' :: ':' :: serializeVal v) ++
            ',' :: serializeObj (.cons k2 v2 tl') from by simp [serializeObj], h2]
        simp
  | _, _, .tailMore k v tl s' htl hd => by
    rcases tcorrODecomp hd with ⟨x, cl, y, h1, h2, h3⟩
    refine ⟨('"' :: escapeString k ++ '"' :: ':' :: serializeVal v) ++ ',' :: x, cl,
      y, ?_, ?_, h3⟩
    · rw [h1]
      simp
    · cases tl with
      | nil => exact absurd rfl htl
      | cons k2 v2 tl' =>
        rw [show serializeObj (.cons k v (.cons k2 v2 tl')) =
          ('"' :: escapeString k ++ '"' :: ':' :: serializeVal v) ++
            ',' :: serializeObj (.cons k2 v2 tl') from by simp [serializeObj], h2]
        simp

end

mutual

theorem ccorrVDecomp : ∀ {v : JValue} {s : JStr}, CCorrVal v s →
    ∃ x y, s = x ++ ':' :: ':' :: y ∧ serializeVal v = x ++ ':' :: y
  | _, _, .arrIn xs s' hd => by
    rcases ccorrADecomp hd with ⟨x, y, h1, h2⟩
    refine ⟨'[' :: x, y ++ [']'], ?_, ?_⟩
    · rw [show ('[' :: s' ++ [']'] : JStr) = '[' :: (s' ++ [']']) from rfl, h1]
      simp
    · rw [show serializeVal (.arr xs) = '[' :: serializeArr xs ++ [']'] from by
        simp [serializeVal], show ('[' :: serializeArr xs ++ [']'] : JStr) =
          '[' :: (serializeArr xs ++ [']']) from rfl, h2]
      simp
  | _, _, .objIn fs s' hd => by
    rcases ccorrODecomp hd with ⟨x, y, h1, h2⟩
    refine ⟨'{' :: x, y ++ ['}'], ?_, ?_⟩
    · rw [show ('{' :: s' ++ ['}'] : JStr) = '{' :: (s' ++ ['}']) from rfl, h1]
      simp
    · rw [show serializeVal (.obj fs) = '{' :: serializeObj fs ++ ['}'] from by
        simp [serializeVal], show ('{' :: serializeObj fs ++ ['}'] : JStr) =
          '{' :: (serializeObj fs ++ ['}']) from rfl, h2]
      simp

theorem ccorrADecomp : ∀ {xs : JArray} {s : JStr}, CCorrArr xs s →
    ∃ x y, s = x ++ ':' :: ':' :: y ∧ serializeArr xs = x ++ ':' :: y
  | _, _, .single v s' hd => by
    rcases ccorrVDecomp hd with ⟨x, y, h1, h2⟩
    exact ⟨x, y, h1, by
      rw [show serializeArr (.cons v .nil) = serializeVal v from by simp [serializeArr],
        h2]⟩
  | _, _, .headMore v tl s' htl hd => by
    rcases ccorrVDecomp hd with ⟨x, y, h1, h2⟩
    refine ⟨x, y ++ ',' :: serializeArr tl, ?_, ?_⟩
    · rw [h1]
      simp
    · cases tl with
      | nil => exact absurd rfl htl
      | cons w tl' =>
        rw [show serializeArr (.cons v (.cons w tl')) =
          serializeVal v ++ ',' :: serializeArr (.cons w tl') from by simp [serializeArr],
          h2]
        simp
  | _, _, .tailMore v tl s' htl hd => by
    rcases ccorrADecomp hd with ⟨x, y, h1, h2⟩
    refine ⟨serializeVal v ++ ',' :: x, y, ?_, ?_⟩
    · rw [h1]
      simp
    · cases tl with
      | nil => exact absurd rfl htl
      | cons w tl' =>
        rw [show serializeArr (.cons v (.cons w tl')) =
          serializeVal v ++ ',' :: serializeArr (.cons w tl') from by simp [serializeArr],
          h2]
        simp

theorem ccorrODecomp : ∀ {fs : JObject} {s : JStr}, CCorrObj fs s →
    ∃ x y, s = x ++ ':' :: ':' :: y ∧ serializeObj fs = x ++ ':' :: y
  | _, _, .colonSingle k v => by
    refine ⟨'"' :: escapeString k ++ ['"'], serializeVal v, ?_, ?_⟩
    · simp
    · rw [show serializeObj (.cons k v .nil) =
        '"' :: escapeString k ++ '"' :: ':' :: serializeVal v from by simp [serializeObj]]
      simp
  | _, _, .colonMore k v tl htl => by
    refine ⟨'"' :: escapeString k ++ ['"'],
      serializeVal v ++ ',' :: serializeObj tl, ?_, ?_⟩
    · simp
    · cases tl with
      | nil => exact absurd rfl htl
      | cons k2 v2 tl' =>
        rw [show serializeObj (.cons k v (.cons k2 v2 tl')) =
          ('"' :: escapeString k ++ '"' :: ':' :: serializeVal v) ++
            ',' :: serializeObj (.cons k2 v2 tl') from by simp [serializeObj]]
        simp
  | _, _, .single k v s' hd => by
    rcases ccorrVDecomp hd with ⟨x, y, h1, h2⟩
    refine ⟨'"' :: escapeString k ++ '"' :: ':' :: x, y, ?_, ?_⟩
    · rw [show ('"' :: escapeString k ++ '"' :: ':' :: s' : JStr) =
        ('"' :: escapeString k) ++ ('"' :: ':' :: s') from rfl, h1]
      simp
    · rw [show serializeObj (.cons k v .nil) =
        '"' :: escapeString k ++ '"' :: ':' :: serializeVal v from by simp [serializeObj],
        show ('"' :: escapeString k ++ '"' :: ':' :: serializeVal v : JStr) =
          ('"' :: escapeString k) ++ ('"' :: ':' :: serializeVal v) from rfl, h2]
      simp
  | _, _, .headMore k v tl s' htl hd => by
    rcases ccorrVDecomp hd with ⟨x, y, h1, h2⟩
    refine ⟨'"' :: escapeString k ++ '"' :: ':' :: x,
      y ++ ',' :: serializeObj tl, ?_, ?_⟩
    · rw [show (('"' :: escapeString k ++ '"' :: ':' :: s') ++
        ',' :: serializeObj tl : JStr) =
          ('"' :: escapeString k) ++ ('"' :: ':' :: (s' ++ ',' :: serializeObj tl))
        from by simp, h1]
      simp
    · cases tl with
      | nil => exact absurd rfl htl
      | cons k2 v2 tl' =>
        rw [show serializeObj (.cons k v (.cons k2 v2 tl')) =
          ('"' :: escapeString k ++ '"' :: ':' :: serializeVal v) ++
            ',' :: serializeObj (.cons k2 v2 tl') from by simp [serializeObj], h2]
        simp
  | _, _, .tailMore k v tl s' htl hd => by
    rcases ccorrODecomp hd with ⟨x, y, h1, h2⟩
    refine ⟨('"' :: escapeString k ++ '"' :: ':' :: serializeVal v) ++ ',' :: x,
      y, ?_, ?_⟩
    · rw [h1]
      simp
    · cases tl with
      | nil => exact absurd rfl htl
      | cons k2 v2 tl' =>
        rw [show serializeObj (.cons k v (.cons k2 v2 tl')) =
          ('"' :: escapeString k ++ '"' :: ':' :: serializeVal v) ++
            ',' :: serializeObj (.cons k2 v2 tl') from by simp [serializeObj], h2]
        simp

end

end Stylr

namespace Stylr

theorem teFail : ∀ (xs : JArray), cleanArr xs = true → xs ≠ .nil →
    ∀ (fuel : ℕ) (tail : JStr),
      parseElems fuel (serializeArr xs ++ (',' :: ']' :: tail)) = none
  | .nil, _, hne, _, _ => absurd rfl hne
  | .cons v .nil, h, _, fuel, tail => by
      have hv : cleanVal v = true := by
        simpa [cleanArr, Bool.and_eq_true, Bool.and_true, and_true] using h
      cases fuel with
      | zero => rfl
      | succ f =>
        rw [show serializeArr (.cons v .nil) = serializeVal v from by simp [serializeArr]]
        rw [parseElems]
        cases hpv : parseValue f (serializeVal v ++ (',' :: ']' :: tail)) with
        | none => rfl
        | some pr =>
          obtain ⟨w, r⟩ := pr
          rcases parseValSerInv hv (by rw [noDigitHeadCons]; decide) hpv with ⟨hw, hr⟩
          subst hw hr
          dsimp only
          rw [skipWsCons _ (by decide)]
          dsimp only
          rw [if_pos rfl]
          rw [parseElemsBadHead _ f (by decide) (by decide) (by decide) (by decide)
            (by decide) (by decide) (by decide) (by decide)]
  | .cons v (.cons w tl'), h, _, fuel, tail => by
      simp only [cleanArr, Bool.and_eq_true] at h
      obtain ⟨hv, ht⟩ := h
      cases fuel with
      | zero => rfl
      | succ f =>
        rw [show serializeArr (.cons v (.cons w tl')) ++ (',' :: ']' :: tail) =
          serializeVal v ++ (',' :: (serializeArr (.cons w tl') ++ (',' :: ']' :: tail)))
          from by
            rw [show serializeArr (.cons v (.cons w tl')) =
              serializeVal v ++ ',' :: serializeArr (.cons w tl') from by
                simp [serializeArr]]
            simp]
        rw [parseElems]
        cases hpv : parseValue f (serializeVal v ++
          (',' :: (serializeArr (.cons w tl') ++ (',' :: ']' :: tail)))) with
        | none => rfl
        | some pr =>
          obtain ⟨w', r⟩ := pr
          rcases parseValSerInv hv (by rw [noDigitHeadCons]; decide) hpv with ⟨hw, hr⟩
          subst hw hr
          dsimp only
          rw [skipWsCons _ (by decide)]
          dsimp only
          rw [if_pos rfl]
          rw [teFail (.cons w tl') (by simp only [cleanArr, Bool.and_eq_true]; exact ht)
            (fun hx => JArray.noConfusion hx) f tail]

theorem toFail : ∀ (fs : JObject), cleanObj fs = true → fs ≠ .nil →
    ∀ (fuel : ℕ) (tail : JStr),
      parseFields fuel (serializeObj fs ++ (',' :: '}' :: tail)) = none
  | .nil, _, hne, _, _ => absurd rfl hne
  | .cons k v .nil, h, _, fuel, tail => by
      simp only [cleanObj, Bool.and_eq_true, Bool.and_true, and_true] at h
      obtain ⟨hk, hv⟩ := h
      have hkmem := (cleanStrElim hk).1
      cases fuel with
      | zero => rfl
      | succ f =>
        rw [show serializeObj (.cons k v .nil) =
          '"' :: escapeString k ++ '"' :: ':' :: serializeVal v from by simp [serializeObj],
          escapeStringId hkmem]
        rw [show ('"' :: k ++ '"' :: ':' :: serializeVal v) ++ (',' :: '}' :: tail) =
          '"' :: (k ++ ('"' :: (':' :: (serializeVal v ++ (',' :: '}' :: tail)))))
          from by simp]
        rw [parseFields]
        rw [skipWsCons _ (by decide)]
        dsimp only
        rw [if_pos rfl]
        rw [parseStringBodyRT k _ (fun c hc => by
          rcases cleanCharElim (hkmem c hc) with ⟨-, -, -, -, h5, h6, -⟩
          exact ⟨h5, h6⟩)]
        dsimp only
        rw [skipWsCons _ (by decide)]
        dsimp only
        rw [if_pos rfl]
        cases hpv : parseValue f (serializeVal v ++ (',' :: '}' :: tail)) with
        | none => rfl
        | some pr =>
          obtain ⟨w, r⟩ := pr
          rcases parseValSerInv hv (by rw [noDigitHeadCons]; decide) hpv with ⟨hw, hr⟩
          subst hw hr
          dsimp only
          rw [skipWsCons _ (by decide)]
          dsimp only
          rw [if_pos rfl]
          rw [parseFieldsNotQuote _ f (by decide) (by decide)]
  | .cons k v (.cons k2 v2 tl'), h, _, fuel, tail => by
      simp only [cleanObj, Bool.and_eq_true] at h
      obtain ⟨⟨hk, hv⟩, ht⟩ := h
      have hkmem := (cleanStrElim hk).1
      cases fuel with
      | zero => rfl
      | succ f =>
        rw [show serializeObj (.cons k v (.cons k2 v2 tl')) ++ (',' :: '}' :: tail) =
          '"' :: (k ++ ('"' :: (':' :: (serializeVal v ++
            (',' :: (serializeObj (.cons k2 v2 tl') ++ (',' :: '}' :: tail)))))))
          from by
            rw [show serializeObj (.cons k v (.cons k2 v2 tl')) =
              ('"' :: escapeString k ++ '"' :: ':' :: serializeVal v) ++
                ',' :: serializeObj (.cons k2 v2 tl') from by simp [serializeObj],
              escapeStringId hkmem]
            simp]
        rw [parseFields]
        rw [skipWsCons _ (by decide)]
        dsimp only
        rw [if_pos rfl]
        rw [parseStringBodyRT k _ (fun c hc => by
          rcases cleanCharElim (hkmem c hc) with ⟨-, -, -, -, h5, h6, -⟩
          exact ⟨h5, h6⟩)]
        dsimp only
        rw [skipWsCons _ (by decide)]
        dsimp only
        rw [if_pos rfl]
        cases hpv : parseValue f (serializeVal v ++
          (',' :: (serializeObj (.cons k2 v2 tl') ++ (',' :: '}' :: tail)))) with
        | none => rfl
        | some pr =>
          obtain ⟨w, r⟩ := pr
          rcases parseValSerInv hv (by rw [noDigitHeadCons]; decide) hpv with ⟨hw, hr⟩
          subst hw hr
          dsimp only
          rw [skipWsCons _ (by decide)]
          dsimp only
          rw [if_pos rfl]
          rw [toFail (.cons k2 v2 tl') (by simp only [cleanObj, Bool.and_eq_true]; exact ht)
            (fun hx => JObject.noConfusion hx) f tail]

end Stylr

namespace Stylr

mutual

theorem tcorrVFail : ∀ {v : JValue} {s : JStr}, TCorrVal v s → cleanVal v = true →
    ∀ (fuel : ℕ) (tail : JStr), parseValue fuel (s ++ tail) = none
  | _, _, .arrHere xs, h, fuel, tail => by
    have hcl : cleanArr xs = true := by simpa [cleanVal] using h
    cases fuel with
    | zero => rfl
    | succ f =>
      rw [show ('[' :: serializeArr xs ++ [',', ']']) ++ tail =
        '[' :: (serializeArr xs ++ (',' :: ']' :: tail)) from by simp]
      simp only [parseValue]
      rw [skipWsCons _ (by decide)]
      dsimp only
      rw [if_neg (by decide), if_neg (by decide), if_neg (by decide), if_neg (by decide),
        if_neg (by decide), if_pos rfl]
      cases xs with
      | nil =>
        rw [show serializeArr (.nil : JArray) ++ (',' :: ']' :: tail) =
          ',' :: ']' :: tail from by simp [serializeArr]]
        rw [skipWsCons _ (by decide)]
        dsimp only
        rw [if_neg (by decide)]
        rw [parseElemsBadHead _ f (by decide) (by decide) (by decide) (by decide)
          (by decide) (by decide) (by decide) (by decide)]
      | cons w tl =>
        have hg := serGoodA (.cons w tl) hcl (fun hx => JArray.noConfusion hx)
        rcases List.exists_cons_of_ne_nil hg.1 with ⟨c0, t0, hct⟩
        rcases valueStartElim (hg.2.1 c0 (by rw [hct]; rfl)) with ⟨hws0, hne0, -⟩
        rw [show serializeArr (.cons w tl) ++ (',' :: ']' :: tail) =
          c0 :: (t0 ++ (',' :: ']' :: tail)) from by rw [hct]; rfl]
        rw [skipWsCons _ hws0]
        dsimp only
        rw [if_neg hne0]
        rw [show c0 :: (t0 ++ (',' :: ']' :: tail)) =
          serializeArr (.cons w tl) ++ (',' :: ']' :: tail) from by rw [hct]; rfl]
        rw [teFail (.cons w tl) hcl (fun hx => JArray.noConfusion hx) f tail]
  | _, _, .objHere fs, h, fuel, tail => by
    have hcl : cleanObj fs = true := by simpa [cleanVal] using h
    cases fuel with
    | zero => rfl
    | succ f =>
      rw [show ('{' :: serializeObj fs ++ [',', '}']) ++ tail =
        '{' :: (serializeObj fs ++ (',' :: '}' :: tail)) from by simp]
      simp only [parseValue]
      rw [skipWsCons _ (by decide)]
      dsimp only
      rw [if_neg (by decide), if_neg (by decide), if_neg (by decide), if_neg (by decide),
        if_neg (by decide), if_neg (by decide), if_pos rfl]
      cases fs with
      | nil =>
        rw [show serializeObj (.nil : JObject) ++ (',' :: '}' :: tail) =
          ',' :: '}' :: tail from by simp [serializeObj]]
        rw [skipWsCons _ (by decide)]
        dsimp only
        rw [if_neg (by decide)]
        rw [parseFieldsNotQuote _ f (by decide) (by decide)]
      | cons k w tl =>
        have hg := serGoodO (.cons k w tl) hcl (fun hx => JObject.noConfusion hx)
        rcases List.exists_cons_of_ne_nil hg.1 with ⟨c0, t0, hct⟩
        rcases valueStartElim (hg.2.1 c0 (by rw [hct]; rfl)) with ⟨hws0, -, hne0, -⟩
        rw [show serializeObj (.cons k w tl) ++ (',' :: '}' :: tail) =
          c0 :: (t0 ++ (',' :: '}' :: tail)) from by rw [hct]; rfl]
        rw [skipWsCons _ hws0]
        dsimp only
        rw [if_neg hne0]
        rw [show c0 :: (t0 ++ (',' :: '}' :: tail)) =
          serializeObj (.cons k w tl) ++ (',' :: '}' :: tail) from by rw [hct]; rfl]
        rw [toFail (.cons k w tl) hcl (fun hx => JObject.noConfusion hx) f tail]
  | _, _, .arrIn xs s' hd, h, fuel, tail => by
    have hcl : cleanArr xs = true := by simpa [cleanVal] using h
    cases fuel with
    | zero => rfl
    | succ f =>
      rw [show ('[' :: s' ++ [']']) ++ tail = '[' :: (s' ++ (']' :: tail)) from by simp]
      simp only [parseValue]
      rw [skipWsCons _ (by decide)]
      dsimp only
      rw [if_neg (by decide), if_neg (by decide), if_neg (by decide), if_neg (by decide),
        if_neg (by decide), if_pos rfl]
      rcases tcorrAHead hd hcl with ⟨c0, t0, hct, hstart⟩
      rcases valueStartElim hstart with ⟨hws0, hne0, -⟩
      rw [show s' ++ (']' :: tail) = c0 :: (t0 ++ (']' :: tail)) from by rw [hct]; rfl]
      rw [skipWsCons _ hws0]
      dsimp only
      rw [if_neg hne0]
      rw [show c0 :: (t0 ++ (']' :: tail)) = s' ++ (']' :: tail) from by rw [hct]; rfl]
      rw [tcorrAFail hd hcl f (']' :: tail)]
  | _, _, .objIn fs s' hd, h, fuel, tail => by
    have hcl : cleanObj fs = true := by simpa [cleanVal] using h
    cases fuel with
    | zero => rfl
    | succ f =>
      rw [show ('{' :: s' ++ ['}']) ++ tail = '{' :: (s' ++ ('}' :: tail)) from by simp]
      simp only [parseValue]
      rw [skipWsCons _ (by decide)]
      dsimp only
      rw [if_neg (by decide), if_neg (by decide), if_neg (by decide), if_neg (by decide),
        if_neg (by decide), if_neg (by decide), if_pos rfl]
      rcases tcorrOHead hd with ⟨t0, hct⟩
      rw [show s' ++ ('}' :: tail) = '"' :: (t0 ++ ('}' :: tail)) from by rw [hct]; rfl]
      rw [skipWsCons _ (by decide)]
      dsimp only
      rw [if_neg (by decide)]
      rw [show ('"' : Char) :: (t0 ++ ('}' :: tail)) = s' ++ ('}' :: tail) from by
        rw [hct]; rfl]
      rw [tcorrOFail hd hcl f ('}' :: tail)]

theorem tcorrAFail : ∀ {xs : JArray} {s : JStr}, TCorrArr xs s → cleanArr xs = true →
    ∀ (fuel : ℕ) (tail : JStr), parseElems fuel (s ++ tail) = none
  | _, _, .single v s' hd, h, fuel, tail => by
    have hv : cleanVal v = true := by
      simpa [cleanArr, Bool.and_eq_true, Bool.and_true, and_true] using h
    cases fuel with
    | zero => rfl
    | succ f =>
      rw [parseElems]
      rw [tcorrVFail hd hv f tail]
  | _, _, .headMore v tl s' htl hd, h, fuel, tail => by
    simp only [cleanArr, Bool.and_eq_true] at h
    obtain ⟨hv, -⟩ := h
    cases fuel with
    | zero => rfl
    | succ f =>
      rw [show (s' ++ ',' :: serializeArr tl) ++ tail =
        s' ++ (',' :: (serializeArr tl ++ tail)) from by simp]
      rw [parseElems]
      rw [tcorrVFail hd hv f _]
  | _, _, .tailMore v tl s' htl hd, h, fuel, tail => by
    simp only [cleanArr, Bool.and_eq_true] at h
    obtain ⟨hv, ht⟩ := h
    cases fuel with
    | zero => rfl
    | succ f =>
      rw [show (serializeVal v ++ ',' :: s') ++ tail =
        serializeVal v ++ (',' :: (s' ++ tail)) from by simp]
      rw [parseElems]
      cases hpv : parseValue f (serializeVal v ++ (',' :: (s' ++ tail))) with
      | none => rfl
      | some pr =>
        obtain ⟨w, r⟩ := pr
        rcases parseValSerInv hv (by rw [noDigitHeadCons]; decide) hpv with ⟨hw, hr⟩
        subst hw hr
        dsimp only
        rw [skipWsCons _ (by decide)]
        dsimp only
        rw [if_pos rfl]
        rw [tcorrAFail hd ht f tail]

theorem tcorrOFail : ∀ {fs : JObject} {s : JStr}, TCorrObj fs s → cleanObj fs = true →
    ∀ (fuel : ℕ) (tail : JStr), parseFields fuel (s ++ tail) = none
  | _, _, .single k v s' hd, h, fuel, tail => by
    simp only [cleanObj, Bool.and_eq_true, Bool.and_true, and_true] at h
    obtain ⟨hk, hv⟩ := h
    have hkmem := (cleanStrElim hk).1
    cases fuel with
    | zero => rfl
    | succ f =>
      rw [show ('"' :: escapeString k ++ '"' :: ':' :: s') ++ tail =
        '"' :: (escapeString k ++ ('"' :: (':' :: (s' ++ tail)))) from by simp,
        escapeStringId hkmem]
      rw [parseFields]
      rw [skipWsCons _ (by decide)]
      dsimp only
      rw [if_pos rfl]
      rw [parseStringBodyRT k _ (fun c hc => by
        rcases cleanCharElim (hkmem c hc) with ⟨-, -, -, -, h5, h6, -⟩
        exact ⟨h5, h6⟩)]
      dsimp only
      rw [skipWsCons _ (by decide)]
      dsimp only
      rw [if_pos rfl]
      rw [tcorrVFail hd hv f tail]
  | _, _, .headMore k v tl s' htl hd, h, fuel, tail => by
    simp only [cleanObj, Bool.and_eq_true] at h
    obtain ⟨⟨hk, hv⟩, -⟩ := h
    have hkmem := (cleanStrElim hk).1
    cases fuel with
    | zero => rfl
    | succ f =>
      rw [show (('"' :: escapeString k ++ '"' :: ':' :: s') ++
        ',' :: serializeObj tl) ++ tail =
          '"' :: (escapeString k ++ ('"' :: (':' :: (s' ++
            (',' :: (serializeObj tl ++ tail)))))) from by simp,
        escapeStringId hkmem]
      rw [parseFields]
      rw [skipWsCons _ (by decide)]
      dsimp only
      rw [if_pos rfl]
      rw [parseStringBodyRT k _ (fun c hc => by
        rcases cleanCharElim (hkmem c hc) with ⟨-, -, -, -, h5, h6, -⟩
        exact ⟨h5, h6⟩)]
      dsimp only
      rw [skipWsCons _ (by decide)]
      dsimp only
      rw [if_pos rfl]
      rw [tcorrVFail hd hv f _]
  | _, _, .tailMore k v tl s' htl hd, h, fuel, tail => by
    simp only [cleanObj, Bool.and_eq_true] at h
    obtain ⟨⟨hk, hv⟩, ht⟩ := h
    have hkmem := (cleanStrElim hk).1
    cases fuel with
    | zero => rfl
    | succ f =>
      rw [show (('"' :: escapeString k ++ '"' :: ':' :: serializeVal v) ++
        ',' :: s') ++ tail =
          '"' :: (escapeString k ++ ('"' :: (':' :: (serializeVal v ++
            (',' :: (s' ++ tail)))))) from by simp,
        escapeStringId hkmem]
      rw [parseFields]
      rw [skipWsCons _ (by decide)]
      dsimp only
      rw [if_pos rfl]
      rw [parseStringBodyRT k _ (fun c hc => by
        rcases cleanCharElim (hkmem c hc) with ⟨-, -, -, -, h5, h6, -⟩
        exact ⟨h5, h6⟩)]
      dsimp only
      rw [skipWsCons _ (by decide)]
      dsimp only
      rw [if_pos rfl]
      cases hpv : parseValue f (serializeVal v ++ (',' :: (s' ++ tail))) with
      | none => rfl
      | some pr =>
        obtain ⟨w, r⟩ := pr
        rcases parseValSerInv hv (by rw [noDigitHeadCons]; decide) hpv with ⟨hw, hr⟩
        subst hw hr
        dsimp only
        rw [skipWsCons _ (by decide)]
        dsimp only
        rw [if_pos rfl]
        rw [tcorrOFail hd ht f tail]

end

end Stylr

namespace Stylr

mutual

theorem ccorrVFail : ∀ {v : JValue} {s : JStr}, CCorrVal v s → cleanVal v = true →
    ∀ (fuel : ℕ) (tail : JStr), parseValue fuel (s ++ tail) = none
  | _, _, .arrIn xs s' hd, h, fuel, tail => by
    have hcl : cleanArr xs = true := by simpa [cleanVal] using h
    cases fuel with
    | zero => rfl
    | succ f =>
      rw [show ('[' :: s' ++ [']']) ++ tail = '[' :: (s' ++ (']' :: tail)) from by simp]
      simp only [parseValue]
      rw [skipWsCons _ (by decide)]
      dsimp only
      rw [if_neg (by decide), if_neg (by decide), if_neg (by decide), if_neg (by decide),
        if_neg (by decide), if_pos rfl]
      rcases ccorrAHead hd hcl with ⟨c0, t0, hct, hstart⟩
      rcases valueStartElim hstart with ⟨hws0, hne0, -⟩
      rw [show s' ++ (']' :: tail) = c0 :: (t0 ++ (']' :: tail)) from by rw [hct]; rfl]
      rw [skipWsCons _ hws0]
      dsimp only
      rw [if_neg hne0]
      rw [show c0 :: (t0 ++ (']' :: tail)) = s' ++ (']' :: tail) from by rw [hct]; rfl]
      rw [ccorrAFail hd hcl f (']' :: tail)]
  | _, _, .objIn fs s' hd, h, fuel, tail => by
    have hcl : cleanObj fs = true := by simpa [cleanVal] using h
    cases fuel with
    | zero => rfl
    | succ f =>
      rw [show ('{' :: s' ++ ['}']) ++ tail = '{' :: (s' ++ ('}' :: tail)) from by simp]
      simp only [parseValue]
      rw [skipWsCons _ (by decide)]
      dsimp only
      rw [if_neg (by decide), if_neg (by decide), if_neg (by decide), if_neg (by decide),
        if_neg (by decide), if_neg (by decide), if_pos rfl]
      rcases ccorrOHead hd with ⟨t0, hct⟩
      rw [show s' ++ ('}' :: tail) = '"' :: (t0 ++ ('}' :: tail)) from by rw [hct]; rfl]
      rw [skipWsCons _ (by decide)]
      dsimp only
      rw [if_neg (by decide)]
      rw [show ('"' : Char) :: (t0 ++ ('}' :: tail)) = s' ++ ('}' :: tail) from by
        rw [hct]; rfl]
      rw [ccorrOFail hd hcl f ('}' :: tail)]

theorem ccorrAFail : ∀ {xs : JArray} {s : JStr}, CCorrArr xs s → cleanArr xs = true →
    ∀ (fuel : ℕ) (tail : JStr), parseElems fuel (s ++ tail) = none
  | _, _, .single v s' hd, h, fuel, tail => by
    have hv : cleanVal v = true := by
      simpa [cleanArr, Bool.and_eq_true, Bool.and_true, and_true] using h
    cases fuel with
    | zero => rfl
    | succ f =>
      rw [parseElems]
      rw [ccorrVFail hd hv f tail]
  | _, _, .headMore v tl s' htl hd, h, fuel, tail => by
    simp only [cleanArr, Bool.and_eq_true] at h
    obtain ⟨hv, -⟩ := h
    cases fuel with
    | zero => rfl
    | succ f =>
      rw [show (s' ++ ',' :: serializeArr tl) ++ tail =
        s' ++ (',' :: (serializeArr tl ++ tail)) from by simp]
      rw [parseElems]
      rw [ccorrVFail hd hv f _]
  | _, _, .tailMore v tl s' htl hd, h, fuel, tail => by
    simp only [cleanArr, Bool.and_eq_true] at h
    obtain ⟨hv, ht⟩ := h
    cases fuel with
    | zero => rfl
    | succ f =>
      rw [show (serializeVal v ++ ',' :: s') ++ tail =
        serializeVal v ++ (',' :: (s' ++ tail)) from by simp]
      rw [parseElems]
      cases hpv : parseValue f (serializeVal v ++ (',' :: (s' ++ tail))) with
      | none => rfl
      | some pr =>
        obtain ⟨w, r⟩ := pr
        rcases parseValSerInv hv (by rw [noDigitHeadCons]; decide) hpv with ⟨hw, hr⟩
        subst hw hr
        dsimp only
        rw [skipWsCons _ (by decide)]
        dsimp only
        rw [if_pos rfl]
        rw [ccorrAFail hd ht f tail]

theorem ccorrOFail : ∀ {fs : JObject} {s : JStr}, CCorrObj fs s → cleanObj fs = true →
    ∀ (fuel : ℕ) (tail : JStr), parseFields fuel (s ++ tail) = none
  | _, _, .colonSingle k v, h, fuel, tail => by
    simp only [cleanObj, Bool.and_eq_true, Bool.and_true, and_true] at h
    obtain ⟨hk, hv⟩ := h
    have hkmem := (cleanStrElim hk).1
    cases fuel with
    | zero => rfl
    | succ f =>
      rw [show ('"' :: escapeString k ++ '"' :: ':' :: ':' :: serializeVal v) ++ tail =
        '"' :: (escapeString k ++ ('"' :: (':' :: (':' :: (serializeVal v ++ tail)))))
        from by simp, escapeStringId hkmem]
      rw [parseFields]
      rw [skipWsCons _ (by decide)]
      dsimp only
      rw [if_pos rfl]
      rw [parseStringBodyRT k _ (fun c hc => by
        rcases cleanCharElim (hkmem c hc) with ⟨-, -, -, -, h5, h6, -⟩
        exact ⟨h5, h6⟩)]
      dsimp only
      rw [skipWsCons _ (by decide)]
      dsimp only
      rw [if_pos rfl]
      rw [parseValueBadHead _ f (by decide) (by decide) (by decide) (by decide)
        (by decide) (by decide) (by decide) (by decide)]
  | _, _, .colonMore k v tl htl, h, fuel, tail => by
    simp only [cleanObj, Bool.and_eq_true] at h
    obtain ⟨⟨hk, hv⟩, -⟩ := h
    have hkmem := (cleanStrElim hk).1
    cases fuel with
    | zero => rfl
    | succ f =>
      rw [show (('"' :: escapeString k ++ '"' :: ':' :: ':' :: serializeVal v) ++
        ',' :: serializeObj tl) ++ tail =
          '"' :: (escapeString k ++ ('"' :: (':' :: (':' :: (serializeVal v ++
            (',' :: (serializeObj tl ++ tail))))))) from by simp, escapeStringId hkmem]
      rw [parseFields]
      rw [skipWsCons _ (by decide)]
      dsimp only
      rw [if_pos rfl]
      rw [parseStringBodyRT k _ (fun c hc => by
        rcases cleanCharElim (hkmem c hc) with ⟨-, -, -, -, h5, h6, -⟩
        exact ⟨h5, h6⟩)]
      dsimp only
      rw [skipWsCons _ (by decide)]
      dsimp only
      rw [if_pos rfl]
      rw [parseValueBadHead _ f (by decide) (by decide) (by decide) (by decide)
        (by decide) (by decide) (by decide) (by decide)]
  | _, _, .single k v s' hd, h, fuel, tail => by
    simp only [cleanObj, Bool.and_eq_true, Bool.and_true, and_true] at h
    obtain ⟨hk, hv⟩ := h
    have hkmem := (cleanStrElim hk).1
    cases fuel with
    | zero => rfl
    | succ f =>
      rw [show ('"' :: escapeString k ++ '"' :: ':' :: s') ++ tail =
        '"' :: (escapeString k ++ ('"' :: (':' :: (s' ++ tail)))) from by simp,
        escapeStringId hkmem]
      rw [parseFields]
      rw [skipWsCons _ (by decide)]
      dsimp only
      rw [if_pos rfl]
      rw [parseStringBodyRT k _ (fun c hc => by
        rcases cleanCharElim (hkmem c hc) with ⟨-, -, -, -, h5, h6, -⟩
        exact ⟨h5, h6⟩)]
      dsimp only
      rw [skipWsCons _ (by decide)]
      dsimp only
      rw [if_pos rfl]
      rw [ccorrVFail hd hv f tail]
  | _, _, .headMore k v tl s' htl hd, h, fuel, tail => by
    simp only [cleanObj, Bool.and_eq_true] at h
    obtain ⟨⟨hk, hv⟩, -⟩ := h
    have hkmem := (cleanStrElim hk).1
    cases fuel with
    | zero => rfl
    | succ f =>
      rw [show (('"' :: escapeString k ++ '"' :: ':' :: s') ++
        ',' :: serializeObj tl) ++ tail =
          '"' :: (escapeString k ++ ('"' :: (':' :: (s' ++
            (',' :: (serializeObj tl ++ tail)))))) from by simp,
        escapeStringId hkmem]
      rw [parseFields]
      rw [skipWsCons _ (by decide)]
      dsimp only
      rw [if_pos rfl]
      rw [parseStringBodyRT k _ (fun c hc => by
        rcases cleanCharElim (hkmem c hc) with ⟨-, -, -, -, h5, h6, -⟩
        exact ⟨h5, h6⟩)]
      dsimp only
      rw [skipWsCons _ (by decide)]
      dsimp only
      rw [if_pos rfl]
      rw [ccorrVFail hd hv f _]
  | _, _, .tailMore k v tl s' htl hd, h, fuel, tail => by
    simp only [cleanObj, Bool.and_eq_true] at h
    obtain ⟨⟨hk, hv⟩, ht⟩ := h
    have hkmem := (cleanStrElim hk).1
    cases fuel with
    | zero => rfl
    | succ f =>
      rw [show (('"' :: escapeString k ++ '"' :: ':' :: serializeVal v) ++
        ',' :: s') ++ tail =
          '"' :: (escapeString k ++ ('"' :: (':' :: (serializeVal v ++
            (',' :: (s' ++ tail)))))) from by simp,
        escapeStringId hkmem]
      rw [parseFields]
      rw [skipWsCons _ (by decide)]
      dsimp only
      rw [if_pos rfl]
      rw [parseStringBodyRT k _ (fun c hc => by
        rcases cleanCharElim (hkmem c hc) with ⟨-, -, -, -, h5, h6, -⟩
        exact ⟨h5, h6⟩)]
      dsimp only
      rw [skipWsCons _ (by decide)]
      dsimp only
      rw [if_pos rfl]
      cases hpv : parseValue f (serializeVal v ++ (',' :: (s' ++ tail))) with
      | none => rfl
      | some pr =>
        obtain ⟨w, r⟩ := pr
        rcases parseValSerInv hv (by rw [noDigitHeadCons]; decide) hpv with ⟨hw, hr⟩
        subst hw hr
        dsimp only
        rw [skipWsCons _ (by decide)]
        dsimp only
        rw [if_pos rfl]
        rw [ccorrOFail hd ht f tail]

end

end Stylr

namespace Stylr

theorem memInsert {x y : JStr} {c0 c : Char} (h : c ∈ x ++ c0 :: y) :
    c ∈ x ++ y ∨ c = c0 := by
  rcases List.mem_append.mp h with h | h
  · exact Or.inl (List.mem_append_left y h)
  · rcases List.mem_cons.mp h with h | h
    · exact Or.inr h
    · exact Or.inl (List.mem_append_right x h)

theorem rtcRecover {x y : JStr} {cl : Char} (hcl : cl = '}' ∨ cl = ']')
    (hmem : ∀ c ∈ x ++ cl :: y, jsWsB c = false)
    (hch : chainPairsB okPairB (x ++ cl :: y) = true) :
    removeTrailingCommas (x ++ ',' :: cl :: y) = x ++ cl :: y := by
  have hclws : jsWsB cl = false := by
    rcases hcl with h | h <;> rw [h] <;> decide
  have hmx : ∀ c ∈ x, jsWsB c = false := fun c hc => hmem c (List.mem_append_left _ hc)
  have hmy : ∀ c ∈ y, jsWsB c = false := fun c hc =>
    hmem c (List.mem_append_right _ (by simp [hc]))
  rw [chainAppendIff] at hch
  obtain ⟨hchx, hchcy, hbdry⟩ := hch
  have hchy : chainPairsB okPairB y = true := ((chainConsIff _ _ _).mp hchcy).1
  have hguard : ∀ a, x.getLast? = some a → a ≠ ',' := by
    intro a ha hx
    have hok := hbdry a cl ha rfl
    rcases okPairElim hok with ⟨-, -, -, -, h5, h6⟩
    rcases hcl with h | h
    · exact h5 ⟨hx, h⟩
    · exact h6 ⟨hx, h⟩
  unfold removeTrailingCommas
  rw [show (x ++ ',' :: cl :: y).length = x.length + ((y.length + 1) + 1) from by
    simp [List.length_append, List.length_cons]]
  rw [rtcAuxTransparent x hmx hchx hguard ((y.length + 1) + 1) (',' :: cl :: y)]
  rw [rtcConsEq, if_pos rfl]
  rw [show List.dropWhile jsWsB (cl :: y) = cl :: y from by
    rw [List.dropWhile_cons, hclws]; rfl]
  dsimp only
  rw [if_pos hcl]
  rw [show List.takeWhile jsWsB (cl :: y) = [] from by
    rw [List.takeWhile_cons, hclws]; rfl]
  rw [rtcAuxNoop (y.length + 1) y hmy hchy]
  rfl

theorem fixDCRecover {x y : JStr}
    (hch : chainPairsB okPairB (x ++ ':' :: y) = true) :
    fixDoubleColons (x ++ ':' :: ':' :: y) = x ++ ':' :: y := by
  rw [chainAppendIff] at hch
  obtain ⟨hchx, hchcy, hbdry⟩ := hch
  have hchy : chainPairsB okPairB y = true := ((chainConsIff _ _ _).mp hchcy).1
  have hguard : ∀ a, x.getLast? = some a → a ≠ ':' := by
    intro a ha hx
    have hok := hbdry a ':' ha rfl
    rcases okPairElim hok with ⟨h1, -⟩
    exact h1 ⟨hx, rfl⟩
  rw [fixDCTransparent x (chainWeaken okPairToNoCC hchx) hguard (':' :: ':' :: y)]
  rw [fixDCCons2, if_pos ⟨rfl, rfl⟩, fixDCNoop (chainWeaken okPairToNoCC hchy)]

theorem extractId {mid : JStr} (hd : okDepth mid 0 = some 0) :
    extractJSON ('{' :: mid ++ ['}']) = .ok ('{' :: mid ++ ['}']) := by
  unfold extractJSON
  dsimp only
  rw [show List.takeWhile (fun c => decide (c ≠ '{')) ('{' :: mid ++ ['}']) = [] from by
    rw [show ('{' :: mid ++ ['}'] : JStr) = '{' :: (mid ++ ['}']) from rfl,
      List.takeWhile_cons]
    simp]
  rw [if_neg (by simp)]
  rw [List.length_nil, List.drop_zero]
  rw [show ('{' :: mid ++ ['}'] : JStr) = '{' :: (mid ++ ['}']) from rfl, findCloseCons,
    if_pos rfl]
  rw [show (0 : ℕ) + 1 = 0 + 1 from rfl, findCloseOfDepth mid ['}'] 0 0 1 hd]
  rw [findCloseCons, if_neg (by decide), if_pos rfl, if_pos rfl]
  dsimp only
  rw [show 1 + mid.length + 1 = ('{' :: (mid ++ ['}'] : JStr)).length from by
    simp [List.length_cons, List.length_append]
    omega]
  rw [List.take_length]

theorem cleanedId {s : JStr} (hmem : ∀ c ∈ s, c ≠ '`' ∧ jsWsB c = false) :
    jsTrim (stripBareFences (stripJsonFences (jsTrim s))) = s := by
  rw [jsTrimNoop (fun c hc => (hmem c hc).2),
    stripJsonFencesNoop (fun c hc => (hmem c hc).1),
    stripBareFencesNoop (fun c hc => (hmem c hc).1),
    jsTrimNoop (fun c hc => (hmem c hc).2)]

theorem jsonParseSer {v : JValue} (hv : cleanVal v = true) :
    jsonParse (serializeVal v) = some v := by
  unfold jsonParse
  have h := rtV v hv ((serializeVal v).length + 1) [] (by
    have := muVLe v
    omega) rfl
  rw [List.append_nil] at h
  rw [h]
  dsimp only
  rw [if_pos (show skipWs [] = ([] : JStr) from rfl)]

theorem jsonParseCorrupt {s : JStr}
    (hfail : ∀ (fuel : ℕ) (tail : JStr), parseValue fuel (s ++ tail) = none) :
    jsonParse s = none := by
  unfold jsonParse
  have h := hfail (s.length + 1) []
  rw [List.append_nil] at h
  rw [h]

theorem objDepthZero (fs : JObject) (hclean : cleanObj fs = true) :
    okDepth (serializeObj fs) 0 = some 0 := by
  cases fs with
  | nil =>
    rw [show serializeObj .nil = [] from by simp [serializeObj]]
    rfl
  | cons k v tl =>
    exact (serGoodO (.cons k v tl) hclean (fun hx => JObject.noConfusion hx)).2.2.2.2.2 0

theorem tcorrObjShape {fs : JObject} {s : JStr} (h : TCorrVal (.obj fs) s)
    (hclean : cleanObj fs = true) :
    ∃ mid, s = '{' :: mid ++ ['}'] ∧ okDepth mid 0 = some 0 := by
  have hdmid := objDepthZero fs hclean
  cases h with
  | objHere =>
    refine ⟨serializeObj fs ++ [','], by simp, ?_⟩
    rw [okDepthAppend _ _ 0 0 hdmid]
    rfl
  | objIn _ s' hd =>
    rcases tcorrODecomp hd with ⟨x, cl, y, h1, h2, -⟩
    refine ⟨s', rfl, ?_⟩
    rw [h1, okDepthInsert x (cl :: y) ',' 0 (by decide) (by decide), ← h2]
    exact hdmid

theorem ccorrObjShape {fs : JObject} {s : JStr} (h : CCorrVal (.obj fs) s)
    (hclean : cleanObj fs = true) :
    ∃ mid, s = '{' :: mid ++ ['}'] ∧ okDepth mid 0 = some 0 := by
  have hdmid := objDepthZero fs hclean
  cases h with
  | objIn _ s' hd =>
    rcases ccorrODecomp hd with ⟨x, y, h1, h2⟩
    refine ⟨s', rfl, ?_⟩
    rw [h1, okDepthInsert x (':' :: y) ':' 0 (by decide) (by decide), ← h2]
    exact hdmid

end Stylr

namespace Stylr

theorem robustSerOk (fs : JObject) (hclean : cleanObj fs = true) :
    parseJSONRobust (serializeVal (.obj fs)) = .ok (.obj fs) := by
  have hv : cleanVal (.obj fs) = true := by simpa [cleanVal] using hclean
  have hg := serGoodV (.obj fs) hv
  obtain ⟨hgne, hghead, hglast, hgchain, hgmem, hgdepth⟩ := hg
  have hdmid := objDepthZero fs hclean
  unfold parseJSONRobust
  dsimp only
  rw [cleanedId hgmem]
  have hexf : extractJSONOrFallback (serializeVal (.obj fs)) =
      .ok (serializeVal (.obj fs)) := by
    unfold extractJSONOrFallback
    rw [show serializeVal (.obj fs) = '{' :: serializeObj fs ++ ['}'] from by
      simp [serializeVal]]
    rw [extractId hdmid]
  rw [hexf]
  dsimp only
  rw [jsonParseSer hv]

theorem robustTCorr (fs : JObject) (hclean : cleanObj fs = true) (s : JStr)
    (hcorr : TCorrVal (.obj fs) s) : parseJSONRobust s = .ok (.obj fs) := by
  have hv : cleanVal (.obj fs) = true := by simpa [cleanVal] using hclean
  have hg := serGoodV (.obj fs) hv
  obtain ⟨hgne, hghead, hglast, hgchain, hgmem, hgdepth⟩ := hg
  rcases tcorrVDecomp hcorr with ⟨x, cl, y, h1, h2, h3⟩
  have hwmem : ∀ c ∈ x ++ cl :: y, jsWsB c = false := by
    intro c hc
    exact (hgmem c (by rw [h2]; exact hc)).2
  have hwch : chainPairsB okPairB (x ++ cl :: y) = true := by
    rw [← h2]
    exact hgchain
  have hsmem : ∀ c ∈ s, c ≠ '`' ∧ jsWsB c = false := by
    intro c hc
    rw [h1] at hc
    rcases memInsert hc with hc | hc
    · exact hgmem c (by rw [h2]; exact hc)
    · rw [hc]
      exact ⟨by decide, by decide⟩
  have hnone : jsonParse s = none := jsonParseCorrupt (tcorrVFail hcorr hv)
  have hrep : repairJSON s = serializeVal (.obj fs) := by
    unfold repairJSON
    dsimp only
    have hnocc : chainPairsB noColonColon s = true := by
      rw [h1]
      exact chainNoCCInsert (by decide) (chainWeaken okPairToNoCC hwch)
    rw [fixDCNoop hnocc]
    rw [show removeTrailingCommas s = x ++ cl :: y from by
      rw [h1]
      exact rtcRecover h3 hwmem hwch]
    rw [show removeLineComments (x ++ cl :: y) = x ++ cl :: y from
      rlcAuxNoop _ _ hwch]
    rw [show removeBlockComments (x ++ cl :: y) = x ++ cl :: y from
      rbcAuxNoop _ _ hwch]
    rw [show collapseCommas (x ++ cl :: y) = x ++ cl :: y from ccAuxNoop _ _ hwch]
    rw [show removeCommasBeforeBracket (x ++ cl :: y) = x ++ cl :: y from
      rcbBracketAuxNoop _ _ hwmem hwch]
    rw [show removeCommasBeforeBrace (x ++ cl :: y) = x ++ cl :: y from
      rcbBraceAuxNoop _ _ hwmem hwch]
    exact h2.symm
  unfold parseJSONRobust
  dsimp only
  rw [cleanedId hsmem]
  have hexf : extractJSONOrFallback s = .ok s := by
    unfold extractJSONOrFallback
    rcases tcorrObjShape hcorr hclean with ⟨mid, hsh, hdm⟩
    rw [hsh, extractId hdm]
  rw [hexf]
  dsimp only
  rw [hnone]
  dsimp only
  rw [hrep, jsonParseSer hv]

theorem robustCCorr (fs : JObject) (hclean : cleanObj fs = true) (s : JStr)
    (hcorr : CCorrVal (.obj fs) s) : parseJSONRobust s = .ok (.obj fs) := by
  have hv : cleanVal (.obj fs) = true := by simpa [cleanVal] using hclean
  have hg := serGoodV (.obj fs) hv
  obtain ⟨hgne, hghead, hglast, hgchain, hgmem, hgdepth⟩ := hg
  rcases ccorrVDecomp hcorr with ⟨x, y, h1, h2⟩
  have hwmem : ∀ c ∈ x ++ ':' :: y, jsWsB c = false := by
    intro c hc
    exact (hgmem c (by rw [h2]; exact hc)).2
  have hwch : chainPairsB okPairB (x ++ ':' :: y) = true := by
    rw [← h2]
    exact hgchain
  have hsmem : ∀ c ∈ s, c ≠ '`' ∧ jsWsB c = false := by
    intro c hc
    rw [h1] at hc
    rcases memInsert hc with hc | hc
    · exact hgmem c (by rw [h2]; exact hc)
    · rw [hc]
      exact ⟨by decide, by decide⟩
  have hnone : jsonParse s = none := jsonParseCorrupt (ccorrVFail hcorr hv)
  have hrep : repairJSON s = serializeVal (.obj fs) := by
    unfold repairJSON
    dsimp only
    rw [show fixDoubleColons s = x ++ ':' :: y from by
      rw [h1]
      exact fixDCRecover hwch]
    rw [show removeTrailingCommas (x ++ ':' :: y) = x ++ ':' :: y from
      rtcNoop hwmem hwch]
    rw [show removeLineComments (x ++ ':' :: y) = x ++ ':' :: y from
      rlcAuxNoop _ _ hwch]
    rw [show removeBlockComments (x ++ ':' :: y) = x ++ ':' :: y from
      rbcAuxNoop _ _ hwch]
    rw [show collapseCommas (x ++ ':' :: y) = x ++ ':' :: y from ccAuxNoop _ _ hwch]
    rw [show removeCommasBeforeBracket (x ++ ':' :: y) = x ++ ':' :: y from
      rcbBracketAuxNoop _ _ hwmem hwch]
    rw [show removeCommasBeforeBrace (x ++ ':' :: y) = x ++ ':' :: y from
      rcbBraceAuxNoop _ _ hwmem hwch]
    exact h2.symm
  unfold parseJSONRobust
  dsimp only
  rw [cleanedId hsmem]
  have hexf : extractJSONOrFallback s = .ok s := by
    unfold extractJSONOrFallback
    rcases ccorrObjShape hcorr hclean with ⟨mid, hsh, hdm⟩
    rw [hsh, extractId hdm]
  rw [hexf]
  dsimp only
  rw [hnone]
  dsimp only
  rw [hrep, jsonParseSer hv]

/-- C6 counterexample: the claimed round trip fails in general.  The
object with the single field a mapped to the one-character string
consisting of a closing brace serializes to {"a":"}"} as JSON.stringify
does, but parseJSONRobust on that very serialization reports the final
parse failure instead of recovering the object: extractJSON counts the
brace inside the string literal and truncates the candidate before its
real closing brace, and no repair strategy reopens it. -/
theorem parseJSONRobust_roundtrip_counterexample :
    serializeVal (.obj (.cons ['a'] (.str ['}']) .nil)) =
      ['{', '"', 'a', '"', ':', '"', '}', '"', '}'] ∧
    parseJSONRobust (serializeVal (.obj (.cons ['a'] (.str ['}']) .nil))) =
      .error "Failed to parse JSON after repair attempts".data :=
  ⟨by decide, by decide⟩

/-- C6 amended: for objects whose keys and string contents are clean —
no braces, brackets, quotes, backslashes, backticks, whitespace or
control characters, and no adjacent pair that a repair regex rewrites
(double colon, double comma, comment openers, comma before a closer) —
parseJSONRobust recovers the object from its exact serialization, and
also from the serialization corrupted by one trailing comma inserted
before a closing brace or bracket (TCorrVal) or by one doubled colon
after a key (CCorrVal); the corrupted inputs fail the plain parse and
are repaired by strategy 2's repairJSON. -/
theorem parseJSONRobust_roundtrip_amended (fs : JObject)
    (hclean : cleanObj fs = true) :
    parseJSONRobust (serializeVal (.obj fs)) = .ok (.obj fs) ∧
    (∀ s, TCorrVal (.obj fs) s → parseJSONRobust s = .ok (.obj fs)) ∧
    (∀ s, CCorrVal (.obj fs) s → parseJSONRobust s = .ok (.obj fs)) :=
  ⟨robustSerOk fs hclean, fun s hc => robustTCorr fs hclean s hc,
   fun s hc => robustCCorr fs hclean s hc⟩

/-- Witness for the amended C6 theorem at concrete inputs: the two-field
object with a string and a negative number round-trips, recovers from a
trailing comma before its closing brace, and a one-field object recovers
from a doubled colon after its key. -/
theorem parseJSONRobust_roundtrip_amended_witness :
    cleanObj (.cons ['a'] (.str ['h', 'i']) (.cons ['n'] (.num (-12)) .nil)) = true ∧
    parseJSONRobust (serializeVal (.obj (.cons ['a'] (.str ['h', 'i'])
      (.cons ['n'] (.num (-12)) .nil)))) =
      .ok (.obj (.cons ['a'] (.str ['h', 'i']) (.cons ['n'] (.num (-12)) .nil))) ∧
    parseJSONRobust ('{' :: serializeObj (.cons ['a'] (.str ['h', 'i'])
      (.cons ['n'] (.num (-12)) .nil)) ++ [',', '}']) =
      .ok (.obj (.cons ['a'] (.str ['h', 'i']) (.cons ['n'] (.num (-12)) .nil))) ∧
    parseJSONRobust ('{' :: ('"' :: escapeString ['a'] ++ '"' :: ':' :: ':' ::
      serializeVal (.num 1)) ++ ['}']) = .ok (.obj (.cons ['a'] (.num 1) .nil)) :=
  ⟨by decide,
   (parseJSONRobust_roundtrip_amended _ (by decide)).1,
   (parseJSONRobust_roundtrip_amended _ (by decide)).2.1 _ (TCorrVal.objHere _),
   (parseJSONRobust_roundtrip_amended _ (by decide)).2.2 _
     (CCorrVal.objIn _ _ (CCorrObj.colonSingle ['a'] (.num 1)))⟩

end Stylr
